import Mathlib

/-!
# Read-through user cache and team-role helpers

Two developments over the mattermost-server slice.

* `LocalCache`: the read-through entity cache for user lookups
  (`store/localcachelayer`).  Only its test file is part of the slice, so the
  decorator is modelled from the specification; the test file fixes the
  observable call counts.  Go pointers are made explicit: user structs and
  their string maps live in a heap and are referred to by address, so that
  "distinct object" and "mutating the returned value" have a meaning.
* `SqlStore`: `getTeamRoles`, `teamMemberWithSchemeRoles.ToModel` and the
  methods `GetByInviteID`, `AnalyticsTeamCount`, `GetTeamsForUserWithPagination`,
  `MigrateTeamMembers`, `ClearAllCustomRoleAssignments` and `UpdateMembersRole`
  of `store/sqlstore/team_store.go`, and `UpdateExpiredDNDStatuses` of
  `store/sqlstore/status_store.go`, translated from the source.  A table is a
  list of rows, a statement is given by its effect on the table, and the
  answers of the database driver (failures, the clock) are parameters.
-/

namespace LocalCache

/-! ## Heap of user objects

An address is a natural number: the position of the object in the heap. -/

/-- Contents of a Go `map[string]string` (`model.StringMap`). -/
abbrev StringMap := List (String × String)

/-- Content of a user record: the identifier, the scalar fields the tests set,
and the three nested string maps, all by value. -/
structure User where
  ID : String
  AuthData : Option String
  AuthService : String
  NotifyProps : StringMap
  Props : StringMap
  Timezone : StringMap
deriving DecidableEq, Repr

/-- A `model.User` struct in memory.  Go maps are references, so the three
nested maps are addresses into the map heap. -/
structure UserObj where
  ID : String
  AuthData : Option String
  AuthService : String
  NotifyProps : Nat
  Props : Nat
  Timezone : Nat
deriving DecidableEq, Repr, Inhabited

/-- Memory: allocated user structs and allocated maps, addressed by position. -/
structure Heap where
  users : List UserObj
  maps : List StringMap
deriving DecidableEq, Repr

/-- Struct stored at a user address. -/
def Heap.user (h : Heap) (a : Nat) : UserObj := h.users.getD a default

/-- Map stored at a map address. -/
def Heap.map (h : Heap) (a : Nat) : StringMap := h.maps.getD a []

/-- Content of the user object at address `a`, nested maps resolved. -/
def Heap.content (h : Heap) (a : Nat) : User :=
  let o := h.user a
  { ID := o.ID, AuthData := o.AuthData, AuthService := o.AuthService
    NotifyProps := h.map o.NotifyProps
    Props := h.map o.Props
    Timezone := h.map o.Timezone }

/-- A user address is valid when the struct is allocated and so are its maps. -/
def Heap.valid (h : Heap) (a : Nat) : Prop :=
  a < h.users.length ∧ (h.user a).NotifyProps < h.maps.length ∧
    (h.user a).Props < h.maps.length ∧ (h.user a).Timezone < h.maps.length

instance (h : Heap) (a : Nat) : Decidable (h.valid a) := by
  unfold Heap.valid; infer_instance

/-- Replacement of the contents of the map at address `m`. -/
def Heap.writeMap (h : Heap) (m : Nat) (v : StringMap) : Heap :=
  { h with maps := h.maps.set m v }

/-- Go's `m[k] = v` on map contents. -/
def mapAssign (m : StringMap) (k v : String) : StringMap :=
  (k, v) :: m.filter (fun e => e.1 != k)

/-- The statement `u.NotifyProps[k] = v` for the user struct at address `a`. -/
def Heap.setNotifyProp (h : Heap) (a : Nat) (k v : String) : Heap :=
  h.writeMap (h.user a).NotifyProps (mapAssign (h.map (h.user a).NotifyProps) k v)

/-- Addresses of the maps the struct at `a` points to. -/
def Heap.mapsOf (h : Heap) (a : Nat) : List Nat :=
  [(h.user a).NotifyProps, (h.user a).Props, (h.user a).Timezone]

/-- Two objects share no memory: they are different structs and none of the
maps of the first is a map of the second. -/
def Heap.Separate (h : Heap) (a b : Nat) : Prop :=
  a ≠ b ∧ ∀ m ∈ h.mapsOf a, m ∉ h.mapsOf b

instance (h : Heap) (a b : Nat) : Decidable (h.Separate a b) := by
  unfold Heap.Separate; infer_instance

/-- The heap `h2` results from `h1` by mutating the object at `a`: writes to the
fields of the struct at `a` and to the maps that struct points to in `h1`;
nothing is allocated and every other struct and map is as in `h1`. -/
def Heap.MutationOf (h1 h2 : Heap) (a : Nat) : Prop :=
  h2.users.length = h1.users.length ∧ h2.maps.length = h1.maps.length ∧
  (∀ b, b ≠ a → h2.user b = h1.user b) ∧ (∀ m, m ∉ h1.mapsOf a → h2.map m = h1.map m)

/-- The heap `h2` results from `h1` by mutating the objects at the addresses
`as` (the elements of a returned list): writes to the fields of these structs
and to the maps they point to in `h1`; nothing is allocated and every other
struct and map is as in `h1`. -/
def Heap.MutationOfAll (h1 h2 : Heap) (as : List Nat) : Prop :=
  h2.users.length = h1.users.length ∧ h2.maps.length = h1.maps.length ∧
  (∀ b, b ∉ as → h2.user b = h1.user b) ∧
  (∀ m, (∀ a ∈ as, m ∉ h1.mapsOf a) → h2.map m = h1.map m)

/-- The heap `h2` is obtained from `h1` by allocation only. -/
def Heap.Grows (h1 h2 : Heap) : Prop :=
  (∃ us, h2.users = h1.users ++ us) ∧ (∃ ms, h2.maps = h1.maps ++ ms)

/-- The object at `a` in `h2` was allocated, with its maps, after `h1`. -/
def Heap.Fresh (h1 h2 : Heap) (a : Nat) : Prop :=
  h1.users.length ≤ a ∧ ∀ m ∈ h2.mapsOf a, h1.maps.length ≤ m

/-- Modelled from the spec: the structural deep copy of a user record (the
clone operation of §4.1 "Copy-isolation algorithm" and §9; the `model` package
is not part of the slice).  Three fresh maps with the contents of the
source's maps and a fresh struct pointing at them are allocated; the address
of the new struct is returned. -/
def DeepCopy (h : Heap) (a : Nat) : Nat × Heap :=
  let o := h.user a
  let n := h.maps.length
  (h.users.length,
   { users := h.users ++ [{ o with NotifyProps := n, Props := n + 1, Timezone := n + 2 }]
     maps := h.maps ++ [h.map o.NotifyProps, h.map o.Props, h.map o.Timezone] })

/-- Deep copy of a list of records, left to right. -/
def DeepCopyList (h : Heap) : List Nat → List Nat × Heap
  | [] => ([], h)
  | a :: as =>
    let r := DeepCopy h a
    let rs := DeepCopyList r.2 as
    (r.1 :: rs.1, rs.2)

/-- Deep copy of a mapping from user id to record. -/
def DeepCopyMap (h : Heap) : List (String × Nat) → List (String × Nat) × Heap
  | [] => ([], h)
  | (k, a) :: es =>
    let r := DeepCopy h a
    let rs := DeepCopyMap r.2 es
    ((k, r.1) :: rs.1, rs.2)

/-! ## Cache store (§4.2) -/

/-- Modelled from the spec: the cache store capability of §4.2 (the cache
provider is not part of the slice): a key→value store, one value per key.
Entries leave the cache only through `Remove` and `Clear`; the size/TTL policy
is external and is not modelled. -/
structure Cache (κ : Type) (ν : Type) where
  entries : List (κ × ν)
  nodup : (entries.map Prod.fst).Nodup

instance {κ ν : Type} [DecidableEq κ] [DecidableEq ν] : DecidableEq (Cache κ ν) :=
  fun a b => decidable_of_iff (a.entries = b.entries)
    ⟨fun h => by cases a; cases b; cases h; rfl, fun h => by rw [h]⟩

instance {κ ν : Type} [Repr κ] [Repr ν] : Repr (Cache κ ν) :=
  ⟨fun c n => reprPrec c.entries n⟩

/-- The cache without entries. -/
def Cache.empty {κ ν : Type} : Cache κ ν := ⟨[], List.nodup_nil⟩

/-- Modelled from the spec: `Get(key) -> (value, found)` of §4.2. -/
def Cache.Get {κ ν : Type} [DecidableEq κ] (c : Cache κ ν) (k : κ) : Option ν :=
  List.lookup k c.entries

/-- Modelled from the spec: `Remove(key)` of §4.2. -/
def Cache.Remove {κ ν : Type} [DecidableEq κ] (c : Cache κ ν) (k : κ) : Cache κ ν :=
  ⟨c.entries.filter (fun e => decide (e.1 ≠ k)),
   (c.nodup.sublist ((List.filter_sublist c.entries).map Prod.fst))⟩

/-- Modelled from the spec: `Set(key, value, ttl)` of §4.2; an entry is
replaced, never edited. -/
def Cache.Set {κ ν : Type} [DecidableEq κ] (c : Cache κ ν) (k : κ) (v : ν) : Cache κ ν :=
  ⟨(k, v) :: (c.Remove k).entries, by
    rw [List.map_cons, List.nodup_cons]
    refine ⟨?_, (c.Remove k).nodup⟩
    simp [Cache.Remove, List.mem_map, List.mem_filter]⟩

/-- Modelled from the spec: `Scan(predicate) -> matching keys` of §4.2. -/
def Cache.Scan {κ ν : Type} (c : Cache κ ν) (p : κ → ν → Bool) : List κ :=
  (c.entries.filter (fun e => p e.1 e.2)).map Prod.fst

/-- Modelled from the spec: `Clear()` of §4.2. -/
def Cache.Clear {κ ν : Type} (_c : Cache κ ν) : Cache κ ν := Cache.empty

/-- Eviction of a list of keys, one `Remove` each. -/
def Cache.RemoveAll {κ ν : Type} [DecidableEq κ] (c : Cache κ ν) (ks : List κ) : Cache κ ν :=
  ks.foldl Cache.Remove c

/-! ## Backing store and decorator state -/

/-- Errors of the backing store; the decorator does not inspect them. -/
abbrev StoreError := String

/-- Options object of `GetProfileByIDs` (`store.UserGetByIDsOpts`); the
decorator only passes it on. -/
structure UserGetByIDsOpts where
  Since : Nat
deriving DecidableEq, Repr

/-- One invocation of the backing store, with its arguments. -/
inductive Call where
  | Get (id : String)
  | GetMany (ids : List String)
  | GetProfileByIDs (ids : List String) (opts : UserGetByIDsOpts)
  | GetAllProfilesInChannel (channelID : String)
deriving DecidableEq, Repr

/-- Whether a recorded call is a single-get. -/
def Call.isGet : Call → Bool
  | .Get _ => true
  | _ => false

/-- Whether a recorded call is a batch get. -/
def Call.isGetMany : Call → Bool
  | .GetMany _ => true
  | _ => false

/-- Whether a recorded call is a `GetProfileByIDs`. -/
def Call.isGetProfileByIDs : Call → Bool
  | .GetProfileByIDs _ _ => true
  | _ => false

/-- Whether a recorded call is a `GetAllProfilesInChannel`. -/
def Call.isGetAllProfilesInChannel : Call → Bool
  | .GetAllProfilesInChannel _ => true
  | _ => false

/-- Modelled from the spec: the backing user store of §6, an external
collaborator.  It answers with the addresses of its own records; over the
call sequences considered no mutation of the source of truth happens, so an
answer depends on the arguments only (as with the mock store of the tests). -/
structure UserStore where
  Get : String → Except StoreError Nat
  GetMany : List String → Except StoreError (List Nat)
  GetProfileByIDs : List String → UserGetByIDsOpts → Except StoreError (List Nat)
  GetAllProfilesInChannel : String → Except StoreError (List (String × Nat))

/-- Modelled from the spec: state of the user cache decorator of §2 and §4.1
(`user_layer.go` is not part of the slice): the three named caches (by user
id, by batch key, profiles in channel), holding addresses of stored copies;
the memory; and the record of backing-store invocations that the tests
observe through `AssertNumberOfCalls` and `AssertCalled`. -/
structure UserCacheDecorator where
  heap : Heap
  byID : Cache String Nat
  byBatch : Cache (List String) (List Nat)
  inChannel : Cache String (List (String × Nat))
  calls : List Call
deriving DecidableEq, Repr

/-- A decorator with empty caches over a given memory (`NewLocalCacheLayer`). -/
def NewLocalCacheLayer (h : Heap) : UserCacheDecorator :=
  { heap := h, byID := Cache.empty, byBatch := Cache.empty, inChannel := Cache.empty,
    calls := [] }

/-- Number of recorded calls satisfying `p` (`AssertNumberOfCalls`). -/
def UserCacheDecorator.numberOfCalls (s : UserCacheDecorator) (p : Call → Bool) : Nat :=
  s.calls.countP p

/-- The three caches of a decorator state. -/
def UserCacheDecorator.caches (s : UserCacheDecorator) :
    Cache String Nat × Cache (List String) (List Nat) × Cache String (List (String × Nat)) :=
  (s.byID, s.byBatch, s.inChannel)

/-- Order on identifiers: lexicographic on code points, as Go compares
strings. -/
def idLe : List Char → List Char → Bool
  | [], _ => true
  | _ :: _, [] => false
  | a :: as, b :: bs => a.toNat < b.toNat || (a.toNat == b.toNat && idLe as bs)

/-- Modelled from the spec: the batch key of §3 and §4.1, "the exact sorted id
list". -/
def batchKey (ids : List String) : List String :=
  List.insertionSort (fun a b => idLe a.data b.data = true) ids

/-! ## Operations of the decorator (§4.1) -/

/-- Modelled from the spec: `Get(id)` of §4.1.  Check the by-id cache; on a
hit return a deep copy of the cached value; on a miss call the backing store's
single-get, store a deep copy keyed by id and return a deep copy to the
caller.  A backing-store error is returned as it is and nothing is stored.
The identifier is expected to be non-empty; that is the caller's obligation
and these steps are the same for any identifier. -/
def UserCacheDecorator.Get (B : UserStore) (s : UserCacheDecorator) (id : String) :
    Except StoreError Nat × UserCacheDecorator :=
  match s.byID.Get id with
  | some stored =>
    let r := DeepCopy s.heap stored
    (.ok r.1, { s with heap := r.2 })
  | none =>
    let s1 := { s with calls := s.calls ++ [Call.Get id] }
    match B.Get id with
    | .error e => (.error e, s1)
    | .ok user =>
      let st := DeepCopy s1.heap user
      let r := DeepCopy st.2 user
      (.ok r.1, { s1 with heap := r.2, byID := s1.byID.Set id st.1 })

/-- Store a deep copy of each fetched record in the by-id cache, keyed by the
record's own id. -/
def populateByID (h : Heap) (c : Cache String Nat) : List Nat → Heap × Cache String Nat
  | [] => (h, c)
  | a :: as =>
    let st := DeepCopy h a
    populateByID st.2 (c.Set (h.user a).ID st.1) as

/-- Modelled from the spec: `GetMany(ids)` of §4.1.  Partition the requested
ids into those present in the by-id cache and those absent; for the absent
ids only, issue a single batch fetch to the backing store; populate the by-id
cache for each fetched record; merge cached and freshly fetched records.  If
every id is a hit the backing store is not called. -/
def UserCacheDecorator.GetMany (B : UserStore) (s : UserCacheDecorator) (ids : List String) :
    Except StoreError (List Nat) × UserCacheDecorator :=
  let present := ids.filterMap (fun id => s.byID.Get id)
  let absent := ids.filter (fun id => (s.byID.Get id).isNone)
  if absent.isEmpty then
    let r := DeepCopyList s.heap present
    (.ok r.1, { s with heap := r.2 })
  else
    let s1 := { s with calls := s.calls ++ [Call.GetMany absent] }
    match B.GetMany absent with
    | .error e => (.error e, s1)
    | .ok fetched =>
      let cached := DeepCopyList s1.heap present
      let pop := populateByID cached.2 s1.byID fetched
      let fresh := DeepCopyList pop.1 fetched
      (.ok (cached.1 ++ fresh.1), { s1 with heap := fresh.2, byID := pop.2 })

/-- Modelled from the spec: `GetProfileByIDs(ctx, ids, opts, allowFromCache)`
of §4.1.  With `allowFromCache = false` the call is delegated to the backing
store and no cache is read or written.  Otherwise it is served from the batch
cache, keyed by the sorted id list, with the hit/miss/copy contract of
`Get`. -/
def UserCacheDecorator.GetProfileByIDs (B : UserStore) (s : UserCacheDecorator)
    (ids : List String) (opts : UserGetByIDsOpts) (allowFromCache : Bool) :
    Except StoreError (List Nat) × UserCacheDecorator :=
  if !allowFromCache then
    (B.GetProfileByIDs ids opts, { s with calls := s.calls ++ [Call.GetProfileByIDs ids opts] })
  else
    match s.byBatch.Get (batchKey ids) with
    | some stored =>
      let r := DeepCopyList s.heap stored
      (.ok r.1, { s with heap := r.2 })
    | none =>
      let s1 := { s with calls := s.calls ++ [Call.GetProfileByIDs ids opts] }
      match B.GetProfileByIDs ids opts with
      | .error e => (.error e, s1)
      | .ok users =>
        let st := DeepCopyList s1.heap users
        let r := DeepCopyList st.2 users
        (.ok r.1, { s1 with heap := r.2, byBatch := s1.byBatch.Set (batchKey ids) st.1 })

/-- Modelled from the spec: `GetAllProfilesInChannel(ctx, channelID,
allowFromCache)` of §4.1: a cache keyed by channel id whose value maps user id
to user record, with the hit/miss/copy contract of `Get`; with
`allowFromCache = false` the call is delegated to the backing store. -/
def UserCacheDecorator.GetAllProfilesInChannel (B : UserStore) (s : UserCacheDecorator)
    (channelID : String) (allowFromCache : Bool) :
    Except StoreError (List (String × Nat)) × UserCacheDecorator :=
  if !allowFromCache then
    (B.GetAllProfilesInChannel channelID,
     { s with calls := s.calls ++ [Call.GetAllProfilesInChannel channelID] })
  else
    match s.inChannel.Get channelID with
    | some stored =>
      let r := DeepCopyMap s.heap stored
      (.ok r.1, { s with heap := r.2 })
    | none =>
      let s1 := { s with calls := s.calls ++ [Call.GetAllProfilesInChannel channelID] }
      match B.GetAllProfilesInChannel channelID with
      | .error e => (.error e, s1)
      | .ok users =>
        let st := DeepCopyMap s1.heap users
        let r := DeepCopyMap st.2 users
        (.ok r.1, { s1 with heap := r.2, inChannel := s1.inChannel.Set channelID st.1 })

/-- Modelled from the spec: `InvalidateProfileCacheForUser(userID)` of §4.1.
It evicts the by-id entry; so that the invalidation is reflected in the next
`GetProfileByIDs`, it also evicts every batch entry whose key embeds the user
(§3, invalidation index), which is what the test "first call not cached,
invalidate, and then not cached again" of `TestUserStoreCache` observes. -/
def UserCacheDecorator.InvalidateProfileCacheForUser (s : UserCacheDecorator)
    (userID : String) : UserCacheDecorator :=
  { s with
    byID := s.byID.Remove userID
    byBatch := s.byBatch.RemoveAll (s.byBatch.Scan (fun key _ => key.contains userID)) }

/-- Modelled from the spec: `InvalidateProfilesInChannelCache(channelID)` of
§4.1: evicts exactly the entry for that channel. -/
def UserCacheDecorator.InvalidateProfilesInChannelCache (s : UserCacheDecorator)
    (channelID : String) : UserCacheDecorator :=
  { s with inChannel := s.inChannel.Remove channelID }

/-- Modelled from the spec: `InvalidateProfilesInChannelCacheByUser(userID)` of
§4.1: evicts every channel-cache entry whose value mapping contains that user
id, found by scanning the cached values. -/
def UserCacheDecorator.InvalidateProfilesInChannelCacheByUser (s : UserCacheDecorator)
    (userID : String) : UserCacheDecorator :=
  { s with
    inChannel := s.inChannel.RemoveAll
      (s.inChannel.Scan (fun _ users => (users.map Prod.fst).contains userID)) }

/-! ## Fixtures of the test file -/

/-- Memory of the tests: `fakeUser` (id "123") at address 0, `otherFakeUser`
(id "456") at address 1 and the channel member `{ID: "456"}` at address 2,
each with its own three (empty) maps. -/
def fakeHeap : Heap :=
  { users := [⟨"123", some "authData", "authService", 0, 1, 2⟩,
              ⟨"456", some "authData", "authService", 3, 4, 5⟩,
              ⟨"456", none, "", 6, 7, 8⟩]
    maps := [[], [], [], [], [], [], [], [], []] }

/-- The mock backing store of the tests (`getMockStore`): user "123" for `Get`
and `GetProfileByIDs`, users "123" and "456" for `GetMany`, and the map
`"456" ↦ {ID: "456"}` for channel "123"; a second channel "789" holds user
"123" only. -/
def mockStore : UserStore :=
  { Get := fun id => if id = "123" then .ok 0 else .error "not found"
    GetMany := fun ids =>
      .ok ((if "123" ∈ ids then [0] else []) ++ (if "456" ∈ ids then [1] else []))
    GetProfileByIDs := fun ids _ => if ids = ["123"] then .ok [0] else .error "not found"
    GetAllProfilesInChannel := fun channelID =>
      if channelID = "123" then .ok [("456", 2)]
      else if channelID = "789" then .ok [("123", 0)]
      else .error "not found" }

/-- The decorator of `TestUserStoreGetCache` after the first read of user
"123": the stored copy is at address 3, the returned copy at address 4. -/
def afterGet : UserCacheDecorator := ((NewLocalCacheLayer fakeHeap).Get mockStore "123").2

/-- The decorator of `TestUserStoreCache` after the first cached read of the
id list `["123"]`: the stored copy is at address 3, the returned copy at
address 4. -/
def afterBatchRead : UserCacheDecorator :=
  ((NewLocalCacheLayer fakeHeap).GetProfileByIDs mockStore ["123"] ⟨0⟩ true).2

/-- The decorator of `TestUserStoreGetManyCache` after
`GetMany(["123","456"])`: both users are cached. -/
def afterGetMany : UserCacheDecorator :=
  ((NewLocalCacheLayer fakeHeap).GetMany mockStore ["123", "456"]).2

/-- The decorator of `TestUserStoreGetManyCache` after `GetMany(["123","456"])`
and `InvalidateProfileCacheForUser("123")`: only user "456" is cached. -/
def afterInvalidate : UserCacheDecorator := afterGetMany.InvalidateProfileCacheForUser "123"

end LocalCache

namespace SqlStore

/-! ## Go library functions used by `team_store.go` -/

/-- Go's `unicode.IsSpace`: the code points with the Unicode White_Space
property. -/
def isSpace (c : Char) : Bool :=
  let n := c.toNat
  (9 ≤ n && n ≤ 13) || n == 32 || n == 0x85 || n == 0xA0 || n == 0x1680 ||
    (0x2000 ≤ n && n ≤ 0x200A) || n == 0x2028 || n == 0x2029 || n == 0x202F ||
    n == 0x205F || n == 0x3000

/-- Scanner of `strings.Fields`: `cur` is the field being read, the list is
the rest of the input. -/
def fieldsChars : List Char → List Char → List String
  | cur, [] => if cur.isEmpty then [] else [String.mk cur]
  | cur, c :: cs =>
    if isSpace c then
      if cur.isEmpty then fieldsChars [] cs else String.mk cur :: fieldsChars [] cs
    else fieldsChars (cur ++ [c]) cs

/-- Go's `strings.Fields`: the maximal runs of non-space characters of `s`, in
order. -/
def Fields (s : String) : List String := fieldsChars [] s.data

/-- Go's `strings.Join`. -/
def Join : List String → String → String
  | [], _ => ""
  | [a], _ => a
  | a :: b :: rest, sep => a ++ sep ++ Join (b :: rest) sep

/-- A field: a non-empty string without a space character. -/
def IsField (t : String) : Prop := t.data ≠ [] ∧ ∀ c ∈ t.data, isSpace c = false

/-! ## Data types -/

/-- The constants of the `model` package that `getTeamRoles` refers to; the
package is not part of the slice, so the three built-in team role ids are
parameters. -/
structure Model where
  TeamGuestRoleID : String
  TeamUserRoleID : String
  TeamAdminRoleID : String
deriving DecidableEq, Repr

/-- Go's `sql.NullBool`. -/
structure NullBool where
  Valid : Bool
  Bool : Bool
deriving DecidableEq, Repr

/-- Go's `sql.NullString`. -/
structure NullString where
  Valid : Bool
  String : String
deriving DecidableEq, Repr

/-- The struct `rolesInfo` of `team_store.go`. -/
structure rolesInfo where
  roles : List String
  explicitRoles : List String
  schemeGuest : Bool
  schemeUser : Bool
  schemeAdmin : Bool
deriving DecidableEq, Repr

/-- The struct `teamMemberWithSchemeRoles` of `team_store.go`. -/
structure teamMemberWithSchemeRoles where
  TeamID : String
  UserID : String
  Roles : String
  DeleteAt : Int
  SchemeGuest : NullBool
  SchemeUser : NullBool
  SchemeAdmin : NullBool
  TeamSchemeDefaultGuestRole : NullString
  TeamSchemeDefaultUserRole : NullString
  TeamSchemeDefaultAdminRole : NullString
deriving DecidableEq, Repr

/-- The fields of `model.TeamMember` that `ToModel` sets. -/
structure TeamMember where
  TeamID : String
  UserID : String
  Roles : String
  DeleteAt : Int
  SchemeGuest : Bool
  SchemeUser : Bool
  SchemeAdmin : Bool
  ExplicitRoles : String
deriving DecidableEq, Repr

/-! ## `getTeamRoles` and `ToModel` -/

/-- Body of the first loop of `getTeamRoles`: the `switch` on one role. -/
def classifyRole (m : Model) (result : rolesInfo) (role : String) : rolesInfo :=
  if role = m.TeamGuestRoleID then { result with schemeGuest := true }
  else if role = m.TeamUserRoleID then { result with schemeUser := true }
  else if role = m.TeamAdminRoleID then { result with schemeAdmin := true }
  else { result with
         explicitRoles := result.explicitRoles ++ [role]
         roles := result.roles ++ [role] }

/-- The inner loop of the last loop of `getTeamRoles`: whether `impliedRole`
occurs in `roles`. -/
def alreadyThere (roles : List String) (impliedRole : String) : Bool :=
  roles.foldl (fun there role => if role = impliedRole then true else there) false

/-- Body of the last loop of `getTeamRoles`. -/
def addImpliedRole (result : rolesInfo) (impliedRole : String) : rolesInfo :=
  if !alreadyThere result.roles impliedRole then
    { result with roles := result.roles ++ [impliedRole] }
  else result

/-- The `schemeImpliedRoles` list that `getTeamRoles` builds from the flags of
`result`. -/
def schemeImpliedRoles (m : Model) (result : rolesInfo)
    (defaultTeamGuestRole defaultTeamUserRole defaultTeamAdminRole : String) : List String :=
  let implied : List String := []
  let implied :=
    if result.schemeGuest then
      if defaultTeamGuestRole ≠ "" then implied ++ [defaultTeamGuestRole]
      else implied ++ [m.TeamGuestRoleID]
    else implied
  let implied :=
    if result.schemeUser then
      if defaultTeamUserRole ≠ "" then implied ++ [defaultTeamUserRole]
      else implied ++ [m.TeamUserRoleID]
    else implied
  let implied :=
    if result.schemeAdmin then
      if defaultTeamAdminRole ≠ "" then implied ++ [defaultTeamAdminRole]
      else implied ++ [m.TeamAdminRoleID]
    else implied
  implied

/-- The function `getTeamRoles` of `team_store.go`. -/
def getTeamRoles (m : Model) (schemeGuest schemeUser schemeAdmin : Bool)
    (defaultTeamGuestRole defaultTeamUserRole defaultTeamAdminRole : String)
    (roles : List String) : rolesInfo :=
  let result : rolesInfo :=
    { roles := [], explicitRoles := [], schemeGuest := schemeGuest, schemeUser := schemeUser,
      schemeAdmin := schemeAdmin }
  let result := roles.foldl (classifyRole m) result
  let implied := schemeImpliedRoles m result defaultTeamGuestRole defaultTeamUserRole
    defaultTeamAdminRole
  implied.foldl addImpliedRole result

/-- The method `teamMemberWithSchemeRoles.ToModel` of `team_store.go`. -/
def teamMemberWithSchemeRoles.ToModel (m : Model) (db : teamMemberWithSchemeRoles) :
    TeamMember :=
  let schemeGuest := db.SchemeGuest.Valid && db.SchemeGuest.Bool
  let schemeUser := db.SchemeUser.Valid && db.SchemeUser.Bool
  let schemeAdmin := db.SchemeAdmin.Valid && db.SchemeAdmin.Bool
  let defaultTeamGuestRole :=
    if db.TeamSchemeDefaultGuestRole.Valid then db.TeamSchemeDefaultGuestRole.String else ""
  let defaultTeamUserRole :=
    if db.TeamSchemeDefaultUserRole.Valid then db.TeamSchemeDefaultUserRole.String else ""
  let defaultTeamAdminRole :=
    if db.TeamSchemeDefaultAdminRole.Valid then db.TeamSchemeDefaultAdminRole.String else ""
  let rolesResult := getTeamRoles m schemeGuest schemeUser schemeAdmin defaultTeamGuestRole
    defaultTeamUserRole defaultTeamAdminRole (Fields db.Roles)
  { TeamID := db.TeamID
    UserID := db.UserID
    Roles := Join rolesResult.roles " "
    DeleteAt := db.DeleteAt
    SchemeGuest := rolesResult.schemeGuest
    SchemeUser := rolesResult.schemeUser
    SchemeAdmin := rolesResult.schemeAdmin
    ExplicitRoles := Join rolesResult.explicitRoles " " }

/-- The constants of the `model` package as released: `team_guest`,
`team_user`, `team_admin`. -/
def mattermostModel : Model :=
  { TeamGuestRoleID := "team_guest", TeamUserRoleID := "team_user",
    TeamAdminRoleID := "team_admin" }

/-- The three built-in team role ids are pairwise different, as Go requires of
the constant cases of one `switch`. -/
def Model.Distinct (m : Model) : Prop :=
  m.TeamGuestRoleID ≠ m.TeamUserRoleID ∧ m.TeamGuestRoleID ≠ m.TeamAdminRoleID ∧
    m.TeamUserRoleID ≠ m.TeamAdminRoleID

instance (m : Model) : Decidable m.Distinct := by
  unfold Model.Distinct; infer_instance

/-- The role a scheme flag implies, in the words of the documentation: the
scheme's default role name when that name is non-empty, otherwise the
built-in role id. -/
def impliedRole (defaultRole builtIn : String) : String :=
  if defaultRole ≠ "" then defaultRole else builtIn

/-- The contribution of one scheme flag to `roles`, in the words of the
documentation: the implied role when the flag is set and the role is not
already present, nothing otherwise. -/
def impliedPart (flag : Bool) (role : String) (present : List String) : List String :=
  if flag = true ∧ role ∉ present then [role] else []

/-! ## Errors, queries and tables -/

/-- Errors the store returns: `NotFound` is `store.NewErrNotFound(resource,
id)`, `Wrap cause msg` is `errors.Wrap(cause, msg)`, and `Driver` is an error
of the query builder or of the database driver. -/
inductive StoreErr where
  | NotFound (resource : String) (id : String)
  | Driver (msg : String)
  | Wrap (cause : StoreErr) (msg : String)
deriving DecidableEq, Repr

/-- A value bound to a placeholder of a query. -/
inductive SqlValue where
  | str (s : String)
  | int (i : Int)
  | bool (b : Bool)
deriving DecidableEq, Repr

/-- The squirrel predicate `sq.Eq{column: value}`. -/
structure SqEq where
  column : String
  value : SqlValue
deriving DecidableEq, Repr

/-- The data of a squirrel `SelectBuilder`: result columns, `FROM`, joins, the
`WHERE` parts (joined by `AND`), `LIMIT` and `OFFSET`. -/
structure SelectBuilder where
  Columns : List String
  From : Option String
  Joins : List String
  WhereParts : List SqEq
  Limit : Option Nat
  Offset : Option Nat
deriving DecidableEq, Repr

/-- The builder call `Select(columns...)` on a fresh statement builder. -/
def Select (columns : List String) : SelectBuilder :=
  { Columns := columns, From := none, Joins := [], WhereParts := [], Limit := none,
    Offset := none }

/-- The builder call `From(table)`. -/
def SelectBuilder.FromTable (b : SelectBuilder) (table : String) : SelectBuilder :=
  { b with From := some table }

/-- The builder call `LeftJoin(join)`. -/
def SelectBuilder.LeftJoin (b : SelectBuilder) (join : String) : SelectBuilder :=
  { b with Joins := b.Joins ++ ["LEFT JOIN " ++ join] }

/-- The builder call `Where(pred)`: one more part of the `WHERE` clause. -/
def SelectBuilder.Where (b : SelectBuilder) (pred : SqEq) : SelectBuilder :=
  { b with WhereParts := b.WhereParts ++ [pred] }

/-- The builder call `Limit(limit)`, with a `uint64` argument. -/
def SelectBuilder.SetLimit (b : SelectBuilder) (limit : Nat) : SelectBuilder :=
  { b with Limit := some limit }

/-- The builder call `Offset(offset)`, with a `uint64` argument. -/
def SelectBuilder.SetOffset (b : SelectBuilder) (offset : Nat) : SelectBuilder :=
  { b with Offset := some offset }

/-- The builder call `ToSql()`: squirrel rejects a select statement without a
result column; the printed statement is represented by the builder it is
printed from. -/
def SelectBuilder.ToSql (b : SelectBuilder) : Except StoreErr SelectBuilder :=
  if b.Columns.length = 0 then
    .error (.Driver "select statements must have at least one result column")
  else .ok b

/-- Whether a row, given by its columns, satisfies `column = value`; strings
are compared by the collation of the database. -/
def SqEq.holds (collate : String → String → Bool) (row : String → Option SqlValue)
    (p : SqEq) : Bool :=
  match row p.column, p.value with
  | some (.str a), .str b => collate a b
  | some (.int a), .int b => a == b
  | some (.bool a), .bool b => a == b
  | _, _ => false

/-- The columns of `model.Team` the queries below refer to. -/
structure Team where
  ID : String
  DeleteAt : Int
  InviteID : String
  AllowOpenInvite : Bool
deriving DecidableEq, Repr

/-- Column access of a `Teams` row. -/
def Team.column (t : Team) : String → Option SqlValue
  | "Id" => some (.str t.ID)
  | "DeleteAt" => some (.int t.DeleteAt)
  | "InviteId" => some (.str t.InviteID)
  | "AllowOpenInvite" => some (.bool t.AllowOpenInvite)
  | _ => none

/-- A database holding the `Teams` table: its rows, the string collation the
server compares with, and the failure (if any) with which the driver answers
a statement. -/
structure TeamsDb where
  Teams : List Team
  collate : String → String → Bool
  selectErr : Option StoreErr

/-- The rows of `Teams` a `SELECT` with the given `WHERE` parts yields. -/
def TeamsDb.rowsWhere (db : TeamsDb) (q : SelectBuilder) : List Team :=
  db.Teams.filter (fun t => q.WhereParts.all (SqEq.holds db.collate t.column))

/-- The gorp call `SelectOne` on `Teams`: a driver failure, no row
(`sql.ErrNoRows`) and more than one row are errors. -/
def TeamsDb.SelectOne (db : TeamsDb) (q : SelectBuilder) : Except StoreErr Team :=
  match db.selectErr with
  | some err => .error err
  | none =>
    match db.rowsWhere q with
    | [] => .error (.Driver "sql: no rows in result set")
    | [team] => .ok team
    | _ => .error (.Driver "gorp: multiple rows returned")

/-- The gorp call `SelectInt` for `COUNT(*) FROM Teams`. -/
def TeamsDb.SelectInt (db : TeamsDb) (q : SelectBuilder) : Except StoreErr Int :=
  match db.selectErr with
  | some err => .error err
  | none => .ok (db.rowsWhere q).length

/-- The field `teamsQuery` set up by `newSQLTeamStore`. -/
def teamsQuery : SelectBuilder := (Select ["Teams.*"]).FromTable "Teams"

/-- The method `SQLTeamStore.GetByInviteID` of `team_store.go`. -/
def GetByInviteID (db : TeamsDb) (inviteID : String) : Except StoreErr Team :=
  match (teamsQuery.Where ⟨"InviteId", .str inviteID⟩).ToSql with
  | .error err => .error (.Wrap err "team_tosql")
  | .ok query =>
    match db.SelectOne query with
    | .error _ => .error (.NotFound "Team" ("inviteId=" ++ inviteID))
    | .ok team =>
      if inviteID = "" ∨ team.InviteID ≠ inviteID then
        .error (.NotFound "Team" ("inviteId=" ++ inviteID))
      else .ok team

/-- The fields of `model.TeamSearch` that `AnalyticsTeamCount` reads; a Go
`*bool` is an `Option Bool`. -/
structure TeamSearch where
  IncludeDeleted : Option Bool
  AllowOpenInvite : Option Bool
deriving DecidableEq, Repr

/-- The condition `opts == nil || (opts.IncludeDeleted != nil &&
!*opts.IncludeDeleted)` of `AnalyticsTeamCount`. -/
def restrictToNonDeleted : Option TeamSearch → Bool
  | none => true
  | some opts =>
    match opts.IncludeDeleted with
    | none => false
    | some includeDeleted => !includeDeleted

/-- The query `AnalyticsTeamCount` builds before `ToSql`. -/
def analyticsTeamCountQuery (opts : Option TeamSearch) : SelectBuilder :=
  let query := Select ["COUNT(*) FROM Teams"]
  let query :=
    if restrictToNonDeleted opts then query.Where ⟨"DeleteAt", .int 0⟩ else query
  let query :=
    match opts with
    | none => query
    | some o =>
      match o.AllowOpenInvite with
      | none => query
      | some allow => query.Where ⟨"AllowOpenInvite", .bool allow⟩
  query

/-- The method `SQLTeamStore.AnalyticsTeamCount` of `team_store.go`. -/
def AnalyticsTeamCount (db : TeamsDb) (opts : Option TeamSearch) : Except StoreErr Int :=
  match (analyticsTeamCountQuery opts).ToSql with
  | .error err => .error (.Wrap err "team_tosql")
  | .ok queryString =>
    match db.SelectInt queryString with
    | .error err => .error (.Wrap err "failed to count Teams")
    | .ok c => .ok c

/-- Binary collation: strings are equal when they are the same. -/
def binaryCollation : String → String → Bool := fun a b => a == b

/-! ## Machine integers and the paginated member query -/

/-- A Go `int` of `bits` bits holds the integers of this range. -/
def InIntRange (bits : Nat) (x : Int) : Prop :=
  -(2 : Int) ^ (bits - 1) ≤ x ∧ x < (2 : Int) ^ (bits - 1)

instance (bits : Nat) (x : Int) : Decidable (InIntRange bits x) := by
  unfold InIntRange; infer_instance

/-- The result of an `int` operation whose mathematical value is `x`:
two's-complement wrap-around to `bits` bits. -/
def wrapInt (bits : Nat) (x : Int) : Int :=
  (x + (2 : Int) ^ (bits - 1)) % (2 : Int) ^ bits - (2 : Int) ^ (bits - 1)

/-- The Go conversion `uint64(x)` of an `int`. -/
def toUint64 (x : Int) : Nat := (x % (2 : Int) ^ 64).toNat

/-- The method `getTeamMembersWithSchemeSelectQuery` of `team_store.go`. -/
def getTeamMembersWithSchemeSelectQuery : SelectBuilder :=
  (((Select ["TeamMembers.*",
      "TeamScheme.DefaultTeamGuestRole TeamSchemeDefaultGuestRole",
      "TeamScheme.DefaultTeamUserRole TeamSchemeDefaultUserRole",
      "TeamScheme.DefaultTeamAdminRole TeamSchemeDefaultAdminRole"]).FromTable
      "TeamMembers").LeftJoin "Teams ON TeamMembers.TeamId = Teams.Id").LeftJoin
      "Schemes TeamScheme ON Teams.SchemeId = TeamScheme.Id"

/-- Column access of a row of the member query. -/
def teamMemberWithSchemeRoles.column (r : teamMemberWithSchemeRoles) :
    String → Option SqlValue
  | "TeamMembers.TeamId" => some (.str r.TeamID)
  | "TeamMembers.UserId" => some (.str r.UserID)
  | "TeamMembers.DeleteAt" => some (.int r.DeleteAt)
  | _ => none

/-- A database seen through the member query: the rows of `TeamMembers` joined
with `Teams` and `Schemes`, in the order the server yields them, the string
collation, and the failure (if any) with which the driver answers. -/
structure TeamMembersView where
  rows : List teamMemberWithSchemeRoles
  collate : String → String → Bool
  selectErr : Option StoreErr

/-- The gorp call `Select` of the member query: the rows that satisfy the
`WHERE` parts, after `OFFSET`, at most `LIMIT` of them. -/
def TeamMembersView.Select (db : TeamMembersView) (q : SelectBuilder) :
    Except StoreErr (List teamMemberWithSchemeRoles) :=
  match db.selectErr with
  | some err => .error err
  | none =>
    let matching := db.rows.filter (fun r =>
      q.WhereParts.all (SqEq.holds db.collate r.column))
    let skipped := matching.drop (q.Offset.getD 0)
    match q.Limit with
    | none => .ok skipped
    | some limit => .ok (skipped.take limit)

/-- The method `teamMemberWithSchemeRolesList.ToModel` of `team_store.go`. -/
def teamMemberWithSchemeRolesList.ToModel (m : Model) (db : List teamMemberWithSchemeRoles) :
    List TeamMember :=
  db.foldl (fun tms tm => tms ++ [tm.ToModel m]) []

/-- The query `GetTeamsForUserWithPagination` builds before `ToSql`; `page`
and `perPage` are Go `int`s of `bits` bits. -/
def getTeamsForUserWithPaginationQuery (bits : Nat) (userID : String) (page perPage : Int) :
    SelectBuilder :=
  ((getTeamMembersWithSchemeSelectQuery.Where ⟨"TeamMembers.UserId", .str userID⟩).SetLimit
    (toUint64 perPage)).SetOffset (toUint64 (wrapInt bits (page * perPage)))

/-- The method `SQLTeamStore.GetTeamsForUserWithPagination` of
`team_store.go`. -/
def GetTeamsForUserWithPagination (m : Model) (bits : Nat) (db : TeamMembersView)
    (userID : String) (page perPage : Int) : Except StoreErr (List TeamMember) :=
  match (getTeamsForUserWithPaginationQuery bits userID page perPage).ToSql with
  | .error err => .error (.Wrap err "team_tosql")
  | .ok queryString =>
    match db.Select queryString with
    | .error err => .error (.Wrap err ("failed to find TeamMembers with userId=" ++ userID))
    | .ok dbMembers => .ok (teamMemberWithSchemeRolesList.ToModel m dbMembers)

/-! ## The `TeamMembers` table -/

instance : Inhabited NullBool := ⟨{ Bool := false, Valid := false }⟩

/-- The struct `teamMember` of `team_store.go`: a row of `TeamMembers`. -/
structure teamMember where
  TeamID : String
  UserID : String
  Roles : String
  DeleteAt : Int
  SchemeUser : NullBool
  SchemeAdmin : NullBool
  SchemeGuest : NullBool
deriving DecidableEq, Repr, Inhabited

/-- A database holding the `TeamMembers` table: its rows, the order `less` in
which the server compares strings, and the failures (if any) with which the
driver answers `Begin`, a `SELECT`, an `UPDATE` and `Commit`.  The primary key
is `(TeamId, UserId)`. -/
structure TeamMembersDb where
  rows : List teamMember
  less : String → String → Bool
  beginErr : Option StoreErr
  selectErr : Option StoreErr
  execErr : Option StoreErr
  commitErr : Option StoreErr

/-- The SQL row comparison `(TeamId, UserId) > (:TeamId, :UserId)`. -/
def rowAfter (less : String → String → Bool) (teamID userID : String) (r : teamMember) : Bool :=
  less teamID r.TeamID || (teamID == r.TeamID && less userID r.UserID)

/-- The order of `ORDER BY TeamId, UserId`: `a` does not come after `b`. -/
def keyLe (less : String → String → Bool) (a b : teamMember) : Bool :=
  !rowAfter less b.TeamID b.UserID a

/-- The statement `SELECT * from TeamMembers WHERE (TeamId, UserId) >
(:TeamId, :UserId) ORDER BY TeamId, UserId LIMIT limit`. -/
def selectAfter (less : String → String → Bool) (rows : List teamMember)
    (teamID userID : String) (limit : Nat) : List teamMember :=
  (List.insertionSort (fun a b => keyLe less a b = true)
    (rows.filter (rowAfter less teamID userID))).take limit

/-- The gorp call `Update(&member)`: the row with the member's primary key is
replaced by the member. -/
def updateMember (rows : List teamMember) (member : teamMember) : List teamMember :=
  rows.map (fun r => if r.TeamID = member.TeamID ∧ r.UserID = member.UserID then member else r)

/-- Body of the inner loop of `MigrateTeamMembers`: one role of the member. -/
def migrateRole (m : Model) (acc : teamMember × List String) (role : String) :
    teamMember × List String :=
  if role = m.TeamAdminRoleID then
    ({ acc.1 with SchemeAdmin := { Bool := true, Valid := true } }, acc.2)
  else if role = m.TeamUserRoleID then
    ({ acc.1 with SchemeUser := { Bool := true, Valid := true } }, acc.2)
  else if role = m.TeamGuestRoleID then
    ({ acc.1 with SchemeGuest := { Bool := true, Valid := true } }, acc.2)
  else (acc.1, acc.2 ++ [role])

/-- Body of the loop of `MigrateTeamMembers`, up to the update: the member
with its scheme flags made valid and set from its roles, and the other roles
kept. -/
def migrateMember (m : Model) (member : teamMember) : teamMember :=
  let roles := Fields member.Roles
  let member :=
    if !member.SchemeAdmin.Valid then
      { member with SchemeAdmin := { Bool := false, Valid := true } }
    else member
  let member :=
    if !member.SchemeUser.Valid then
      { member with SchemeUser := { Bool := false, Valid := true } }
    else member
  let member :=
    if !member.SchemeGuest.Valid then
      { member with SchemeGuest := { Bool := false, Valid := true } }
    else member
  let acc := roles.foldl (migrateRole m) (member, [])
  { acc.1 with Roles := Join acc.2 " " }

/-- The method `SQLTeamStore.MigrateTeamMembers` of `team_store.go`: the value
returned (`none` is the nil map) and the table afterwards.  The updates of a
batch are one transaction: they take effect when `Commit` succeeds. -/
def MigrateTeamMembers (m : Model) (db : TeamMembersDb) (fromTeamID fromUserID : String) :
    Except StoreErr (Option (List (String × String))) × List teamMember :=
  match db.beginErr with
  | some err => (.error (.Wrap err "begin_transaction"), db.rows)
  | none =>
    match db.selectErr with
    | some err => (.error (.Wrap err "failed to find TeamMembers"), db.rows)
    | none =>
      let teamMembers := selectAfter db.less db.rows fromTeamID fromUserID 100
      if teamMembers.length = 0 then (.ok none, db.rows)
      else
        match db.execErr with
        | some err => (.error (.Wrap err "failed to update TeamMember"), db.rows)
        | none =>
          let updated := teamMembers.foldl (fun rows member =>
            updateMember rows (migrateMember m member)) db.rows
          match db.commitErr with
          | some err => (.error (.Wrap err "commit_transaction"), db.rows)
          | none =>
            let data : List (String × String) := []
            let data := data ++ [("TeamId", (teamMembers.getD (teamMembers.length - 1) default).TeamID)]
            let data := data ++ [("UserId", (teamMembers.getD (teamMembers.length - 1) default).UserID)]
            (.ok (some data), updated)

/-- Order of strings by code points, for examples. -/
def codePointLess : List Char → List Char → Bool
  | _, [] => false
  | [], _ :: _ => true
  | a :: as, b :: bs => a.toNat < b.toNat || (a.toNat == b.toNat && codePointLess as bs)

/-- A database for examples: no driver failure, strings ordered by code
points. -/
def exampleMembersDb (rows : List teamMember) : TeamMembersDb :=
  { rows := rows, less := fun a b => codePointLess a.data b.data, beginErr := none,
    selectErr := none, execErr := none, commitErr := none }

/-- The `WHERE` clause of `UpdateMembersRole`: `TeamId = :teamID AND DeleteAt =
0 AND (SchemeGuest = false OR SchemeGuest IS NULL)`. -/
def updateMembersRoleWhere (teamID : String) (r : teamMember) : Bool :=
  (r.TeamID == teamID && r.DeleteAt == 0) &&
    ((r.SchemeGuest.Valid && r.SchemeGuest.Bool == false) || !r.SchemeGuest.Valid)

/-- The `SET` clause of `UpdateMembersRole`: `SchemeAdmin = CASE WHEN UserId IN
(userIDs) THEN true ELSE false END`. -/
def updateMembersRoleSet (userIDs : List String) (r : teamMember) : teamMember :=
  { r with SchemeAdmin := { Valid := true, Bool := decide (r.UserID ∈ userIDs) } }

/-- The method `SQLTeamStore.UpdateMembersRole` of `team_store.go`: the error
returned (if any) and the table afterwards.  The statement it builds always
prints, so `ToSql` does not fail. -/
def UpdateMembersRole (db : TeamMembersDb) (teamID : String) (userIDs : List String) :
    Except StoreErr Unit × List teamMember :=
  match db.execErr with
  | some err => (.error (.Wrap err "failed to update TeamMembers"), db.rows)
  | none =>
    (.ok (), db.rows.map (fun r =>
      if updateMembersRoleWhere teamID r then updateMembersRoleSet userIDs r else r))

/-- The table after `UpdateMembersRole` as the claim describes it: every
non-deleted member of `teamID` is an admin exactly when its user id is in
`userIDs`, the other rows are unchanged. -/
def updateMembersRoleAsClaimed (rows : List teamMember) (teamID : String)
    (userIDs : List String) : List teamMember :=
  rows.map (fun r =>
    if r.TeamID = teamID ∧ r.DeleteAt = 0 then updateMembersRoleSet userIDs r else r)

/-! ## The `Status` table -/

/-- The constants of the `model` package that `status_store.go` refers to
(the package is not part of the slice). -/
structure StatusModel where
  StatusDnd : String
  DatabaseDriverMysql : String
deriving DecidableEq, Repr

set_option linter.dupNamespace false

/-- The fields of `model.Status` the store reads and writes: a row of
`Status`. -/
structure Status where
  UserID : String
  Status : String
  Manual : Bool
  LastActivityAt : Int
  DNDEndTime : Int
  PrevStatus : String
deriving DecidableEq, Repr

/-- A database holding the `Status` table: its rows, the driver name, the
Unix time the clock shows during the call, and the failures (if any) with
which the driver answers `Begin`, the `SELECT`, the `UPDATE`, `Commit`, the
`UPDATE ... RETURNING` query and the iteration over its rows. -/
structure StatusDb where
  rows : List Status
  DriverName : String
  now : Int
  beginErr : Option StoreErr
  selectErr : Option StoreErr
  execErr : Option StoreErr
  commitErr : Option StoreErr
  queryErr : Option StoreErr
  rowsErr : Option StoreErr

/-- The `WHERE` clause of both paths: `Status = dnd AND DNDEndTime > 0 AND
DNDEndTime <= currUnixTime`. -/
def expiredDND (m : StatusModel) (currUnixTime : Int) (r : Status) : Bool :=
  r.Status == m.StatusDnd && decide (r.DNDEndTime > 0) && decide (r.DNDEndTime ≤ currUnixTime)

/-- The `SET` clause of both paths: `Status = PrevStatus, PrevStatus = dnd,
DNDEndTime = 0, Manual = false`. -/
def setExpired (m : StatusModel) (r : Status) : Status :=
  { r with Status := r.PrevStatus, PrevStatus := m.StatusDnd, DNDEndTime := 0, Manual := false }

/-- The `UPDATE` statement of both paths applied to the table. -/
def updateExpired (m : StatusModel) (currUnixTime : Int) (rows : List Status) : List Status :=
  rows.map (fun r => if expiredDND m currUnixTime r then setExpired m r else r)

/-- The method `SQLStatusStore.updateExpiredStatuses` of `status_store.go`,
inside a transaction: the statuses selected (as they are before the update)
and the table after the update. -/
def updateExpiredStatuses (m : StatusModel) (db : StatusDb) :
    Except StoreErr (List Status × List Status) :=
  let currUnixTime := db.now
  match db.selectErr with
  | some err =>
    .error (.Wrap err "updateExpiredStatusesT: failed to get expired dnd statuses")
  | none =>
    let statuses := db.rows.filter (expiredDND m currUnixTime)
    match db.execErr with
    | some err => .error (.Wrap err "updateExpiredStatusesT: failed to update statuses")
    | none => .ok (statuses, updateExpired m currUnixTime db.rows)

/-- Body of the loop of `UpdateExpiredDNDStatuses` on the MySQL path: the four
assignments, in order. -/
def fixReturnedStatus (m : StatusModel) (status : Status) : Status :=
  let status := { status with Status := status.PrevStatus }
  let status := { status with PrevStatus := m.StatusDnd }
  let status := { status with DNDEndTime := 0 }
  let status := { status with Manual := false }
  status

/-- The method `SQLStatusStore.UpdateExpiredDNDStatuses` of `status_store.go`:
the value returned and the table afterwards. -/
def UpdateExpiredDNDStatuses (m : StatusModel) (db : StatusDb) :
    Except StoreErr (List Status) × List Status :=
  if db.DriverName = m.DatabaseDriverMysql then
    match db.beginErr with
    | some err => (.error (.Wrap err "UpdateExpiredDNDStatuses: begin_transaction"), db.rows)
    | none =>
      match updateExpiredStatuses m db with
      | .error err =>
        (.error (.Wrap err "UpdateExpiredDNDStatuses: updateExpiredDNDStatusesT"), db.rows)
      | .ok (statuses, updated) =>
        match db.commitErr with
        | some err =>
          (.error (.Wrap err "UpdateExpiredDNDStatuses: commit_transaction"), db.rows)
        | none => (.ok (statuses.map (fixReturnedStatus m)), updated)
  else
    match db.queryErr with
    | some err => (.error (.Wrap err "failed to find Statuses"), db.rows)
    | none =>
      let updated := updateExpired m db.now db.rows
      let returning := (db.rows.filter (expiredDND m db.now)).map (setExpired m)
      match db.rowsErr with
      | some err => (.error (.Wrap err "failed while iterating over rows"), updated)
      | none => (.ok returning, updated)

/-- The constants of the `model` package as released: `dnd` and `mysql`. -/
def mattermostStatusModel : StatusModel :=
  { StatusDnd := "dnd", DatabaseDriverMysql := "mysql" }

/-! ## `ClearAllCustomRoleAssignments` -/

/-- The innermost loop of `ClearAllCustomRoleAssignments`: `role` is appended
to `newRoles` at the first built-in role name equal to it, and the loop is
left. -/
def appendIfBuiltIn : List String → String → List String → List String
  | [], _, newRoles => newRoles
  | name :: names, role, newRoles =>
    if name = role then newRoles ++ [role] else appendIfBuiltIn names role newRoles

/-- The string `newRolesString` that `ClearAllCustomRoleAssignments` computes
for a member; `builtInRoles` are the keys of `model.MakeDefaultRoles()`. -/
def newRolesString (builtInRoles : List String) (member : teamMember) : String :=
  Join ((Fields member.Roles).foldl
    (fun newRoles role => appendIfBuiltIn builtInRoles role newRoles) []) " "

/-- The statement `UPDATE TeamMembers SET Roles = :Roles WHERE UserId = :UserId
AND TeamId = :TeamId` with its three arguments. -/
structure RolesUpdate where
  Roles : String
  TeamId : String
  UserId : String
deriving DecidableEq, Repr

/-- Effect of a `RolesUpdate` on the table. -/
def RolesUpdate.apply (u : RolesUpdate) (rows : List teamMember) : List teamMember :=
  rows.map (fun r => if r.UserID = u.UserId ∧ r.TeamID = u.TeamId then
    { r with Roles := u.Roles } else r)

/-- State of a run of `ClearAllCustomRoleAssignments`: the table as the
current transaction sees it, the cursor, and the record of the members
visited and of the update statements issued. -/
structure ClearState where
  rows : List teamMember
  lastUserID : String
  lastTeamID : String
  visited : List teamMember
  updates : List RolesUpdate
deriving DecidableEq, Repr

/-- The head of the loop body: the cursor moves to the member, which is now
visited. -/
def ClearState.visit (st : ClearState) (member : teamMember) : ClearState :=
  { st with lastUserID := member.UserID, lastTeamID := member.TeamID,
            visited := st.visited ++ [member] }

/-- The update statement for a member, with `newRolesString` as `:Roles`. -/
def rolesUpdateFor (builtInRoles : List String) (member : teamMember) : RolesUpdate :=
  { Roles := newRolesString builtInRoles member, TeamId := member.TeamID,
    UserId := member.UserID }

/-- The call `transaction.Exec` of an update statement is made. -/
def ClearState.issue (st : ClearState) (stmt : RolesUpdate) : ClearState :=
  { st with updates := st.updates ++ [stmt] }

/-- The update statement takes effect in the transaction. -/
def ClearState.exec (st : ClearState) (stmt : RolesUpdate) : ClearState :=
  { st with rows := stmt.apply st.rows }

/-- The loop over the members of one batch; the error is that of a failed
update statement. -/
def clearMembers (builtInRoles : List String) (execErr : Option StoreErr) :
    List teamMember → ClearState → Option StoreErr × ClearState
  | [], st => (none, st)
  | member :: members, st =>
    if newRolesString builtInRoles member ≠ member.Roles then
      match execErr with
      | some err =>
        (some (.Wrap err "failed to update TeamMembers"),
         (st.visit member).issue (rolesUpdateFor builtInRoles member))
      | none =>
        clearMembers builtInRoles execErr members
          (((st.visit member).issue (rolesUpdateFor builtInRoles member)).exec
            (rolesUpdateFor builtInRoles member))
    else clearMembers builtInRoles execErr members (st.visit member)

/-- The outer loop of `ClearAllCustomRoleAssignments`, one transaction per
batch of at most 1000 members; `none` is returned when `fuel` iterations did
not reach the end.  A batch that fails is rolled back. -/
def clearLoop (builtInRoles : List String) (db : TeamMembersDb) :
    Nat → ClearState → Option (Except StoreErr Unit) × ClearState
  | 0, st => (none, st)
  | fuel + 1, st =>
    match db.beginErr with
    | some err => (some (.error (.Wrap err "begin_transaction")), st)
    | none =>
      match db.selectErr with
      | some err => (some (.error (.Wrap err "failed to find TeamMembers")), st)
      | none =>
        let teamMembers := selectAfter db.less st.rows st.lastTeamID st.lastUserID 1000
        if teamMembers.length = 0 then (some (.ok ()), st)
        else
          match clearMembers builtInRoles db.execErr teamMembers st with
          | (some err, st2) => (some (.error err), { st2 with rows := st.rows })
          | (none, st2) =>
            match db.commitErr with
            | some err =>
              (some (.error (.Wrap err "commit_transaction")), { st2 with rows := st.rows })
            | none => clearLoop builtInRoles db fuel st2

/-- Go's `strings.Repeat` for a one-character string. -/
def Repeat (c : Char) (count : Nat) : String := String.mk (List.replicate count c)

/-- The method `SQLTeamStore.ClearAllCustomRoleAssignments` of `team_store.go`,
run for at most `fuel` batches. -/
def ClearAllCustomRoleAssignments (builtInRoles : List String) (db : TeamMembersDb)
    (fuel : Nat) : Option (Except StoreErr Unit) × ClearState :=
  clearLoop builtInRoles db fuel
    { rows := db.rows, lastUserID := Repeat '0' 26, lastTeamID := Repeat '0' 26, visited := [],
      updates := [] }

/-- What the documentation says a row is left with: the single-space join of
the whitespace-separated tokens of the old `Roles` that are names of built-in
roles, in their original order. -/
def builtInRolesOnly (builtInRoles : List String) (roles : String) : String :=
  Join ((Fields roles).filter (fun role => decide (role ∈ builtInRoles))) " "

/-- The record of a run is consistent: every update statement issued is the
one for a visited member whose computed string differs from its `Roles`, and
every visited member whose computed string differs has its update statement
issued. -/
def ClearState.Consistent (builtInRoles : List String) (st : ClearState) : Prop :=
  (∀ u ∈ st.updates, ∃ member ∈ st.visited,
    u = rolesUpdateFor builtInRoles member ∧
    newRolesString builtInRoles member ≠ member.Roles) ∧
  (∀ member ∈ st.visited, newRolesString builtInRoles member ≠ member.Roles →
    rolesUpdateFor builtInRoles member ∈ st.updates)

/-- The primary key of a `TeamMembers` row. -/
def memberKey (r : teamMember) : String × String := (r.TeamID, r.UserID)

/-- A row without its `Roles` column. -/
def withoutRoles (r : teamMember) : teamMember := { r with Roles := "" }

/-- Every visited member's row of the table holds the string the
documentation describes for the `Roles` the member was read with. -/
def ClearState.Cleared (builtInRoles : List String) (st : ClearState) : Prop :=
  ∀ member ∈ st.visited, ∀ r ∈ st.rows, memberKey r = memberKey member →
    r.Roles = builtInRolesOnly builtInRoles member.Roles

/-- The string order is a strict order: nothing is less than itself, and
`less` is transitive. -/
def StrictOrder (less : String → String → Bool) : Prop :=
  (∀ a, less a a = false) ∧ (∀ a b c, less a b = true → less b c = true → less a c = true)

/-- Rows for examples: a member with a custom role and a doubled space, and a
member with built-in roles only. -/
def exampleMembers : List teamMember :=
  [⟨"team1", "user1", "team_user  custom", 0, default, default, default⟩,
   ⟨"team1", "user2", "team_admin", 0, default, default, default⟩]

/-- The string order is total: two different strings are comparable. -/
def TotalOrder (less : String → String → Bool) : Prop :=
  ∀ a b, less a b = true ∨ a = b ∨ less b a = true

/-- A row as the documentation says it is left: its `Roles` without the
tokens that are not names of built-in roles, every other column as it was. -/
def clearRow (builtInRoles : List String) (r : teamMember) : teamMember :=
  { r with Roles := builtInRolesOnly builtInRoles r.Roles }

/-- The row follows the cursor with which `ClearAllCustomRoleAssignments`
starts, `(strings.Repeat("0", 26), strings.Repeat("0", 26))`. -/
def afterInitialCursor (less : String → String → Bool) (r : teamMember) : Bool :=
  rowAfter less (Repeat '0' 26) (Repeat '0' 26) r

/-- Number of rows that follow the cursor. -/
def rowsAfter (less : String → String → Bool) (teamID userID : String)
    (rows : List teamMember) : Nat :=
  (rows.filter (rowAfter less teamID userID)).length

end SqlStore

namespace LocalCache

/-! ## Memory lemmas -/

theorem Heap.grows_refl (h : Heap) : h.Grows h :=
  ⟨⟨[], by simp⟩, ⟨[], by simp⟩⟩

theorem Heap.grows_trans {h1 h2 h3 : Heap} (h12 : h1.Grows h2) (h23 : h2.Grows h3) :
    h1.Grows h3 := by
  obtain ⟨⟨us, hu⟩, ⟨ms, hm⟩⟩ := h12
  obtain ⟨⟨us2, hu2⟩, ⟨ms2, hm2⟩⟩ := h23
  exact ⟨⟨us ++ us2, by rw [hu2, hu, List.append_assoc]⟩,
    ⟨ms ++ ms2, by rw [hm2, hm, List.append_assoc]⟩⟩

theorem Heap.grows_users_length {h1 h2 : Heap} (g : h1.Grows h2) :
    h1.users.length ≤ h2.users.length := by
  obtain ⟨⟨us, hu⟩, _⟩ := g
  rw [hu, List.length_append]; omega

theorem Heap.grows_maps_length {h1 h2 : Heap} (g : h1.Grows h2) :
    h1.maps.length ≤ h2.maps.length := by
  obtain ⟨_, ⟨ms, hm⟩⟩ := g
  rw [hm, List.length_append]; omega

theorem Heap.grows_user {h1 h2 : Heap} (g : h1.Grows h2) {a : Nat}
    (ha : a < h1.users.length) : h2.user a = h1.user a := by
  obtain ⟨⟨us, hu⟩, _⟩ := g
  simp [Heap.user, hu, List.getD_eq_getElem?_getD, List.getElem?_append_left ha]

theorem Heap.grows_map {h1 h2 : Heap} (g : h1.Grows h2) {m : Nat}
    (hm : m < h1.maps.length) : h2.map m = h1.map m := by
  obtain ⟨_, ⟨ms, hms⟩⟩ := g
  simp [Heap.map, hms, List.getD_eq_getElem?_getD, List.getElem?_append_left hm]

theorem Heap.grows_valid {h1 h2 : Heap} (g : h1.Grows h2) {a : Nat}
    (ha : h1.valid a) : h2.valid a := by
  obtain ⟨h0, hn, hp, ht⟩ := ha
  have hl := Heap.grows_maps_length g
  have hu := Heap.grows_users_length g
  refine ⟨by omega, ?_, ?_, ?_⟩ <;> rw [Heap.grows_user g h0] <;> omega

theorem Heap.grows_content {h1 h2 : Heap} (g : h1.Grows h2) {a : Nat}
    (ha : h1.valid a) : h2.content a = h1.content a := by
  obtain ⟨h0, hn, hp, ht⟩ := ha
  simp only [Heap.content, Heap.grows_user g h0, Heap.grows_map g hn, Heap.grows_map g hp,
    Heap.grows_map g ht]

theorem DeepCopy_fst (h : Heap) (a : Nat) : (DeepCopy h a).1 = h.users.length := rfl

theorem DeepCopy_grows (h : Heap) (a : Nat) : h.Grows (DeepCopy h a).2 :=
  ⟨⟨_, rfl⟩, ⟨_, rfl⟩⟩

theorem DeepCopy_content (h : Heap) (a : Nat) :
    (DeepCopy h a).2.content (DeepCopy h a).1 = h.content a := by
  have e0 : ∀ (x y z : StringMap), (h.maps ++ [x, y, z]).getD h.maps.length [] = x := by
    intro x y z; rw [List.getD_append_right _ _ _ _ (le_refl _)]; simp
  have e1 : ∀ (x y z : StringMap), (h.maps ++ [x, y, z]).getD (h.maps.length + 1) [] = y := by
    intro x y z; rw [List.getD_append_right _ _ _ _ (by omega)]; simp
  have e2 : ∀ (x y z : StringMap), (h.maps ++ [x, y, z]).getD (h.maps.length + 2) [] = z := by
    intro x y z; rw [List.getD_append_right _ _ _ _ (by omega)]; simp
  have eu : ∀ (o : UserObj), (h.users ++ [o]).getD h.users.length default = o := by
    intro o; rw [List.getD_append_right _ _ _ _ (le_refl _)]; simp
  simp only [DeepCopy, Heap.content, Heap.user, Heap.map, eu, e0, e1, e2]

theorem DeepCopy_valid (h : Heap) (a : Nat) : (DeepCopy h a).2.valid (DeepCopy h a).1 := by
  simp [DeepCopy, Heap.valid, Heap.user, List.getD_eq_getElem?_getD]

theorem DeepCopy_user_maps (h : Heap) (a : Nat) :
    h.maps.length ≤ ((DeepCopy h a).2.user (DeepCopy h a).1).NotifyProps ∧
    h.maps.length ≤ ((DeepCopy h a).2.user (DeepCopy h a).1).Props ∧
    h.maps.length ≤ ((DeepCopy h a).2.user (DeepCopy h a).1).Timezone := by
  simp [DeepCopy, Heap.user, List.getD_eq_getElem?_getD]

theorem DeepCopyList_spec (as : List Nat) : ∀ (h : Heap), (∀ a ∈ as, h.valid a) →
    h.Grows (DeepCopyList h as).2 ∧
    (DeepCopyList h as).1.map (DeepCopyList h as).2.content = as.map h.content ∧
    (∀ a ∈ (DeepCopyList h as).1, (DeepCopyList h as).2.valid a ∧ h.users.length ≤ a) ∧
    (DeepCopyList h as).1.length = as.length := by
  induction as with
  | nil => intro h _; simp [DeepCopyList, Heap.grows_refl]
  | cons a as ih =>
    intro h hv
    have g1 := DeepCopy_grows h a
    have hv2 : ∀ b ∈ as, (DeepCopy h a).2.valid b := fun b hb =>
      Heap.grows_valid g1 (hv b (List.mem_cons_of_mem _ hb))
    obtain ⟨g2, hc, hf, hl⟩ := ih (DeepCopy h a).2 hv2
    have hlen := Heap.grows_users_length g1
    refine ⟨Heap.grows_trans g1 g2, ?_, ?_, ?_⟩
    · simp only [DeepCopyList, List.map_cons, hc]
      rw [Heap.grows_content g2 (DeepCopy_valid h a), DeepCopy_content]
      congr 1
      apply List.map_congr_left
      intro b hb
      exact Heap.grows_content g1 (hv b (List.mem_cons_of_mem _ hb))
    · intro b hb
      simp only [DeepCopyList, List.mem_cons] at hb
      rcases hb with hb | hb
      · subst hb
        exact ⟨Heap.grows_valid g2 (DeepCopy_valid h a), by rw [DeepCopy_fst]⟩
      · exact ⟨(hf b hb).1, le_trans hlen (hf b hb).2⟩
    · simp [DeepCopyList, hl]

theorem DeepCopyList_grows (h : Heap) (as : List Nat) : h.Grows (DeepCopyList h as).2 := by
  induction as generalizing h with
  | nil => exact Heap.grows_refl h
  | cons a as ih => exact Heap.grows_trans (DeepCopy_grows h a) (ih _)

theorem DeepCopyMap_grows (h : Heap) (es : List (String × Nat)) :
    h.Grows (DeepCopyMap h es).2 := by
  induction es generalizing h with
  | nil => exact Heap.grows_refl h
  | cons e es ih => exact Heap.grows_trans (DeepCopy_grows h e.2) (ih _)

theorem DeepCopyMap_spec (es : List (String × Nat)) : ∀ (h : Heap), (∀ e ∈ es, h.valid e.2) →
    (DeepCopyMap h es).1.map (fun e => (e.1, (DeepCopyMap h es).2.content e.2)) =
      es.map (fun e => (e.1, h.content e.2)) ∧
    (∀ e ∈ (DeepCopyMap h es).1, (DeepCopyMap h es).2.valid e.2 ∧ h.users.length ≤ e.2) ∧
    (DeepCopyMap h es).1.map Prod.fst = es.map Prod.fst := by
  induction es with
  | nil => intro h _; simp [DeepCopyMap]
  | cons e es ih =>
    intro h hv
    obtain ⟨k, a⟩ := e
    have g1 := DeepCopy_grows h a
    have g2 := DeepCopyMap_grows (DeepCopy h a).2 es
    have hv2 : ∀ e ∈ es, (DeepCopy h a).2.valid e.2 := fun e he =>
      Heap.grows_valid g1 (hv e (List.mem_cons_of_mem _ he))
    obtain ⟨hc, hf, hk⟩ := ih (DeepCopy h a).2 hv2
    have hlen := Heap.grows_users_length g1
    refine ⟨?_, ?_, ?_⟩
    · simp only [DeepCopyMap, List.map_cons, hc]
      rw [Heap.grows_content g2 (DeepCopy_valid h a), DeepCopy_content]
      congr 1
      apply List.map_congr_left
      intro b hb
      rw [Heap.grows_content g1 (hv b (List.mem_cons_of_mem _ hb))]
    · intro b hb
      simp only [DeepCopyMap, List.mem_cons] at hb
      rcases hb with hb | hb
      · subst hb
        exact ⟨Heap.grows_valid g2 (DeepCopy_valid h a), by simp [DeepCopy_fst]⟩
      · exact ⟨(hf b hb).1, le_trans hlen (hf b hb).2⟩
    · simp [DeepCopyMap, hk]

/-! ## Cache store lemmas -/

section CacheLemmas
variable {κ ν : Type} [DecidableEq κ]

theorem lookup_filter_ne (k k2 : κ) (es : List (κ × ν)) :
    List.lookup k2 (es.filter (fun e => decide (e.1 ≠ k))) =
      if k2 = k then none else List.lookup k2 es := by
  induction es with
  | nil => simp
  | cons e es ih =>
    obtain ⟨k1, v1⟩ := e
    by_cases h1 : k1 = k
    · subst h1
      rw [List.filter_cons_of_neg (by simp), ih]
      by_cases h2 : k2 = k1
      · simp [h2]
      · have : (k2 == k1) = false := by simpa using h2
        simp [h2, List.lookup_cons, this]
    · rw [List.filter_cons_of_pos (by simpa using h1)]
      by_cases h2 : k2 = k1
      · subst h2
        simp [List.lookup_cons, h1]
      · have : (k2 == k1) = false := by simpa using h2
        simp only [List.lookup_cons, this, ih]

theorem Cache.Get_empty (k : κ) : (Cache.empty : Cache κ ν).Get k = none := rfl

theorem Cache.Get_Remove_self (c : Cache κ ν) (k : κ) : (c.Remove k).Get k = none := by
  show List.lookup k (c.entries.filter (fun e => decide (e.1 ≠ k))) = none
  rw [lookup_filter_ne, if_pos rfl]

theorem Cache.Get_Remove_other (c : Cache κ ν) {k k2 : κ} (h : k2 ≠ k) :
    (c.Remove k).Get k2 = c.Get k2 := by
  show List.lookup k2 (c.entries.filter (fun e => decide (e.1 ≠ k))) = List.lookup k2 c.entries
  rw [lookup_filter_ne, if_neg h]

theorem Cache.Get_Set_self (c : Cache κ ν) (k : κ) (v : ν) : (c.Set k v).Get k = some v := by
  simp [Cache.Get, Cache.Set, List.lookup_cons]

theorem Cache.Get_Set_other (c : Cache κ ν) {k k2 : κ} (v : ν) (h : k2 ≠ k) :
    (c.Set k v).Get k2 = c.Get k2 := by
  have h2 : (k2 == k) = false := by simp [h]
  have := Cache.Get_Remove_other c h
  simp only [Cache.Get] at this
  simp [Cache.Get, Cache.Set, List.lookup_cons, h2, this]

theorem Cache.Get_RemoveAll_of_mem (ks : List κ) : ∀ (c : Cache κ ν) {k : κ}, k ∈ ks →
    (c.RemoveAll ks).Get k = none := by
  induction ks with
  | nil => intro c k hk; simp at hk
  | cons k0 ks ih =>
    intro c k hk
    simp only [Cache.RemoveAll, List.foldl_cons]
    by_cases hin : k ∈ ks
    · exact ih _ hin
    · have hk0 : k = k0 := by simpa [hin] using hk
      subst hk0
      clear hk ih
      have : ∀ (ks : List κ) (c : Cache κ ν), c.Get k = none →
          (List.foldl Cache.Remove c ks).Get k = none := by
        intro ks
        induction ks with
        | nil => intro c hc; exact hc
        | cons k1 ks ih2 =>
          intro c hc
          simp only [List.foldl_cons]
          apply ih2
          by_cases h1 : k = k1
          · subst h1; exact Cache.Get_Remove_self c k
          · rw [Cache.Get_Remove_other c h1]; exact hc
      exact this ks _ (Cache.Get_Remove_self c k)

theorem Cache.Get_RemoveAll_of_not_mem (ks : List κ) : ∀ (c : Cache κ ν) {k : κ}, k ∉ ks →
    (c.RemoveAll ks).Get k = c.Get k := by
  induction ks with
  | nil => intro c k _; rfl
  | cons k0 ks ih =>
    intro c k hk
    simp only [List.mem_cons, not_or] at hk
    simp only [Cache.RemoveAll, List.foldl_cons]
    have := ih (c.Remove k0) hk.2
    simp only [Cache.RemoveAll] at this
    rw [this, Cache.Get_Remove_other c hk.1]

theorem Cache.mem_of_Get (c : Cache κ ν) {k : κ} {v : ν} (h : c.Get k = some v) :
    (k, v) ∈ c.entries := by
  obtain ⟨es, hn⟩ := c
  simp only [Cache.Get] at h
  show (k, v) ∈ es
  clear hn
  induction es with
  | nil => simp at h
  | cons e es ih =>
    obtain ⟨k1, v1⟩ := e
    by_cases hk : k = k1
    · subst hk
      simp [List.lookup_cons] at h
      simp [h]
    · have h2 : (k == k1) = false := by simp [hk]
      simp only [List.lookup_cons, h2] at h
      exact List.mem_cons_of_mem _ (ih h)

theorem Cache.Get_of_mem (c : Cache κ ν) {k : κ} {v : ν} (h : (k, v) ∈ c.entries) :
    c.Get k = some v := by
  obtain ⟨es, hn⟩ := c
  simp only [Cache.Get]
  simp only at h
  induction es with
  | nil => simp at h
  | cons e es ih =>
    obtain ⟨k1, v1⟩ := e
    simp only [List.map_cons, List.nodup_cons] at hn
    rcases List.mem_cons.1 h with h1 | h1
    · cases h1
      simp [List.lookup_cons]
    · have hk : k ≠ k1 := by
        rintro rfl
        exact hn.1 (List.mem_map.2 ⟨(k, v), h1, rfl⟩)
      have h2 : (k == k1) = false := by simp [hk]
      simp only [List.lookup_cons, h2]
      exact ih hn.2 h1

theorem Cache.mem_Scan (c : Cache κ ν) (p : κ → ν → Bool) (k : κ) :
    k ∈ c.Scan p ↔ ∃ v, c.Get k = some v ∧ p k v = true := by
  simp only [Cache.Scan, List.mem_map, List.mem_filter]
  constructor
  · rintro ⟨⟨k1, v⟩, ⟨hm, hp⟩, rfl⟩
    exact ⟨v, Cache.Get_of_mem c hm, hp⟩
  · rintro ⟨v, hg, hp⟩
    exact ⟨(k, v), ⟨Cache.mem_of_Get c hg, hp⟩, rfl⟩

end CacheLemmas

/-! ## Fresh objects and mutation -/

theorem Heap.grows_mapsOf {h1 h2 : Heap} (g : h1.Grows h2) {a : Nat}
    (ha : a < h1.users.length) : h2.mapsOf a = h1.mapsOf a := by
  simp only [Heap.mapsOf, Heap.grows_user g ha]

theorem Heap.valid_mapsOf {h : Heap} {a : Nat} (ha : h.valid a) :
    ∀ m ∈ h.mapsOf a, m < h.maps.length := by
  obtain ⟨_, hn, hp, ht⟩ := ha
  intro m hm
  simp only [Heap.mapsOf, List.mem_cons, List.mem_singleton, List.not_mem_nil, or_false] at hm
  rcases hm with rfl | rfl | rfl <;> assumption

theorem DeepCopy_fresh (h : Heap) (a : Nat) : h.Fresh (DeepCopy h a).2 (DeepCopy h a).1 := by
  obtain ⟨h1, h2, h3⟩ := DeepCopy_user_maps h a
  refine ⟨by rw [DeepCopy_fst], ?_⟩
  intro m hm
  simp only [Heap.mapsOf, List.mem_cons, List.mem_singleton, List.not_mem_nil, or_false] at hm
  rcases hm with rfl | rfl | rfl <;> assumption

theorem Heap.Fresh.mono {h0 h1 h2 h3 : Heap} {a : Nat} (g01 : h0.Grows h1)
    (f : h1.Fresh h2 a) (v : h2.valid a) (g23 : h2.Grows h3) : h0.Fresh h3 a := by
  refine ⟨le_trans (Heap.grows_users_length g01) f.1, ?_⟩
  intro m hm
  rw [Heap.grows_mapsOf g23 v.1] at hm
  exact le_trans (Heap.grows_maps_length g01) (f.2 m hm)

/-- A fresh object shares no memory with an object that was valid before. -/
theorem Heap.Fresh.separate {h1 h2 : Heap} {a b : Nat} (g : h1.Grows h2)
    (f : h1.Fresh h2 a) (v : h1.valid b) : h2.Separate a b := by
  refine ⟨?_, ?_⟩
  · have := v.1
    have := f.1
    omega
  · intro m hm hmb
    rw [Heap.grows_mapsOf g v.1] at hmb
    have := Heap.valid_mapsOf v m hmb
    have := f.2 m hm
    omega

theorem Heap.MutationOf.content {h1 h2 : Heap} {a b : Nat} (mu : h1.MutationOf h2 a)
    (sep : h1.Separate b a) : h2.content b = h1.content b := by
  obtain ⟨_, _, hu, hm⟩ := mu
  obtain ⟨hne, hd⟩ := sep
  have e := hu b hne
  simp only [Heap.content, e]
  rw [hm _ (hd _ (by simp [Heap.mapsOf])), hm _ (hd _ (by simp [Heap.mapsOf])),
    hm _ (hd _ (by simp [Heap.mapsOf]))]

theorem Heap.MutationOf.valid {h1 h2 : Heap} {a b : Nat} (mu : h1.MutationOf h2 a)
    (hne : b ≠ a) (v : h1.valid b) : h2.valid b := by
  obtain ⟨hl, hml, hu, _⟩ := mu
  have e := hu b hne
  obtain ⟨v0, v1, v2, v3⟩ := v
  exact ⟨by omega, by rw [e]; omega, by rw [e]; omega, by rw [e]; omega⟩

theorem Heap.Separate.symm {h : Heap} {a b : Nat} (s : h.Separate a b) : h.Separate b a :=
  ⟨Ne.symm s.1, fun m hm hma => s.2 m hma hm⟩

theorem DeepCopyList_fresh (as : List Nat) : ∀ (h : Heap),
    ∀ a ∈ (DeepCopyList h as).1, h.Fresh (DeepCopyList h as).2 a ∧
      (DeepCopyList h as).2.valid a := by
  induction as with
  | nil => intro h a ha; simp [DeepCopyList] at ha
  | cons a0 as ih =>
    intro h a ha
    simp only [DeepCopyList, List.mem_cons] at ha
    have g1 := DeepCopy_grows h a0
    have g2 := DeepCopyList_grows (DeepCopy h a0).2 as
    rcases ha with rfl | ha
    · exact ⟨Heap.Fresh.mono (Heap.grows_refl h) (DeepCopy_fresh h a0) (DeepCopy_valid h a0) g2,
        Heap.grows_valid g2 (DeepCopy_valid h a0)⟩
    · obtain ⟨f, v⟩ := ih (DeepCopy h a0).2 a ha
      exact ⟨Heap.Fresh.mono g1 f v (Heap.grows_refl _), v⟩

/-! ## Step lemmas for the decorator -/

theorem Get_hit (B : UserStore) (s : UserCacheDecorator) (id : String) (stored : Nat)
    (h : s.byID.Get id = some stored) :
    s.Get B id = (.ok (DeepCopy s.heap stored).1, { s with heap := (DeepCopy s.heap stored).2 }) := by
  simp only [UserCacheDecorator.Get, h]

theorem Get_miss_ok (B : UserStore) (s : UserCacheDecorator) (id : String) (user : Nat)
    (h : s.byID.Get id = none) (hB : B.Get id = .ok user) :
    s.Get B id = (.ok (DeepCopy (DeepCopy s.heap user).2 user).1,
      { s with calls := s.calls ++ [Call.Get id]
               heap := (DeepCopy (DeepCopy s.heap user).2 user).2
               byID := s.byID.Set id (DeepCopy s.heap user).1 }) := by
  simp only [UserCacheDecorator.Get, h, hB]

theorem Get_miss_error (B : UserStore) (s : UserCacheDecorator) (id : String) (e : StoreError)
    (h : s.byID.Get id = none) (hB : B.Get id = .error e) :
    s.Get B id = (.error e, { s with calls := s.calls ++ [Call.Get id] }) := by
  simp only [UserCacheDecorator.Get, h, hB]

theorem GetProfileByIDs_bypass (B : UserStore) (s : UserCacheDecorator) (ids : List String)
    (opts : UserGetByIDsOpts) :
    s.GetProfileByIDs B ids opts false =
      (B.GetProfileByIDs ids opts,
       { s with calls := s.calls ++ [Call.GetProfileByIDs ids opts] }) := by
  simp [UserCacheDecorator.GetProfileByIDs]

theorem GetProfileByIDs_hit (B : UserStore) (s : UserCacheDecorator) (ids : List String)
    (opts : UserGetByIDsOpts) (stored : List Nat)
    (h : s.byBatch.Get (batchKey ids) = some stored) :
    s.GetProfileByIDs B ids opts true =
      (.ok (DeepCopyList s.heap stored).1, { s with heap := (DeepCopyList s.heap stored).2 }) := by
  simp [UserCacheDecorator.GetProfileByIDs, h]

theorem GetProfileByIDs_miss_ok (B : UserStore) (s : UserCacheDecorator) (ids : List String)
    (opts : UserGetByIDsOpts) (users : List Nat)
    (h : s.byBatch.Get (batchKey ids) = none) (hB : B.GetProfileByIDs ids opts = .ok users) :
    s.GetProfileByIDs B ids opts true =
      (.ok (DeepCopyList (DeepCopyList s.heap users).2 users).1,
       { s with calls := s.calls ++ [Call.GetProfileByIDs ids opts]
                heap := (DeepCopyList (DeepCopyList s.heap users).2 users).2
                byBatch := s.byBatch.Set (batchKey ids) (DeepCopyList s.heap users).1 }) := by
  simp [UserCacheDecorator.GetProfileByIDs, h, hB]

theorem GetProfileByIDs_miss_error (B : UserStore) (s : UserCacheDecorator) (ids : List String)
    (opts : UserGetByIDsOpts) (e : StoreError)
    (h : s.byBatch.Get (batchKey ids) = none) (hB : B.GetProfileByIDs ids opts = .error e) :
    s.GetProfileByIDs B ids opts true =
      (.error e, { s with calls := s.calls ++ [Call.GetProfileByIDs ids opts] }) := by
  simp [UserCacheDecorator.GetProfileByIDs, h, hB]

theorem GetAllProfilesInChannel_bypass (B : UserStore) (s : UserCacheDecorator)
    (channelID : String) :
    s.GetAllProfilesInChannel B channelID false =
      (B.GetAllProfilesInChannel channelID,
       { s with calls := s.calls ++ [Call.GetAllProfilesInChannel channelID] }) := by
  simp [UserCacheDecorator.GetAllProfilesInChannel]

theorem GetAllProfilesInChannel_hit (B : UserStore) (s : UserCacheDecorator)
    (channelID : String) (stored : List (String × Nat))
    (h : s.inChannel.Get channelID = some stored) :
    s.GetAllProfilesInChannel B channelID true =
      (.ok (DeepCopyMap s.heap stored).1, { s with heap := (DeepCopyMap s.heap stored).2 }) := by
  simp [UserCacheDecorator.GetAllProfilesInChannel, h]

theorem GetAllProfilesInChannel_miss_ok (B : UserStore) (s : UserCacheDecorator)
    (channelID : String) (users : List (String × Nat))
    (h : s.inChannel.Get channelID = none) (hB : B.GetAllProfilesInChannel channelID = .ok users) :
    s.GetAllProfilesInChannel B channelID true =
      (.ok (DeepCopyMap (DeepCopyMap s.heap users).2 users).1,
       { s with calls := s.calls ++ [Call.GetAllProfilesInChannel channelID]
                heap := (DeepCopyMap (DeepCopyMap s.heap users).2 users).2
                inChannel := s.inChannel.Set channelID (DeepCopyMap s.heap users).1 }) := by
  simp [UserCacheDecorator.GetAllProfilesInChannel, h, hB]

theorem GetAllProfilesInChannel_miss_error (B : UserStore) (s : UserCacheDecorator)
    (channelID : String) (e : StoreError)
    (h : s.inChannel.Get channelID = none) (hB : B.GetAllProfilesInChannel channelID = .error e) :
    s.GetAllProfilesInChannel B channelID true =
      (.error e, { s with calls := s.calls ++ [Call.GetAllProfilesInChannel channelID] }) := by
  simp [UserCacheDecorator.GetAllProfilesInChannel, h, hB]

theorem Get_miss_calls (B : UserStore) (s : UserCacheDecorator) (id : String)
    (h : s.byID.Get id = none) : (s.Get B id).2.calls = s.calls ++ [Call.Get id] := by
  cases hB : B.Get id with
  | error e => rw [Get_miss_error B s id e h hB]
  | ok u => rw [Get_miss_ok B s id u h hB]

theorem InvalidateProfileCacheForUser_byID (s : UserCacheDecorator) (userID : String) :
    (s.InvalidateProfileCacheForUser userID).byID.Get userID = none :=
  Cache.Get_Remove_self _ _

theorem InvalidateProfileCacheForUser_calls (s : UserCacheDecorator) (userID : String) :
    (s.InvalidateProfileCacheForUser userID).calls = s.calls := rfl

/-! ## C1: at-most-one-fetch -/

/-- C1 (at-most-one-fetch).  From any decorator state in which the key is not
cached and for which the backing store answers successfully, two consecutive
cached reads cause exactly one backing-store call: the first read appends one
call to the record of backing-store invocations and returns the backing
store's data, the second read returns the same data and appends nothing.
This holds for `Get(id)`, for `GetProfileByIDs(ids, opts, true)` and for
`GetAllProfilesInChannel(channelID, true)`. -/
theorem at_most_one_fetch (B : UserStore) (s : UserCacheDecorator) :
    (∀ (K : String) (u : Nat), s.byID.Get K = none → B.Get K = .ok u → s.heap.valid u →
      ∃ a1 a2,
        (s.Get B K).1 = .ok a1 ∧
        (s.Get B K).2.heap.content a1 = s.heap.content u ∧
        (s.Get B K).2.calls = s.calls ++ [Call.Get K] ∧
        ((s.Get B K).2.Get B K).1 = .ok a2 ∧
        ((s.Get B K).2.Get B K).2.heap.content a2 = s.heap.content u ∧
        ((s.Get B K).2.Get B K).2.calls = s.calls ++ [Call.Get K]) ∧
    (∀ (ids : List String) (opts : UserGetByIDsOpts) (us : List Nat),
      s.byBatch.Get (batchKey ids) = none → B.GetProfileByIDs ids opts = .ok us →
      (∀ a ∈ us, s.heap.valid a) →
      ∃ r1 r2,
        (s.GetProfileByIDs B ids opts true).1 = .ok r1 ∧
        r1.map (s.GetProfileByIDs B ids opts true).2.heap.content = us.map s.heap.content ∧
        (s.GetProfileByIDs B ids opts true).2.calls =
          s.calls ++ [Call.GetProfileByIDs ids opts] ∧
        ((s.GetProfileByIDs B ids opts true).2.GetProfileByIDs B ids opts true).1 = .ok r2 ∧
        r2.map ((s.GetProfileByIDs B ids opts true).2.GetProfileByIDs B ids opts true).2.heap.content
          = us.map s.heap.content ∧
        ((s.GetProfileByIDs B ids opts true).2.GetProfileByIDs B ids opts true).2.calls =
          s.calls ++ [Call.GetProfileByIDs ids opts]) ∧
    (∀ (channelID : String) (us : List (String × Nat)),
      s.inChannel.Get channelID = none → B.GetAllProfilesInChannel channelID = .ok us →
      (∀ e ∈ us, s.heap.valid e.2) →
      ∃ m1 m2,
        (s.GetAllProfilesInChannel B channelID true).1 = .ok m1 ∧
        m1.map (fun e => (e.1, (s.GetAllProfilesInChannel B channelID true).2.heap.content e.2))
          = us.map (fun e => (e.1, s.heap.content e.2)) ∧
        (s.GetAllProfilesInChannel B channelID true).2.calls =
          s.calls ++ [Call.GetAllProfilesInChannel channelID] ∧
        ((s.GetAllProfilesInChannel B channelID true).2.GetAllProfilesInChannel B channelID
          true).1 = .ok m2 ∧
        m2.map (fun e => (e.1, ((s.GetAllProfilesInChannel B channelID true).2.GetAllProfilesInChannel
          B channelID true).2.heap.content e.2)) = us.map (fun e => (e.1, s.heap.content e.2)) ∧
        ((s.GetAllProfilesInChannel B channelID true).2.GetAllProfilesInChannel B channelID
          true).2.calls = s.calls ++ [Call.GetAllProfilesInChannel channelID]) := by
  refine ⟨?_, ?_, ?_⟩
  · intro K u hmiss hB hv
    rw [Get_miss_ok B s K u hmiss hB]
    have g1 := DeepCopy_grows s.heap u
    have g2 := DeepCopy_grows (DeepCopy s.heap u).2 u
    have hv1 : (DeepCopy s.heap u).2.valid u := Heap.grows_valid g1 hv
    rw [Get_hit B _ K (DeepCopy s.heap u).1 (Cache.Get_Set_self _ _ _)]
    refine ⟨_, _, rfl, ?_, rfl, rfl, ?_, rfl⟩
    · show (DeepCopy (DeepCopy s.heap u).2 u).2.content (DeepCopy (DeepCopy s.heap u).2 u).1 = _
      rw [DeepCopy_content, Heap.grows_content g1 hv]
    · show (DeepCopy (DeepCopy (DeepCopy s.heap u).2 u).2 (DeepCopy s.heap u).1).2.content
        (DeepCopy (DeepCopy (DeepCopy s.heap u).2 u).2 (DeepCopy s.heap u).1).1 = _
      rw [DeepCopy_content, Heap.grows_content g2 (DeepCopy_valid s.heap u), DeepCopy_content]
  · intro ids opts us hmiss hB hv
    rw [GetProfileByIDs_miss_ok B s ids opts us hmiss hB]
    obtain ⟨g1, hc1, hf1, _⟩ := DeepCopyList_spec us s.heap hv
    have hv1 : ∀ a ∈ us, (DeepCopyList s.heap us).2.valid a :=
      fun a ha => Heap.grows_valid g1 (hv a ha)
    obtain ⟨g2, hc2, _, _⟩ := DeepCopyList_spec us (DeepCopyList s.heap us).2 hv1
    have hvs : ∀ a ∈ (DeepCopyList s.heap us).1,
        (DeepCopyList (DeepCopyList s.heap us).2 us).2.valid a :=
      fun a ha => Heap.grows_valid g2 (hf1 a ha).1
    obtain ⟨_, hc3, _, _⟩ := DeepCopyList_spec (DeepCopyList s.heap us).1
      (DeepCopyList (DeepCopyList s.heap us).2 us).2 hvs
    rw [GetProfileByIDs_hit B _ ids opts (DeepCopyList s.heap us).1 (Cache.Get_Set_self _ _ _)]
    refine ⟨_, _, rfl, ?_, rfl, rfl, ?_, rfl⟩
    · show List.map (DeepCopyList (DeepCopyList s.heap us).2 us).2.content
        (DeepCopyList (DeepCopyList s.heap us).2 us).1 = _
      rw [hc2]
      exact List.map_congr_left (fun a ha => Heap.grows_content g1 (hv a ha))
    · show List.map (DeepCopyList (DeepCopyList (DeepCopyList s.heap us).2 us).2
        (DeepCopyList s.heap us).1).2.content (DeepCopyList (DeepCopyList (DeepCopyList s.heap
        us).2 us).2 (DeepCopyList s.heap us).1).1 = _
      rw [hc3, ← hc1]
      exact List.map_congr_left (fun a ha => Heap.grows_content g2 (hf1 a ha).1)
  · intro ch us hmiss hB hv
    rw [GetAllProfilesInChannel_miss_ok B s ch us hmiss hB]
    obtain ⟨hc1, hf1, _⟩ := DeepCopyMap_spec us s.heap hv
    have g1 := DeepCopyMap_grows s.heap us
    have hv1 : ∀ e ∈ us, (DeepCopyMap s.heap us).2.valid e.2 :=
      fun e he => Heap.grows_valid g1 (hv e he)
    obtain ⟨hc2, _, _⟩ := DeepCopyMap_spec us (DeepCopyMap s.heap us).2 hv1
    have g2 := DeepCopyMap_grows (DeepCopyMap s.heap us).2 us
    have hvs : ∀ e ∈ (DeepCopyMap s.heap us).1,
        (DeepCopyMap (DeepCopyMap s.heap us).2 us).2.valid e.2 :=
      fun e he => Heap.grows_valid g2 (hf1 e he).1
    obtain ⟨hc3, _, _⟩ := DeepCopyMap_spec (DeepCopyMap s.heap us).1
      (DeepCopyMap (DeepCopyMap s.heap us).2 us).2 hvs
    rw [GetAllProfilesInChannel_hit B _ ch (DeepCopyMap s.heap us).1 (Cache.Get_Set_self _ _ _)]
    refine ⟨_, _, rfl, ?_, rfl, rfl, ?_, rfl⟩
    · show List.map (fun e => (e.1, (DeepCopyMap (DeepCopyMap s.heap us).2 us).2.content e.2))
        (DeepCopyMap (DeepCopyMap s.heap us).2 us).1 = _
      rw [hc2]
      exact List.map_congr_left (fun e he => by rw [Heap.grows_content g1 (hv e he)])
    · show List.map (fun e => (e.1, (DeepCopyMap (DeepCopyMap (DeepCopyMap s.heap us).2 us).2
        (DeepCopyMap s.heap us).1).2.content e.2)) (DeepCopyMap (DeepCopyMap (DeepCopyMap s.heap
        us).2 us).2 (DeepCopyMap s.heap us).1).1 = _
      rw [hc3, ← hc1]
      exact List.map_congr_left (fun e he => by rw [Heap.grows_content g2 (hf1 e he).1])

/-- Witness of C1 on the fixtures of `TestUserStoreGetCache`: from a fresh
decorator, two reads of user "123" record the single backing call `Get "123"`. -/
theorem at_most_one_fetch_witness :
    (NewLocalCacheLayer fakeHeap).byID.Get "123" = none ∧
    mockStore.Get "123" = .ok 0 ∧ fakeHeap.valid 0 ∧
    (((NewLocalCacheLayer fakeHeap).Get mockStore "123").2.Get mockStore "123").2.calls =
      [Call.Get "123"] := by
  have h1 : (NewLocalCacheLayer fakeHeap).byID.Get "123" = none := rfl
  have h2 : mockStore.Get "123" = .ok 0 := rfl
  have h3 : fakeHeap.valid 0 := by decide
  obtain ⟨_, _, _, _, _, _, _, h⟩ :=
    (at_most_one_fetch mockStore (NewLocalCacheLayer fakeHeap)).1 "123" 0 h1 h2 h3
  exact ⟨h1, h2, h3, h⟩

/-! ## C2: invalidation visibility -/

/-- C2 (invalidation visibility).  For every user id `K`: starting with `K` not
cached, the sequence `Get(K)`; `InvalidateProfileCacheForUser(K)`; `Get(K)`
calls the backing store's `Get` exactly twice in total (the record of backing
calls grows by `Get K`, `Get K`); and in every state the read that immediately
follows an invalidation of `K` finds no entry for `K` and reaches the backing
store, so it never returns a stale cache entry. -/
theorem invalidation_visibility (B : UserStore) (s : UserCacheDecorator) (K : String) :
    (s.byID.Get K = none →
      ((((s.Get B K).2.InvalidateProfileCacheForUser K).Get B K).2.calls =
          s.calls ++ [Call.Get K, Call.Get K] ∧
       (((s.Get B K).2.InvalidateProfileCacheForUser K).Get B K).2.numberOfCalls Call.isGet =
          s.numberOfCalls Call.isGet + 2)) ∧
    ((s.InvalidateProfileCacheForUser K).byID.Get K = none ∧
     ((s.InvalidateProfileCacheForUser K).Get B K).2.calls = s.calls ++ [Call.Get K]) := by
  have key : ∀ t : UserCacheDecorator,
      ((t.InvalidateProfileCacheForUser K).Get B K).2.calls = t.calls ++ [Call.Get K] := by
    intro t
    rw [Get_miss_calls B _ K (InvalidateProfileCacheForUser_byID t K),
      InvalidateProfileCacheForUser_calls]
  refine ⟨fun hmiss => ?_, InvalidateProfileCacheForUser_byID s K, key s⟩
  have hc : (((s.Get B K).2.InvalidateProfileCacheForUser K).Get B K).2.calls =
      s.calls ++ [Call.Get K, Call.Get K] := by
    rw [key, Get_miss_calls B s K hmiss, List.append_assoc]; rfl
  refine ⟨hc, ?_⟩
  simp [UserCacheDecorator.numberOfCalls, hc, List.countP_append, List.countP_cons, Call.isGet]

/-- Witness of C2 on the fixtures of `TestUserStoreGetCache`. -/
theorem invalidation_visibility_witness :
    (NewLocalCacheLayer fakeHeap).byID.Get "123" = none ∧
    (((((NewLocalCacheLayer fakeHeap).Get mockStore "123").2.InvalidateProfileCacheForUser
      "123").Get mockStore "123").2.numberOfCalls Call.isGet = 2) :=
  ⟨rfl, ((invalidation_visibility mockStore (NewLocalCacheLayer fakeHeap) "123").1 rfl).2⟩

/-! ## Mutation of returned lists -/

theorem Heap.MutationOf.toAll {h1 h2 : Heap} {a : Nat} {as : List Nat}
    (mu : h1.MutationOf h2 a) (ha : a ∈ as) : h1.MutationOfAll h2 as := by
  obtain ⟨l1, l2, hu, hm⟩ := mu
  exact ⟨l1, l2, fun b hb => hu b (fun e => hb (e ▸ ha)), fun m hmm => hm m (hmm a ha)⟩

theorem Heap.MutationOfAll.refl (h : Heap) (as : List Nat) : h.MutationOfAll h as :=
  ⟨rfl, rfl, fun _ _ => rfl, fun _ _ => rfl⟩

/-- Objects that existed before the mutated objects were allocated keep their
validity and their content. -/
theorem Heap.MutationOfAll.keeps {h0 h1 h2 : Heap} {as : List Nat} (g : h0.Grows h1)
    (hf : ∀ a ∈ as, h0.Fresh h1 a) (mu : h1.MutationOfAll h2 as) {b : Nat} (hb : h0.valid b) :
    h2.valid b ∧ h2.content b = h0.content b := by
  obtain ⟨l1, l2, hu, hm⟩ := mu
  have hb1 : h1.valid b := Heap.grows_valid g hb
  have hnot : b ∉ as := fun hin => by
    have := (hf b hin).1
    have := hb.1
    omega
  have eu := hu b hnot
  have hmaps : ∀ m ∈ h1.mapsOf b, h2.map m = h1.map m := by
    intro m hmb
    apply hm
    intro a ha hma
    exact (Heap.Fresh.separate g (hf a ha) hb).2 m hma hmb
  obtain ⟨v0, v1, v2, v3⟩ := hb1
  refine ⟨⟨by omega, by rw [eu]; omega, by rw [eu]; omega, by rw [eu]; omega⟩, ?_⟩
  rw [← Heap.grows_content g hb]
  simp only [Heap.content, eu]
  rw [hmaps _ (by simp [Heap.mapsOf]), hmaps _ (by simp [Heap.mapsOf]),
    hmaps _ (by simp [Heap.mapsOf])]

theorem GetProfileByIDs_hit_isolated (B : UserStore) (s : UserCacheDecorator) (ids : List String)
    (opts : UserGetByIDsOpts) (stored : List Nat)
    (hhit : s.byBatch.Get (batchKey ids) = some stored) (hv : ∀ a ∈ stored, s.heap.valid a) :
    ∃ r, (s.GetProfileByIDs B ids opts true).1 = .ok r ∧
      (s.GetProfileByIDs B ids opts true).2.calls = s.calls ∧
      s.heap.Grows (s.GetProfileByIDs B ids opts true).2.heap ∧
      r.map (s.GetProfileByIDs B ids opts true).2.heap.content = stored.map s.heap.content ∧
      (∀ a ∈ r, s.heap.Fresh (s.GetProfileByIDs B ids opts true).2.heap a ∧
        (s.GetProfileByIDs B ids opts true).2.heap.valid a) := by
  rw [GetProfileByIDs_hit B s ids opts stored hhit]
  obtain ⟨g, hc, _, _⟩ := DeepCopyList_spec stored s.heap hv
  exact ⟨_, rfl, rfl, g, hc, DeepCopyList_fresh stored s.heap⟩

/-- The cached read that follows a read whose returned list `r` was mutated:
the objects that existed before `r` was allocated keep their content, and the
read returns fresh copies of the stored entry without a backing call. -/
theorem GetProfileByIDs_second_read (B : UserStore) (t : UserCacheDecorator) (h0 : Heap)
    (r stored : List Nat) (ids : List String) (opts : UserGetByIDsOpts)
    (g : h0.Grows t.heap) (hfr : ∀ a ∈ r, h0.Fresh t.heap a ∧ t.heap.valid a)
    (hhit : t.byBatch.Get (batchKey ids) = some stored) (hst : ∀ a ∈ stored, h0.valid a)
    (h2 : Heap) (mu : t.heap.MutationOfAll h2 r) :
    (∀ b, h0.valid b → h2.content b = h0.content b) ∧
    ∃ r2, (UserCacheDecorator.GetProfileByIDs B { t with heap := h2 } ids opts true).1 = .ok r2 ∧
      r2.map (UserCacheDecorator.GetProfileByIDs B { t with heap := h2 } ids opts
        true).2.heap.content = stored.map h0.content ∧
      (∀ a ∈ r2, a ∉ r ∧ ∀ b, h0.valid b →
        (UserCacheDecorator.GetProfileByIDs B { t with heap := h2 } ids opts
          true).2.heap.Separate a b) ∧
      (UserCacheDecorator.GetProfileByIDs B { t with heap := h2 } ids opts true).2.calls =
        t.calls := by
  have keep : ∀ b, h0.valid b → h2.valid b ∧ h2.content b = h0.content b :=
    fun b hb => Heap.MutationOfAll.keeps g (fun a ha => (hfr a ha).1) mu hb
  have hhit2 : (UserCacheDecorator.byBatch { t with heap := h2 }).Get (batchKey ids) =
      some stored := hhit
  have hv2 : ∀ a ∈ stored, (UserCacheDecorator.heap { t with heap := h2 }).valid a :=
    fun a ha => (keep a (hst a ha)).1
  obtain ⟨r2, e1, ec, g2, hc, hf2⟩ :=
    GetProfileByIDs_hit_isolated B { t with heap := h2 } ids opts stored hhit2 hv2
  refine ⟨fun b hb => (keep b hb).2, r2, e1, ?_, ?_, ec⟩
  · rw [hc]
    exact List.map_congr_left (fun a ha => (keep a (hst a ha)).2)
  · intro a ha
    refine ⟨fun hin => ?_, fun b hb => Heap.Fresh.separate g2 (hf2 a ha).1 (keep b hb).1⟩
    have h1 := (hf2 a ha).1.1
    have h3 := (hfr a hin).2.1
    have h4 : h2.users.length = t.heap.users.length := mu.1
    have h5 : (UserCacheDecorator.heap { t with heap := h2 }).users.length = h2.users.length := rfl
    omega

/-! ## C3: copy isolation -/

/-- C3 (copy isolation).  Cached `Get(K)`, read on a miss: the returned object
is an allocated object, equal in content to the backing store's record `u`,
and shares no memory with it; after any mutation of the returned object (writes to its fields or
to its maps) the backing store's record still has its content, and the
subsequent `Get(K)`, a cache hit without a backing call, returns an object
that is again equal in content to the backing store's record, shares no
memory with it and is not the first returned object.  Read on a hit: the
returned object is equal in content to the stored entry, shares no memory
with any object that existed before the read (the stored entry and the
backing store's record among them), and after any mutation of it every such
object keeps its content and the next `Get(K)` returns the stored content
again.  Cached `GetProfileByIDs`, read on a miss: the returned list is equal in
content to the backing store's list, and each element shares no memory with
any object that existed before the read; after any mutation of the returned
elements the backing store's records keep their content, and the subsequent
cached `GetProfileByIDs`, a cache hit without a backing call, returns a list
that is again equal in content to the backing store's list, whose elements
are none of the first returned elements and share no memory with any object
that existed before the first read (the backing store's records among them).
Cached `GetProfileByIDs`, read on a hit in any state: the returned list is
equal in content to the stored entry, each element shares no memory with any
object that existed before the read (the stored entry and the backing
store's records among them), and after any mutation of the returned elements
every such object keeps its content and the next cached read returns the
stored content again, in objects that are none of the mutated ones.  Writing
a key of the returned object's `NotifyProps` is such a mutation and does
change the returned object. -/
theorem copy_isolation (B : UserStore) (s : UserCacheDecorator) :
    (∀ (K : String) (u : Nat), s.byID.Get K = none → B.Get K = .ok u → s.heap.valid u →
      ∃ a1, (s.Get B K).1 = .ok a1 ∧
        (s.Get B K).2.heap.valid a1 ∧
        (s.Get B K).2.heap.content a1 = s.heap.content u ∧
        (s.Get B K).2.heap.Separate a1 u ∧
        ∀ h2 : Heap, (s.Get B K).2.heap.MutationOf h2 a1 →
          h2.content u = s.heap.content u ∧
          ∃ a2, (UserCacheDecorator.Get B { (s.Get B K).2 with heap := h2 } K).1 = .ok a2 ∧
            (UserCacheDecorator.Get B { (s.Get B K).2 with heap := h2 } K).2.heap.content a2 =
              s.heap.content u ∧
            (UserCacheDecorator.Get B { (s.Get B K).2 with heap := h2 } K).2.heap.Separate a2 u ∧
            a2 ≠ a1 ∧
            (UserCacheDecorator.Get B { (s.Get B K).2 with heap := h2 } K).2.calls =
              (s.Get B K).2.calls) ∧
    (∀ (K : String) (stored : Nat), s.byID.Get K = some stored → s.heap.valid stored →
      ∃ a, (s.Get B K).1 = .ok a ∧
        (s.Get B K).2.heap.valid a ∧
        (s.Get B K).2.heap.content a = s.heap.content stored ∧
        (∀ b, s.heap.valid b → (s.Get B K).2.heap.Separate a b) ∧
        ∀ h2 : Heap, (s.Get B K).2.heap.MutationOf h2 a →
          (∀ b, s.heap.valid b → h2.content b = s.heap.content b) ∧
          ∃ a2, (UserCacheDecorator.Get B { (s.Get B K).2 with heap := h2 } K).1 = .ok a2 ∧
            (UserCacheDecorator.Get B { (s.Get B K).2 with heap := h2 } K).2.heap.content a2 =
              s.heap.content stored) ∧
    (∀ (ids : List String) (opts : UserGetByIDsOpts) (us : List Nat),
      s.byBatch.Get (batchKey ids) = none → B.GetProfileByIDs ids opts = .ok us →
      (∀ a ∈ us, s.heap.valid a) →
      ∃ r, (s.GetProfileByIDs B ids opts true).1 = .ok r ∧
        r.map (s.GetProfileByIDs B ids opts true).2.heap.content = us.map s.heap.content ∧
        ∀ a ∈ r, ∀ b, s.heap.valid b →
          (s.GetProfileByIDs B ids opts true).2.heap.Separate a b) ∧
    (∀ (ids : List String) (opts : UserGetByIDsOpts) (us : List Nat),
      s.byBatch.Get (batchKey ids) = none → B.GetProfileByIDs ids opts = .ok us →
      (∀ a ∈ us, s.heap.valid a) →
      ∃ r1, (s.GetProfileByIDs B ids opts true).1 = .ok r1 ∧
        ∀ h2 : Heap, (s.GetProfileByIDs B ids opts true).2.heap.MutationOfAll h2 r1 →
          (∀ b, s.heap.valid b → h2.content b = s.heap.content b) ∧
          ∃ r2, (UserCacheDecorator.GetProfileByIDs B
              { (s.GetProfileByIDs B ids opts true).2 with heap := h2 } ids opts true).1 =
              .ok r2 ∧
            r2.map (UserCacheDecorator.GetProfileByIDs B
              { (s.GetProfileByIDs B ids opts true).2 with heap := h2 } ids opts
              true).2.heap.content = us.map s.heap.content ∧
            (∀ a ∈ r2, a ∉ r1 ∧ ∀ b, s.heap.valid b →
              (UserCacheDecorator.GetProfileByIDs B
                { (s.GetProfileByIDs B ids opts true).2 with heap := h2 } ids opts
                true).2.heap.Separate a b) ∧
            (UserCacheDecorator.GetProfileByIDs B
              { (s.GetProfileByIDs B ids opts true).2 with heap := h2 } ids opts
              true).2.calls = (s.GetProfileByIDs B ids opts true).2.calls) ∧
    (∀ (ids : List String) (opts : UserGetByIDsOpts) (stored : List Nat),
      s.byBatch.Get (batchKey ids) = some stored → (∀ a ∈ stored, s.heap.valid a) →
      ∃ r, (s.GetProfileByIDs B ids opts true).1 = .ok r ∧
        (s.GetProfileByIDs B ids opts true).2.calls = s.calls ∧
        r.map (s.GetProfileByIDs B ids opts true).2.heap.content = stored.map s.heap.content ∧
        (∀ a ∈ r, ∀ b, s.heap.valid b →
          (s.GetProfileByIDs B ids opts true).2.heap.Separate a b) ∧
        ∀ h2 : Heap, (s.GetProfileByIDs B ids opts true).2.heap.MutationOfAll h2 r →
          (∀ b, s.heap.valid b → h2.content b = s.heap.content b) ∧
          ∃ r2, (UserCacheDecorator.GetProfileByIDs B
              { (s.GetProfileByIDs B ids opts true).2 with heap := h2 } ids opts true).1 =
              .ok r2 ∧
            r2.map (UserCacheDecorator.GetProfileByIDs B
              { (s.GetProfileByIDs B ids opts true).2 with heap := h2 } ids opts
              true).2.heap.content = stored.map s.heap.content ∧
            (∀ a ∈ r2, a ∉ r ∧ ∀ b, s.heap.valid b →
              (UserCacheDecorator.GetProfileByIDs B
                { (s.GetProfileByIDs B ids opts true).2 with heap := h2 } ids opts
                true).2.heap.Separate a b) ∧
            (UserCacheDecorator.GetProfileByIDs B
              { (s.GetProfileByIDs B ids opts true).2 with heap := h2 } ids opts
              true).2.calls = s.calls) ∧
    (∀ (h : Heap) (a : Nat) (k v : String), h.valid a →
      h.MutationOf (h.setNotifyProp a k v) a ∧
      (∀ as : List Nat, a ∈ as → h.MutationOfAll (h.setNotifyProp a k v) as) ∧
      ((h.setNotifyProp a k v).content a).NotifyProps =
        mapAssign (h.content a).NotifyProps k v) := by
  refine ⟨?_, ?_, ?_, ?_, ?_, ?_⟩
  · intro K u hmiss hB hv
    rw [Get_miss_ok B s K u hmiss hB]
    have g1 := DeepCopy_grows s.heap u
    have g2 := DeepCopy_grows (DeepCopy s.heap u).2 u
    have g12 := Heap.grows_trans g1 g2
    have hv1 : (DeepCopy s.heap u).2.valid u := Heap.grows_valid g1 hv
    have hv2 : (DeepCopy (DeepCopy s.heap u).2 u).2.valid u := Heap.grows_valid g2 hv1
    have hst1 : (DeepCopy s.heap u).2.valid (DeepCopy s.heap u).1 := DeepCopy_valid _ _
    have fr : s.heap.Fresh (DeepCopy (DeepCopy s.heap u).2 u).2
        (DeepCopy (DeepCopy s.heap u).2 u).1 :=
      Heap.Fresh.mono g1 (DeepCopy_fresh _ _) (DeepCopy_valid _ _) (Heap.grows_refl _)
    have sep1 := Heap.Fresh.separate g12 fr hv
    have sepst : (DeepCopy (DeepCopy s.heap u).2 u).2.Separate (DeepCopy s.heap u).1
        (DeepCopy (DeepCopy s.heap u).2 u).1 :=
      (Heap.Fresh.separate g2 (DeepCopy_fresh _ _) hst1).symm
    refine ⟨_, rfl, DeepCopy_valid _ _, ?_, sep1, ?_⟩
    · show (DeepCopy (DeepCopy s.heap u).2 u).2.content (DeepCopy (DeepCopy s.heap u).2 u).1 = _
      rw [DeepCopy_content, Heap.grows_content g1 hv]
    · intro h2 mu
      have mu2 : (DeepCopy (DeepCopy s.heap u).2 u).2.MutationOf h2
          (DeepCopy (DeepCopy s.heap u).2 u).1 := mu
      have cu : h2.content u = s.heap.content u := by
        rw [Heap.MutationOf.content mu2 sep1.symm, Heap.grows_content g12 hv]
      have vu : h2.valid u := Heap.MutationOf.valid mu2 sep1.symm.1 hv2
      refine ⟨cu, ?_⟩
      rw [Get_hit B _ K (DeepCopy s.heap u).1 (Cache.Get_Set_self _ _ _)]
      have g3 := DeepCopy_grows h2 (DeepCopy s.heap u).1
      refine ⟨_, rfl, ?_, ?_, ?_, rfl⟩
      · show (DeepCopy h2 (DeepCopy s.heap u).1).2.content (DeepCopy h2 (DeepCopy s.heap u).1).1 = _
        rw [DeepCopy_content, Heap.MutationOf.content mu2 sepst,
          Heap.grows_content g2 hst1, DeepCopy_content]
      · exact Heap.Fresh.separate g3 (DeepCopy_fresh _ _) vu
      · show (DeepCopy h2 (DeepCopy s.heap u).1).1 ≠ (DeepCopy (DeepCopy s.heap u).2 u).1
        rw [DeepCopy_fst, DeepCopy_fst, mu2.1]
        simp [DeepCopy]
  · intro K stored hhit hv
    rw [Get_hit B s K stored hhit]
    have g1 := DeepCopy_grows s.heap stored
    have fr := DeepCopy_fresh s.heap stored
    refine ⟨_, rfl, DeepCopy_valid _ _, DeepCopy_content _ _,
      fun b hb => Heap.Fresh.separate g1 fr hb, ?_⟩
    intro h2 mu
    have mu2 : (DeepCopy s.heap stored).2.MutationOf h2 (DeepCopy s.heap stored).1 := mu
    have keep : ∀ b, s.heap.valid b → h2.content b = s.heap.content b := fun b hb => by
      rw [Heap.MutationOf.content mu2 (Heap.Fresh.separate g1 fr hb).symm,
        Heap.grows_content g1 hb]
    refine ⟨keep, ?_⟩
    have hhit2 : (UserCacheDecorator.byID
        { ({ s with heap := (DeepCopy s.heap stored).2 } : UserCacheDecorator) with heap := h2 }).Get K
        = some stored := hhit
    rw [Get_hit B _ K stored hhit2]
    refine ⟨_, rfl, ?_⟩
    show (DeepCopy h2 stored).2.content (DeepCopy h2 stored).1 = _
    rw [DeepCopy_content, keep stored hv]
  · intro ids opts us hmiss hB hv
    rw [GetProfileByIDs_miss_ok B s ids opts us hmiss hB]
    obtain ⟨g1, _, _, _⟩ := DeepCopyList_spec us s.heap hv
    have hv1 : ∀ a ∈ us, (DeepCopyList s.heap us).2.valid a :=
      fun a ha => Heap.grows_valid g1 (hv a ha)
    obtain ⟨g2, hc2, _, _⟩ := DeepCopyList_spec us (DeepCopyList s.heap us).2 hv1
    refine ⟨_, rfl, ?_, ?_⟩
    · show List.map (DeepCopyList (DeepCopyList s.heap us).2 us).2.content
        (DeepCopyList (DeepCopyList s.heap us).2 us).1 = _
      rw [hc2]
      exact List.map_congr_left (fun a ha => Heap.grows_content g1 (hv a ha))
    · intro a ha b hb
      obtain ⟨f, v⟩ := DeepCopyList_fresh us (DeepCopyList s.heap us).2 a ha
      exact Heap.Fresh.separate (Heap.grows_trans g1 g2)
        (Heap.Fresh.mono g1 f v (Heap.grows_refl _)) hb
  · intro ids opts us hmiss hB hv
    rw [GetProfileByIDs_miss_ok B s ids opts us hmiss hB]
    obtain ⟨g1, hc1, hf1, _⟩ := DeepCopyList_spec us s.heap hv
    have hfr := DeepCopyList_fresh us (DeepCopyList s.heap us).2
    have g2 := DeepCopyList_grows (DeepCopyList s.heap us).2 us
    refine ⟨_, rfl, ?_⟩
    intro h2 mu
    obtain ⟨k1, r2, e1, e2, e3, e4⟩ := GetProfileByIDs_second_read B
      { s with calls := s.calls ++ [Call.GetProfileByIDs ids opts]
               heap := (DeepCopyList (DeepCopyList s.heap us).2 us).2
               byBatch := s.byBatch.Set (batchKey ids) (DeepCopyList s.heap us).1 }
      (DeepCopyList s.heap us).2 (DeepCopyList (DeepCopyList s.heap us).2 us).1
      (DeepCopyList s.heap us).1 ids opts g2 hfr (Cache.Get_Set_self _ _ _)
      (fun a ha => (hf1 a ha).1) h2 mu
    have hold : ∀ b, s.heap.valid b → (DeepCopyList s.heap us).2.valid b :=
      fun b hb => Heap.grows_valid g1 hb
    refine ⟨fun b hb => ?_, r2, e1, ?_, fun a ha => ⟨(e3 a ha).1, fun b hb => ?_⟩, e4⟩
    · rw [k1 b (hold b hb), Heap.grows_content g1 hb]
    · rw [e2, hc1]
    · exact (e3 a ha).2 b (hold b hb)
  · intro ids opts stored hhit hv
    obtain ⟨r, e1, ec, g, hc, hf⟩ := GetProfileByIDs_hit_isolated B s ids opts stored hhit hv
    refine ⟨r, e1, ec, hc, fun a ha b hb => Heap.Fresh.separate g (hf a ha).1 hb, ?_⟩
    intro h2 mu
    have hhit2 : (s.GetProfileByIDs B ids opts true).2.byBatch.Get (batchKey ids) =
        some stored := by
      rw [GetProfileByIDs_hit B s ids opts stored hhit]; exact hhit
    obtain ⟨k1, r2, f1, f2, f3, f4⟩ := GetProfileByIDs_second_read B
      (s.GetProfileByIDs B ids opts true).2 s.heap r stored ids opts g hf hhit2 hv h2 mu
    exact ⟨k1, r2, f1, f2, f3, f4.trans ec⟩
  · intro h a k v hv
    obtain ⟨v0, v1, v2, v3⟩ := hv
    have hmu : h.MutationOf (h.setNotifyProp a k v) a := by
      refine ⟨rfl, by simp [Heap.setNotifyProp, Heap.writeMap], fun b _ => rfl, ?_⟩
      intro m hm
      have hne : (h.user a).NotifyProps ≠ m := by
        intro e; apply hm; simp [Heap.mapsOf, e]
      simp [Heap.setNotifyProp, Heap.writeMap, Heap.map, List.getD_eq_getElem?_getD,
        List.getElem?_set_ne hne]
    refine ⟨hmu, fun as ha => Heap.MutationOf.toAll hmu ha, ?_⟩
    · show (h.setNotifyProp a k v).map ((h.setNotifyProp a k v).user a).NotifyProps = _
      have eu : (h.setNotifyProp a k v).user a = h.user a := rfl
      rw [eu]
      simp only [Heap.setNotifyProp, Heap.writeMap, Heap.map, List.getD_eq_getElem?_getD,
        List.getElem?_set_self v1, Option.getD_some, Heap.content]

/-- Witness of C3 on the fixtures of the test file.  `TestUserStoreGetCache`:
the object returned by the first read of user "123" has the content of the
mock's record at address 0 and shares no memory with it; after
`NotifyProps["key"] = "othervalue"` on the returned object, the mock's record
still has its content and the second read returns that content.
`TestUserStoreCache`: the first cached read of `["123"]` returns the copy at
address 4; after `NotifyProps["key"] = "othervalue"` on it the mock's record
still has its content, and the second cached read returns a list with that
content whose element is neither the first returned object nor shares memory
with the mock's record.  Reads on a hit, after the first read: the returned
objects have the content of the mock's record and share no memory with the
stored copy at address 3 nor with the mock's record. -/
theorem copy_isolation_witness :
    ((NewLocalCacheLayer fakeHeap).byID.Get "123" = none ∧
     mockStore.Get "123" = .ok 0 ∧ fakeHeap.valid 0 ∧
     ∃ a1, ((NewLocalCacheLayer fakeHeap).Get mockStore "123").1 = .ok a1 ∧
      ((NewLocalCacheLayer fakeHeap).Get mockStore "123").2.heap.content a1 =
        fakeHeap.content 0 ∧
      ((NewLocalCacheLayer fakeHeap).Get mockStore "123").2.heap.Separate a1 0 ∧
      (((NewLocalCacheLayer fakeHeap).Get mockStore "123").2.heap.setNotifyProp a1 "key"
        "othervalue").content 0 = fakeHeap.content 0 ∧
      ∃ a2, (UserCacheDecorator.Get mockStore
          { ((NewLocalCacheLayer fakeHeap).Get mockStore "123").2 with
            heap := ((NewLocalCacheLayer fakeHeap).Get mockStore "123").2.heap.setNotifyProp a1
              "key" "othervalue" } "123").1 = .ok a2 ∧
        (UserCacheDecorator.Get mockStore
          { ((NewLocalCacheLayer fakeHeap).Get mockStore "123").2 with
            heap := ((NewLocalCacheLayer fakeHeap).Get mockStore "123").2.heap.setNotifyProp a1
              "key" "othervalue" } "123").2.heap.content a2 = fakeHeap.content 0) ∧
    ((NewLocalCacheLayer fakeHeap).byBatch.Get (batchKey ["123"]) = none ∧
     mockStore.GetProfileByIDs ["123"] ⟨0⟩ = .ok [0] ∧
     ((NewLocalCacheLayer fakeHeap).GetProfileByIDs mockStore ["123"] ⟨0⟩ true).1 = .ok [4] ∧
     afterBatchRead.heap.content 4 = fakeHeap.content 0 ∧
     afterBatchRead.heap.Separate 4 0 ∧
     (afterBatchRead.heap.setNotifyProp 4 "key" "othervalue").content 0 = fakeHeap.content 0 ∧
     ∃ r2, (UserCacheDecorator.GetProfileByIDs mockStore
          { afterBatchRead with heap := afterBatchRead.heap.setNotifyProp 4 "key" "othervalue" }
          ["123"] ⟨0⟩ true).1 = .ok r2 ∧
        r2.map (UserCacheDecorator.GetProfileByIDs mockStore
          { afterBatchRead with heap := afterBatchRead.heap.setNotifyProp 4 "key" "othervalue" }
          ["123"] ⟨0⟩ true).2.heap.content = [fakeHeap.content 0] ∧
        (∀ a ∈ r2, a ≠ 4 ∧ (UserCacheDecorator.GetProfileByIDs mockStore
          { afterBatchRead with heap := afterBatchRead.heap.setNotifyProp 4 "key" "othervalue" }
          ["123"] ⟨0⟩ true).2.heap.Separate a 0) ∧
        (UserCacheDecorator.GetProfileByIDs mockStore
          { afterBatchRead with heap := afterBatchRead.heap.setNotifyProp 4 "key" "othervalue" }
          ["123"] ⟨0⟩ true).2.calls = [Call.GetProfileByIDs ["123"] ⟨0⟩]) ∧
    (afterGet.byID.Get "123" = some 3 ∧ afterGet.heap.valid 3 ∧
     ∃ a, (afterGet.Get mockStore "123").1 = .ok a ∧
      (afterGet.Get mockStore "123").2.heap.content a = fakeHeap.content 0 ∧
      (afterGet.Get mockStore "123").2.heap.Separate a 3 ∧
      (afterGet.Get mockStore "123").2.heap.Separate a 0) ∧
    (afterBatchRead.byBatch.Get (batchKey ["123"]) = some [3] ∧
     (∀ a ∈ [3], afterBatchRead.heap.valid a) ∧
     ∃ r, (afterBatchRead.GetProfileByIDs mockStore ["123"] ⟨0⟩ true).1 = .ok r ∧
      r.map (afterBatchRead.GetProfileByIDs mockStore ["123"] ⟨0⟩ true).2.heap.content =
        [fakeHeap.content 0] ∧
      ∀ a ∈ r, (afterBatchRead.GetProfileByIDs mockStore ["123"] ⟨0⟩ true).2.heap.Separate a 3 ∧
        (afterBatchRead.GetProfileByIDs mockStore ["123"] ⟨0⟩ true).2.heap.Separate a 0) := by
  have h1 : (NewLocalCacheLayer fakeHeap).byID.Get "123" = none := rfl
  have h2 : mockStore.Get "123" = .ok 0 := rfl
  have h3 : fakeHeap.valid 0 := by decide
  obtain ⟨hc1, _, hc3, hc5, _, hmut⟩ := copy_isolation mockStore (NewLocalCacheLayer fakeHeap)
  obtain ⟨a1, e1, ev, e2, e3, e4⟩ := hc1 "123" 0 h1 h2 h3
  obtain ⟨e5, a2, e6, e7, _⟩ := e4 _ (hmut _ a1 "key" "othervalue" ev).1
  refine ⟨⟨h1, h2, h3, a1, e1, e2, e3, e5, a2, e6, e7⟩, ?_, ?_, ?_⟩
  · have b1 : (NewLocalCacheLayer fakeHeap).byBatch.Get (batchKey ["123"]) = none := rfl
    have b2 : mockStore.GetProfileByIDs ["123"] ⟨0⟩ = .ok [0] := rfl
    have b3 : ∀ a ∈ [0], (NewLocalCacheLayer fakeHeap).heap.valid a := by
      intro a ha
      rw [List.mem_singleton] at ha
      subst ha
      exact h3
    have b4 : ((NewLocalCacheLayer fakeHeap).GetProfileByIDs mockStore ["123"] ⟨0⟩ true).1 =
        .ok [4] := rfl
    obtain ⟨r, f1, f2, f3⟩ := hc3 ["123"] ⟨0⟩ [0] b1 b2 b3
    obtain ⟨r1, g1, g2⟩ := hc5 ["123"] ⟨0⟩ [0] b1 b2 b3
    have er : r = [4] := Except.ok.inj (f1.symm.trans b4)
    have er1 : r1 = [4] := Except.ok.inj (g1.symm.trans b4)
    subst er er1
    have hv4 : afterBatchRead.heap.valid 4 := by decide
    obtain ⟨k1, r2, g3, g4, g5, g6⟩ := g2 _
      ((hmut afterBatchRead.heap 4 "key" "othervalue" hv4).2.1 [4] (List.mem_singleton_self 4))
    refine ⟨b1, b2, b4, ?_, f3 4 (List.mem_singleton_self 4) 0 h3, k1 0 h3, r2, g3, g4, ?_, g6⟩
    · have := f2
      simpa using this
    · intro a ha
      exact ⟨fun e => (g5 a ha).1 (by rw [e]; exact List.mem_singleton_self 4),
        (g5 a ha).2 0 h3⟩
  · have b1 : afterGet.byID.Get "123" = some 3 := rfl
    have b2 : afterGet.heap.valid 3 := by decide
    have b0 : afterGet.heap.valid 0 := by decide
    obtain ⟨a, f1, _, f3, f4, _⟩ := (copy_isolation mockStore afterGet).2.1 "123" 3 b1 b2
    exact ⟨b1, b2, a, f1, f3.trans (by decide), f4 3 b2, f4 0 b0⟩
  · have b1 : afterBatchRead.byBatch.Get (batchKey ["123"]) = some [3] := rfl
    have b2 : ∀ a ∈ [3], afterBatchRead.heap.valid a := by decide
    have b0 : afterBatchRead.heap.valid 0 := by decide
    obtain ⟨r, f1, _, f3, f4, _⟩ :=
      (copy_isolation mockStore afterBatchRead).2.2.2.2.1 ["123"] ⟨0⟩ [3] b1 b2
    refine ⟨b1, b2, r, f1, f3.trans (by decide), fun a ha => ⟨f4 a ha 3 (b2 3 ?_), f4 a ha 0 b0⟩⟩
    exact List.mem_singleton_self 3

/-! ## C4: batch partitioning -/

theorem populateByID_grows (as : List Nat) : ∀ (h : Heap) (c : Cache String Nat),
    h.Grows (populateByID h c as).1 := by
  induction as with
  | nil => intro h c; exact Heap.grows_refl h
  | cons a as ih =>
    intro h c
    exact Heap.grows_trans (DeepCopy_grows h a) (ih _ _)

theorem GetMany_all_cached (B : UserStore) (s : UserCacheDecorator) (ids : List String)
    (h : ids.filter (fun id => (s.byID.Get id).isNone) = []) :
    s.GetMany B ids =
      (.ok (DeepCopyList s.heap (ids.filterMap (fun id => s.byID.Get id))).1,
       { s with heap := (DeepCopyList s.heap (ids.filterMap (fun id => s.byID.Get id))).2 }) := by
  simp only [UserCacheDecorator.GetMany, h, List.isEmpty_nil, if_true]

theorem GetMany_fetch_ok (B : UserStore) (s : UserCacheDecorator) (ids : List String)
    (fetched : List Nat)
    (h : ids.filter (fun id => (s.byID.Get id).isNone) ≠ [])
    (hB : B.GetMany (ids.filter (fun id => (s.byID.Get id).isNone)) = .ok fetched) :
    s.GetMany B ids =
      (.ok ((DeepCopyList s.heap (ids.filterMap (fun id => s.byID.Get id))).1 ++
          (DeepCopyList (populateByID
            (DeepCopyList s.heap (ids.filterMap (fun id => s.byID.Get id))).2 s.byID fetched).1
            fetched).1),
       { s with
         calls := s.calls ++ [Call.GetMany (ids.filter (fun id => (s.byID.Get id).isNone))]
         heap := (DeepCopyList (populateByID
            (DeepCopyList s.heap (ids.filterMap (fun id => s.byID.Get id))).2 s.byID fetched).1
            fetched).2
         byID := (populateByID
            (DeepCopyList s.heap (ids.filterMap (fun id => s.byID.Get id))).2 s.byID
            fetched).2 }) := by
  have h2 : (ids.filter (fun id => (s.byID.Get id).isNone)).isEmpty = false := by
    cases hl : ids.filter (fun id => (s.byID.Get id).isNone) with
    | nil => exact absurd hl h
    | cons _ _ => rfl
  simp only [UserCacheDecorator.GetMany, h2, hB]
  rfl

theorem GetMany_fetch_calls (B : UserStore) (s : UserCacheDecorator) (ids : List String)
    (h : ids.filter (fun id => (s.byID.Get id).isNone) ≠ []) :
    (s.GetMany B ids).2.calls =
      s.calls ++ [Call.GetMany (ids.filter (fun id => (s.byID.Get id).isNone))] := by
  have h2 : (ids.filter (fun id => (s.byID.Get id).isNone)).isEmpty = false := by
    cases hl : ids.filter (fun id => (s.byID.Get id).isNone) with
    | nil => exact absurd hl h
    | cons _ _ => rfl
  cases hB : B.GetMany (ids.filter (fun id => (s.byID.Get id).isNone)) with
  | error e => simp only [UserCacheDecorator.GetMany, h2, hB]; rfl
  | ok fetched => rw [GetMany_fetch_ok B s ids fetched h hB]

theorem map_filterMap_of_key {α β : Type} (f : α → Option β) (g : β → α) (l : List α)
    (hfg : ∀ a b, f a = some b → g b = a) :
    (l.filterMap f).map g = l.filter (fun a => (f a).isSome) := by
  induction l with
  | nil => rfl
  | cons a l ih =>
    cases hfa : f a with
    | none => simp [List.filterMap_cons, hfa, ih]
    | some b => simp [List.filterMap_cons, hfa, ih, hfg a b hfa]

/-- Contents of the GetMany result: the cached records of the requested ids
followed by the records the backing store returned for the absent ids. -/
theorem GetMany_result (B : UserStore) (s : UserCacheDecorator) (ids : List String)
    (fetched : List Nat)
    (hwf : ∀ id st, s.byID.Get id = some st → s.heap.valid st)
    (hB : B.GetMany (ids.filter (fun id => (s.byID.Get id).isNone)) = .ok fetched)
    (hv : ∀ a ∈ fetched, s.heap.valid a)
    (hnone : ids.filter (fun id => (s.byID.Get id).isNone) = [] → fetched = []) :
    ∃ r, (s.GetMany B ids).1 = .ok r ∧
      r.map (s.GetMany B ids).2.heap.content =
        (ids.filterMap (fun id => s.byID.Get id)).map s.heap.content ++
          fetched.map s.heap.content := by
  have hpv : ∀ a ∈ ids.filterMap (fun id => s.byID.Get id), s.heap.valid a := by
    intro a ha
    obtain ⟨id, _, hid⟩ := List.mem_filterMap.1 ha
    exact hwf id a hid
  obtain ⟨g1, hc1, hf1, _⟩ := DeepCopyList_spec _ s.heap hpv
  by_cases habs : ids.filter (fun id => (s.byID.Get id).isNone) = []
  · rw [GetMany_all_cached B s ids habs, hnone habs]
    exact ⟨_, rfl, by simpa using hc1⟩
  · rw [GetMany_fetch_ok B s ids fetched habs hB]
    have g2 := populateByID_grows fetched
      (DeepCopyList s.heap (ids.filterMap (fun id => s.byID.Get id))).2 s.byID
    have g12 := Heap.grows_trans g1 g2
    have hv2 : ∀ a ∈ fetched, (populateByID
        (DeepCopyList s.heap (ids.filterMap (fun id => s.byID.Get id))).2 s.byID
        fetched).1.valid a := fun a ha => Heap.grows_valid g12 (hv a ha)
    obtain ⟨g3, hc3, _, _⟩ := DeepCopyList_spec fetched _ hv2
    refine ⟨_, rfl, ?_⟩
    show List.map (DeepCopyList _ fetched).2.content (_ ++ _) = _
    rw [List.map_append, hc3]
    congr 1
    · rw [← hc1]
      exact List.map_congr_left
        (fun a ha => Heap.grows_content (Heap.grows_trans g2 g3) (hf1 a ha).1)
    · exact List.map_congr_left (fun a ha => Heap.grows_content g12 (hv a ha))

/-- C4 (batch partitioning).  For every id list passed to `GetMany`: (1) when
some requested id is absent from the by-id cache, exactly one backing-store
batch call is recorded and its argument is exactly the list of requested ids
that are absent from the cache; when every requested id is cached the backing
store is not called at all and one record per requested id is returned, which
carries that id when the cache holds valid records under their own ids;
(2) when the cache holds valid records under their own ids and the batch call
is answered with the records `fetched`, the ids of the result are the
requested ids that are cached followed by the ids of `fetched`; so a
requested id has a record in the result exactly when it exists, that is when
it is cached or `fetched` holds a record of it; and when no id is requested
twice and the backing store answers with at most one record per id and only
with requested absent ids, the result holds exactly one record per requested
id that exists: its id list has no duplicate and is a permutation of those
requested ids; (3) on the fixtures of `TestUserStoreGetManyCache`, after
`GetMany(["123","456"])` and `InvalidateProfileCacheForUser("123")` the next
`GetMany(["123","456"])` calls the backing store with exactly `["123"]` and
returns two records. -/
theorem batch_partitioning (B : UserStore) (s : UserCacheDecorator) (ids : List String) :
    ((ids.filter (fun id => (s.byID.Get id).isNone) ≠ [] →
        (s.GetMany B ids).2.calls =
          s.calls ++ [Call.GetMany (ids.filter (fun id => (s.byID.Get id).isNone))]) ∧
     ((∀ id ∈ ids, (s.byID.Get id).isSome = true) →
        (s.GetMany B ids).2.calls = s.calls ∧
        ∃ r, (s.GetMany B ids).1 = .ok r ∧ r.length = ids.length ∧
          ((∀ id st, s.byID.Get id = some st →
              s.heap.valid st ∧ (s.heap.content st).ID = id) →
            r.map (fun a => ((s.GetMany B ids).2.heap.content a).ID) = ids))) ∧
    (∀ (fetched : List Nat),
      (∀ id st, s.byID.Get id = some st → s.heap.valid st ∧ (s.heap.content st).ID = id) →
      ids.filter (fun id => (s.byID.Get id).isNone) ≠ [] →
      B.GetMany (ids.filter (fun id => (s.byID.Get id).isNone)) = .ok fetched →
      (∀ a ∈ fetched, s.heap.valid a) →
      ∃ r, (s.GetMany B ids).1 = .ok r ∧
        r.map (fun a => ((s.GetMany B ids).2.heap.content a).ID) =
          ids.filter (fun id => (s.byID.Get id).isSome) ++
            fetched.map (fun a => (s.heap.content a).ID) ∧
        (∀ id ∈ ids, id ∈ r.map (fun a => ((s.GetMany B ids).2.heap.content a).ID) ↔
          ((s.byID.Get id).isSome = true ∨
            id ∈ fetched.map (fun a => (s.heap.content a).ID))) ∧
        (ids.Nodup → (fetched.map (fun a => (s.heap.content a).ID)).Nodup →
          (∀ id ∈ fetched.map (fun a => (s.heap.content a).ID),
            id ∈ ids.filter (fun id => (s.byID.Get id).isNone)) →
          (r.map (fun a => ((s.GetMany B ids).2.heap.content a).ID)).Nodup ∧
          (r.map (fun a => ((s.GetMany B ids).2.heap.content a).ID)).Perm
            (ids.filter (fun id => (s.byID.Get id).isSome ||
              decide (id ∈ fetched.map (fun a => (s.heap.content a).ID)))))) ∧
    ((((((NewLocalCacheLayer fakeHeap).GetMany mockStore ["123", "456"]).2
        ).InvalidateProfileCacheForUser "123").GetMany mockStore ["123", "456"]).2.calls =
        [Call.GetMany ["123", "456"], Call.GetMany ["123"]] ∧
     (((((NewLocalCacheLayer fakeHeap).GetMany mockStore ["123", "456"]).2
        ).InvalidateProfileCacheForUser "123").GetMany mockStore ["123", "456"]).1.toOption.map
        List.length = some 2) := by
  refine ⟨⟨fun h => GetMany_fetch_calls B s ids h, ?_⟩, ?_, by decide, by decide⟩
  · intro hall
    have habs : ids.filter (fun id => (s.byID.Get id).isNone) = [] := by
      rw [List.filter_eq_nil_iff]
      intro id hid
      have := hall id hid
      cases hg : s.byID.Get id with
      | none => rw [hg] at this; simp at this
      | some st => simp
    have hsome : ids.filter (fun id => (s.byID.Get id).isSome) = ids := by
      rw [List.filter_eq_self]
      exact hall
    have hlen : ∀ (as : List Nat) (h : Heap), (DeepCopyList h as).1.length = as.length := by
      intro as
      induction as with
      | nil => intro h; rfl
      | cons a as ih => intro h; simp [DeepCopyList, ih]
    have hcount : (ids.filterMap (fun id => s.byID.Get id)).length = ids.length := by
      clear habs hsome
      induction ids with
      | nil => rfl
      | cons id ids ih =>
        have h1 := hall id (List.mem_cons_self _ _)
        cases hg : s.byID.Get id with
        | none => rw [hg] at h1; simp at h1
        | some st =>
          simp only [List.filterMap_cons, hg, List.length_cons]
          rw [ih (fun i hi => hall i (List.mem_cons_of_mem _ hi))]
    refine ⟨by rw [GetMany_all_cached B s ids habs], ?_⟩
    refine ⟨(DeepCopyList s.heap (ids.filterMap (fun id => s.byID.Get id))).1,
      by rw [GetMany_all_cached B s ids habs], by rw [hlen, hcount], ?_⟩
    intro hcoh
    have hpv : ∀ a ∈ ids.filterMap (fun id => s.byID.Get id), s.heap.valid a := by
      intro a ha
      obtain ⟨id, _, hid⟩ := List.mem_filterMap.1 ha
      exact (hcoh id a hid).1
    obtain ⟨_, hc1, _, _⟩ := DeepCopyList_spec _ s.heap hpv
    rw [GetMany_all_cached B s ids habs]
    have e1 : (DeepCopyList s.heap (ids.filterMap (fun id => s.byID.Get id))).1.map
        (fun a => ((DeepCopyList s.heap (ids.filterMap (fun id => s.byID.Get id))).2.content
          a).ID) =
        ((DeepCopyList s.heap (ids.filterMap (fun id => s.byID.Get id))).1.map
          (DeepCopyList s.heap (ids.filterMap (fun id => s.byID.Get id))).2.content).map
          User.ID := by
      rw [List.map_map]; rfl
    have e2 : ((ids.filterMap (fun id => s.byID.Get id)).map s.heap.content).map User.ID =
        ids.filter (fun id => (s.byID.Get id).isSome) := by
      rw [List.map_map]
      exact map_filterMap_of_key _ _ ids (fun id st h => (hcoh id st h).2)
    show (DeepCopyList s.heap (ids.filterMap (fun id => s.byID.Get id))).1.map
        (fun a => ((DeepCopyList s.heap (ids.filterMap (fun id => s.byID.Get id))).2.content
          a).ID) = ids
    rw [e1, hc1, e2, hsome]
  · intro fetched hcoh habs hB hv
    obtain ⟨r, hr, hc⟩ := GetMany_result B s ids fetched (fun id st h => (hcoh id st h).1) hB hv
      (fun h0 => absurd h0 habs)
    have e1 : r.map (fun a => ((s.GetMany B ids).2.heap.content a).ID) =
        (r.map (s.GetMany B ids).2.heap.content).map User.ID := by
      rw [List.map_map]; rfl
    have e2 : ((ids.filterMap (fun id => s.byID.Get id)).map s.heap.content).map User.ID =
        ids.filter (fun id => (s.byID.Get id).isSome) := by
      rw [List.map_map]
      exact map_filterMap_of_key _ _ ids (fun id st h => (hcoh id st h).2)
    have e3 : (fetched.map s.heap.content).map User.ID =
        fetched.map (fun a => (s.heap.content a).ID) := by
      rw [List.map_map]; rfl
    have heq : r.map (fun a => ((s.GetMany B ids).2.heap.content a).ID) =
        ids.filter (fun id => (s.byID.Get id).isSome) ++
          fetched.map (fun a => (s.heap.content a).ID) := by
      rw [e1, hc, List.map_append, e2, e3]
    refine ⟨r, hr, heq, ?_, ?_⟩
    · intro id hid
      rw [heq, List.mem_append, List.mem_filter]
      constructor
      · rintro (⟨_, h⟩ | h)
        · exact Or.inl h
        · exact Or.inr h
      · rintro (h | h)
        · exact Or.inl ⟨hid, h⟩
        · exact Or.inr h
    · intro hnd hfn hsub
      have hd1 : (ids.filter (fun id => (s.byID.Get id).isSome) ++
          fetched.map (fun a => (s.heap.content a).ID)).Nodup := by
        rw [List.nodup_append]
        refine ⟨hnd.filter _, hfn, ?_⟩
        intro id h1 h2
        have h3 := (List.mem_filter.1 (hsub id h2)).2
        have h4 := (List.mem_filter.1 h1).2
        cases hg : s.byID.Get id with
        | none => rw [hg] at h4; simp at h4
        | some st => rw [hg] at h3; simp at h3
      rw [heq]
      refine ⟨hd1, (List.perm_ext_iff_of_nodup hd1 (hnd.filter _)).2 ?_⟩
      intro id
      rw [List.mem_append, List.mem_filter, List.mem_filter, Bool.or_eq_true, decide_eq_true_eq]
      constructor
      · rintro (⟨h1, h2⟩ | h)
        · exact ⟨h1, Or.inl h2⟩
        · exact ⟨(List.mem_filter.1 (hsub id h)).1, Or.inr h⟩
      · rintro ⟨h1, h2 | h2⟩
        · exact Or.inl ⟨h1, h2⟩
        · exact Or.inr h2

/-- Witness of C4 on the fixtures of `TestUserStoreGetManyCache`.  On a fresh
decorator both requested ids are absent and the batch call receives both;
after that read both are cached and a second read records no further call;
after `InvalidateProfileCacheForUser("123")` the batch call receives `["123"]`
and the result holds the cached "456" and the fetched "123", one record per
requested id; on a fresh decorator asked for `["456","123"]` the mock answers
in its own order and the result holds one record per requested id; asked for
`["123","123"]` the mock answers with its one record of "123". -/
theorem batch_partitioning_witness :
    ((["123", "456"].filter (fun id => ((NewLocalCacheLayer fakeHeap).byID.Get id).isNone) ≠ []) ∧
     ((NewLocalCacheLayer fakeHeap).GetMany mockStore ["123", "456"]).2.calls =
      [Call.GetMany ["123", "456"]]) ∧
    ((∀ id ∈ ["123", "456"], (afterGetMany.byID.Get id).isSome = true) ∧
     (afterGetMany.GetMany mockStore ["123", "456"]).2.calls = [Call.GetMany ["123", "456"]] ∧
     ∃ r, (afterGetMany.GetMany mockStore ["123", "456"]).1 = .ok r ∧
      r.map (fun a => ((afterGetMany.GetMany mockStore ["123", "456"]).2.heap.content a).ID) =
        ["123", "456"]) ∧
    (["123", "456"].filter (fun id => (afterInvalidate.byID.Get id).isNone) = ["123"] ∧
     mockStore.GetMany ["123"] = .ok [0] ∧
     ∃ r, (afterInvalidate.GetMany mockStore ["123", "456"]).1 = .ok r ∧
      r.map (fun a => ((afterInvalidate.GetMany mockStore ["123", "456"]).2.heap.content a).ID) =
        ["456", "123"] ∧
      (r.map (fun a =>
        ((afterInvalidate.GetMany mockStore ["123", "456"]).2.heap.content a).ID)).Perm
        ["123", "456"]) ∧
    (mockStore.GetMany ["456", "123"] = .ok [0, 1] ∧
     ∃ r, ((NewLocalCacheLayer fakeHeap).GetMany mockStore ["456", "123"]).1 = .ok r ∧
      (r.map (fun a => (((NewLocalCacheLayer fakeHeap).GetMany mockStore
        ["456", "123"]).2.heap.content a).ID)).Nodup ∧
      (r.map (fun a => (((NewLocalCacheLayer fakeHeap).GetMany mockStore
        ["456", "123"]).2.heap.content a).ID)).Perm ["456", "123"]) ∧
    (mockStore.GetMany ["123", "123"] = .ok [0] ∧
     ∃ r, ((NewLocalCacheLayer fakeHeap).GetMany mockStore ["123", "123"]).1 = .ok r ∧
      r.map (fun a => (((NewLocalCacheLayer fakeHeap).GetMany mockStore
        ["123", "123"]).2.heap.content a).ID) = ["123"]) := by
  have hnew : ∀ id st, (NewLocalCacheLayer fakeHeap).byID.Get id = some st →
      (NewLocalCacheLayer fakeHeap).heap.valid st ∧
        ((NewLocalCacheLayer fakeHeap).heap.content st).ID = id := by
    intro id st h
    have h0 : (NewLocalCacheLayer fakeHeap).byID.Get id = none := rfl
    rw [h0] at h
    cases h
  have hmany : ∀ id st, afterGetMany.byID.Get id = some st →
      afterGetMany.heap.valid st ∧ (afterGetMany.heap.content st).ID = id := by
    intro id st h
    have hm := Cache.mem_of_Get _ h
    have he : afterGetMany.byID.entries = [("456", 4), ("123", 3)] := by decide
    rw [he] at hm
    simp only [List.mem_cons, Prod.mk.injEq, List.mem_singleton, List.not_mem_nil,
      or_false] at hm
    rcases hm with ⟨rfl, rfl⟩ | ⟨rfl, rfl⟩
    · exact ⟨by decide, by decide⟩
    · exact ⟨by decide, by decide⟩
  have hinv : ∀ id st, afterInvalidate.byID.Get id = some st →
      afterInvalidate.heap.valid st ∧ (afterInvalidate.heap.content st).ID = id := by
    intro id st h
    have hm := Cache.mem_of_Get _ h
    have he : afterInvalidate.byID.entries = [("456", 4)] := by decide
    rw [he] at hm
    simp only [List.mem_singleton, Prod.mk.injEq] at hm
    obtain ⟨rfl, rfl⟩ := hm
    exact ⟨by decide, by decide⟩
  refine ⟨⟨by decide,
    (batch_partitioning mockStore (NewLocalCacheLayer fakeHeap) ["123", "456"]).1.1
      (by decide)⟩, ?_, ?_, ?_, ?_⟩
  · have hall : ∀ id ∈ ["123", "456"], (afterGetMany.byID.Get id).isSome = true := by decide
    obtain ⟨hc, r, hr, _, hids⟩ :=
      (batch_partitioning mockStore afterGetMany ["123", "456"]).1.2 hall
    exact ⟨hall, hc, r, hr, hids hmany⟩
  · have habs : ["123", "456"].filter (fun id => (afterInvalidate.byID.Get id).isNone) =
        ["123"] := by decide
    have hB : mockStore.GetMany ["123"] = .ok [0] := rfl
    obtain ⟨r, hr, heq, _, hp⟩ :=
      (batch_partitioning mockStore afterInvalidate ["123", "456"]).2.1 [0] hinv
        (by decide) (by rw [habs]; exact hB) (by decide)
    refine ⟨habs, hB, r, hr, heq.trans (by decide), ?_⟩
    exact ((hp (by decide) (by decide) (by decide)).2).trans (by decide)
  · have hB : mockStore.GetMany ["456", "123"] = .ok [0, 1] := rfl
    obtain ⟨r, hr, _, _, hp⟩ :=
      (batch_partitioning mockStore (NewLocalCacheLayer fakeHeap) ["456", "123"]).2.1 [0, 1]
        hnew (by decide) hB (by decide)
    obtain ⟨p1, p2⟩ := hp (by decide) (by decide) (by decide)
    exact ⟨hB, r, hr, p1, p2.trans (by decide)⟩
  · have hB : mockStore.GetMany ["123", "123"] = .ok [0] := rfl
    obtain ⟨r, hr, heq, _, _⟩ :=
      (batch_partitioning mockStore (NewLocalCacheLayer fakeHeap) ["123", "123"]).2.1 [0]
        hnew (by decide) hB (by decide)
    exact ⟨hB, r, hr, heq.trans (by decide)⟩

/-! ## C5: cache bypass -/

/-- C5 (cache bypass).  For every id list, options and decorator state,
`GetProfileByIDs(ids, opts, false)` calls the backing store: exactly one call
with these arguments is added to the record and the backing store's answer is
returned; in particular this happens immediately after a cached read of the
same ids.  The same holds for `GetAllProfilesInChannel(channelID, false)`. -/
theorem cache_bypass (B : UserStore) (s : UserCacheDecorator) (ids : List String)
    (opts : UserGetByIDsOpts) (channelID : String) :
    ((s.GetProfileByIDs B ids opts false).1 = B.GetProfileByIDs ids opts ∧
     (s.GetProfileByIDs B ids opts false).2.calls =
        s.calls ++ [Call.GetProfileByIDs ids opts] ∧
     ((s.GetProfileByIDs B ids opts true).2.GetProfileByIDs B ids opts false).2.calls =
        (s.GetProfileByIDs B ids opts true).2.calls ++ [Call.GetProfileByIDs ids opts] ∧
     ((s.GetProfileByIDs B ids opts true).2.GetProfileByIDs B ids opts
        false).2.numberOfCalls Call.isGetProfileByIDs =
        (s.GetProfileByIDs B ids opts true).2.numberOfCalls Call.isGetProfileByIDs + 1) ∧
    ((s.GetAllProfilesInChannel B channelID false).1 = B.GetAllProfilesInChannel channelID ∧
     (s.GetAllProfilesInChannel B channelID false).2.calls =
        s.calls ++ [Call.GetAllProfilesInChannel channelID] ∧
     ((s.GetAllProfilesInChannel B channelID true).2.GetAllProfilesInChannel B channelID
        false).2.calls =
        (s.GetAllProfilesInChannel B channelID true).2.calls ++
          [Call.GetAllProfilesInChannel channelID] ∧
     ((s.GetAllProfilesInChannel B channelID true).2.GetAllProfilesInChannel B channelID
        false).2.numberOfCalls Call.isGetAllProfilesInChannel =
        (s.GetAllProfilesInChannel B channelID true).2.numberOfCalls
          Call.isGetAllProfilesInChannel + 1) := by
  refine ⟨⟨?_, ?_, ?_, ?_⟩, ⟨?_, ?_, ?_, ?_⟩⟩
  · rw [GetProfileByIDs_bypass]
  · rw [GetProfileByIDs_bypass]
  · rw [GetProfileByIDs_bypass]
  · rw [GetProfileByIDs_bypass]
    simp [UserCacheDecorator.numberOfCalls, List.countP_append, Call.isGetProfileByIDs]
  · rw [GetAllProfilesInChannel_bypass]
  · rw [GetAllProfilesInChannel_bypass]
  · rw [GetAllProfilesInChannel_bypass]
  · rw [GetAllProfilesInChannel_bypass]
    simp [UserCacheDecorator.numberOfCalls, List.countP_append, Call.isGetAllProfilesInChannel]

/-! ## C6: channel fan-out invalidation -/

theorem GetAllProfilesInChannel_miss_calls (B : UserStore) (s : UserCacheDecorator)
    (channelID : String) (h : s.inChannel.Get channelID = none) :
    (s.GetAllProfilesInChannel B channelID true).2.calls =
      s.calls ++ [Call.GetAllProfilesInChannel channelID] := by
  cases hB : B.GetAllProfilesInChannel channelID with
  | error e => rw [GetAllProfilesInChannel_miss_error B s channelID e h hB]
  | ok us => rw [GetAllProfilesInChannel_miss_ok B s channelID us h hB]

/-- C6 (channel fan-out invalidation).  In a state whose channel cache holds an
entry for channel `C1` whose user map contains user `U` and an entry for
channel `C2` whose user map does not, `InvalidateProfilesInChannelCacheByUser(U)`
evicts the entry of `C1` and leaves the entry of `C2`: the next
`GetAllProfilesInChannel(C1, true)` reaches the backing store (one call is
recorded), the next `GetAllProfilesInChannel(C2, true)` records none. -/
theorem channel_fan_out_invalidation (B : UserStore) (s : UserCacheDecorator)
    (C1 C2 U : String) (m1 m2 : List (String × Nat))
    (h1 : s.inChannel.Get C1 = some m1) (hU1 : U ∈ m1.map Prod.fst)
    (h2 : s.inChannel.Get C2 = some m2) (hU2 : U ∉ m2.map Prod.fst) :
    (s.InvalidateProfilesInChannelCacheByUser U).inChannel.Get C1 = none ∧
    (s.InvalidateProfilesInChannelCacheByUser U).inChannel.Get C2 = some m2 ∧
    ((s.InvalidateProfilesInChannelCacheByUser U).GetAllProfilesInChannel B C1 true).2.calls =
      s.calls ++ [Call.GetAllProfilesInChannel C1] ∧
    ((s.InvalidateProfilesInChannelCacheByUser U).GetAllProfilesInChannel B C2 true).2.calls =
      s.calls := by
  have e1 : (s.InvalidateProfilesInChannelCacheByUser U).inChannel.Get C1 = none := by
    apply Cache.Get_RemoveAll_of_mem
    rw [Cache.mem_Scan]
    exact ⟨m1, h1, by simpa using hU1⟩
  have e2 : (s.InvalidateProfilesInChannelCacheByUser U).inChannel.Get C2 = some m2 := by
    show (s.inChannel.RemoveAll _).Get C2 = some m2
    rw [Cache.Get_RemoveAll_of_not_mem, h2]
    rw [Cache.mem_Scan]
    rintro ⟨v, hv, hp⟩
    rw [h2] at hv
    cases hv
    exact hU2 (by simpa using hp)
  refine ⟨e1, e2, ?_, ?_⟩
  · rw [GetAllProfilesInChannel_miss_calls B _ C1 e1]; rfl
  · rw [GetAllProfilesInChannel_hit B _ C2 m2 e2]; rfl

/-- Witness of C6: channels "123" (members: user "456") and "789" (members:
user "123") are populated by reads on a fresh decorator; invalidating by user
"456" makes the next read of "123" the third backing call and leaves "789"
cached. -/
theorem channel_fan_out_invalidation_witness :
    (((NewLocalCacheLayer fakeHeap).GetAllProfilesInChannel mockStore "123"
        true).2.GetAllProfilesInChannel mockStore "789" true).2.inChannel.Get "123" =
      some [("456", 3)] ∧
    "456" ∈ [("456", 3)].map Prod.fst ∧
    (((NewLocalCacheLayer fakeHeap).GetAllProfilesInChannel mockStore "123"
        true).2.GetAllProfilesInChannel mockStore "789" true).2.inChannel.Get "789" =
      some [("123", 5)] ∧
    "456" ∉ [("123", 5)].map Prod.fst ∧
    (((((NewLocalCacheLayer fakeHeap).GetAllProfilesInChannel mockStore "123"
        true).2.GetAllProfilesInChannel mockStore "789"
        true).2.InvalidateProfilesInChannelCacheByUser "456").GetAllProfilesInChannel
        mockStore "123" true).2.calls =
      [Call.GetAllProfilesInChannel "123", Call.GetAllProfilesInChannel "789",
       Call.GetAllProfilesInChannel "123"] ∧
    (((((NewLocalCacheLayer fakeHeap).GetAllProfilesInChannel mockStore "123"
        true).2.GetAllProfilesInChannel mockStore "789"
        true).2.InvalidateProfilesInChannelCacheByUser "456").GetAllProfilesInChannel
        mockStore "789" true).2.calls =
      [Call.GetAllProfilesInChannel "123", Call.GetAllProfilesInChannel "789"] := by
  have h1 : (((NewLocalCacheLayer fakeHeap).GetAllProfilesInChannel mockStore "123"
        true).2.GetAllProfilesInChannel mockStore "789" true).2.inChannel.Get "123" =
      some [("456", 3)] := by decide
  have h2 : (((NewLocalCacheLayer fakeHeap).GetAllProfilesInChannel mockStore "123"
        true).2.GetAllProfilesInChannel mockStore "789" true).2.inChannel.Get "789" =
      some [("123", 5)] := by decide
  have hU1 : "456" ∈ [("456", 3)].map Prod.fst := by decide
  have hU2 : "456" ∉ [("123", 5)].map Prod.fst := by decide
  obtain ⟨_, _, e3, e4⟩ := channel_fan_out_invalidation mockStore _ "123" "789" "456"
    [("456", 3)] [("123", 5)] h1 hU1 h2 hU2
  exact ⟨h1, hU1, h2, hU2, e3, e4⟩

/-! ## C7: invalidation by channel -/

/-- C7.  `InvalidateProfilesInChannelCache(channelID)` evicts exactly the entry
for that channel: afterwards the channel has no entry and the next
`GetAllProfilesInChannel(channelID, true)` reaches the backing store (one call
is recorded), while the cached entry of every other channel, the by-id cache
and the batch cache are as before. -/
theorem invalidate_profiles_in_channel (B : UserStore) (s : UserCacheDecorator)
    (channelID : String) :
    (s.InvalidateProfilesInChannelCache channelID).inChannel.Get channelID = none ∧
    ((s.InvalidateProfilesInChannelCache channelID).GetAllProfilesInChannel B channelID
      true).2.calls = s.calls ++ [Call.GetAllProfilesInChannel channelID] ∧
    (∀ other : String, other ≠ channelID →
      (s.InvalidateProfilesInChannelCache channelID).inChannel.Get other =
        s.inChannel.Get other) ∧
    (s.InvalidateProfilesInChannelCache channelID).byID = s.byID ∧
    (s.InvalidateProfilesInChannelCache channelID).byBatch = s.byBatch := by
  have e1 : (s.InvalidateProfilesInChannelCache channelID).inChannel.Get channelID = none :=
    Cache.Get_Remove_self _ _
  refine ⟨e1, ?_, fun other ho => Cache.Get_Remove_other _ ho, rfl, rfl⟩
  rw [GetAllProfilesInChannel_miss_calls B _ channelID e1]; rfl

/-- Witness of C7: with channels "123" and "789" cached, invalidating "123"
leaves the entry of "789" in place. -/
theorem invalidate_profiles_in_channel_witness :
    "789" ≠ "123" ∧
    ((((NewLocalCacheLayer fakeHeap).GetAllProfilesInChannel mockStore "123"
        true).2.GetAllProfilesInChannel mockStore "789"
        true).2.InvalidateProfilesInChannelCache "123").inChannel.Get "789" =
      some [("123", 5)] :=
  ⟨by decide,
   ((invalidate_profiles_in_channel mockStore
      (((NewLocalCacheLayer fakeHeap).GetAllProfilesInChannel mockStore "123"
        true).2.GetAllProfilesInChannel mockStore "789" true).2 "123").2.2.1 "789"
      (by decide)).trans (by decide)⟩

/-! ## C8: invalidation by user is reflected in GetProfileByIDs -/

theorem mem_batchKey (ids : List String) (u : String) : u ∈ batchKey ids ↔ u ∈ ids :=
  (List.perm_insertionSort _ ids).mem_iff

theorem InvalidateProfileCacheForUser_byBatch (s : UserCacheDecorator) (ids : List String)
    (u : String) (hu : u ∈ ids) :
    (s.InvalidateProfileCacheForUser u).byBatch.Get (batchKey ids) = none := by
  show (s.byBatch.RemoveAll _).Get (batchKey ids) = none
  cases hg : s.byBatch.Get (batchKey ids) with
  | none =>
    by_cases hin : batchKey ids ∈ s.byBatch.Scan (fun key _ => key.contains u)
    · exact Cache.Get_RemoveAll_of_mem _ _ hin
    · rw [Cache.Get_RemoveAll_of_not_mem _ _ hin, hg]
  | some st =>
    apply Cache.Get_RemoveAll_of_mem
    rw [Cache.mem_Scan]
    exact ⟨st, hg, by simpa using (mem_batchKey ids u).2 hu⟩

theorem GetProfileByIDs_miss_calls (B : UserStore) (s : UserCacheDecorator) (ids : List String)
    (opts : UserGetByIDsOpts) (h : s.byBatch.Get (batchKey ids) = none) :
    (s.GetProfileByIDs B ids opts true).2.calls =
      s.calls ++ [Call.GetProfileByIDs ids opts] := by
  cases hB : B.GetProfileByIDs ids opts with
  | error e => rw [GetProfileByIDs_miss_error B s ids opts e h hB]
  | ok us => rw [GetProfileByIDs_miss_ok B s ids opts us h hB]

/-- C8.  `InvalidateProfileCacheForUser` is reflected in `GetProfileByIDs`: for
a user `u` among `ids`, after `InvalidateProfileCacheForUser(u)` the batch
cache has no entry for `ids` in any state, so the next
`GetProfileByIDs(ids, true)` calls the backing store; starting with `ids` not
cached, the sequence `GetProfileByIDs(ids, true)`;
`InvalidateProfileCacheForUser(u)`; `GetProfileByIDs(ids, true)` makes two
backing calls in total. -/
theorem invalidate_user_reflected_in_batch (B : UserStore) (s : UserCacheDecorator)
    (ids : List String) (opts : UserGetByIDsOpts) (u : String) (hu : u ∈ ids) :
    ((s.InvalidateProfileCacheForUser u).byBatch.Get (batchKey ids) = none ∧
     ((s.InvalidateProfileCacheForUser u).GetProfileByIDs B ids opts true).2.calls =
        s.calls ++ [Call.GetProfileByIDs ids opts]) ∧
    (s.byBatch.Get (batchKey ids) = none →
      ((((s.GetProfileByIDs B ids opts true).2.InvalidateProfileCacheForUser u).GetProfileByIDs
          B ids opts true).2.calls =
          s.calls ++ [Call.GetProfileByIDs ids opts, Call.GetProfileByIDs ids opts] ∧
       (((s.GetProfileByIDs B ids opts true).2.InvalidateProfileCacheForUser u).GetProfileByIDs
          B ids opts true).2.numberOfCalls Call.isGetProfileByIDs =
          s.numberOfCalls Call.isGetProfileByIDs + 2)) := by
  have key : ∀ t : UserCacheDecorator,
      ((t.InvalidateProfileCacheForUser u).GetProfileByIDs B ids opts true).2.calls =
        t.calls ++ [Call.GetProfileByIDs ids opts] := by
    intro t
    rw [GetProfileByIDs_miss_calls B _ ids opts (InvalidateProfileCacheForUser_byBatch t ids u hu),
      InvalidateProfileCacheForUser_calls]
  refine ⟨⟨InvalidateProfileCacheForUser_byBatch s ids u hu, key s⟩, fun hmiss => ?_⟩
  have hc : (((s.GetProfileByIDs B ids opts true).2.InvalidateProfileCacheForUser
      u).GetProfileByIDs B ids opts true).2.calls =
      s.calls ++ [Call.GetProfileByIDs ids opts, Call.GetProfileByIDs ids opts] := by
    rw [key, GetProfileByIDs_miss_calls B s ids opts hmiss, List.append_assoc]; rfl
  refine ⟨hc, ?_⟩
  simp [UserCacheDecorator.numberOfCalls, hc, List.countP_append, List.countP_cons,
    Call.isGetProfileByIDs]

/-- Witness of C8 on the fixtures of `TestUserStoreCache`. -/
theorem invalidate_user_reflected_in_batch_witness :
    "123" ∈ ["123"] ∧
    (NewLocalCacheLayer fakeHeap).byBatch.Get (batchKey ["123"]) = none ∧
    ((((NewLocalCacheLayer fakeHeap).GetProfileByIDs mockStore ["123"] ⟨0⟩
        true).2.InvalidateProfileCacheForUser "123").GetProfileByIDs mockStore ["123"] ⟨0⟩
        true).2.numberOfCalls Call.isGetProfileByIDs = 2 :=
  ⟨by decide, rfl,
   ((invalidate_user_reflected_in_batch mockStore (NewLocalCacheLayer fakeHeap) ["123"] ⟨0⟩
      "123" (by decide)).2 rfl).2⟩

/-! ## C9: errors are propagated and never cached -/

/-- C9.  When the backing store's `Get` returns an error for an id that is not
cached, the decorator's `Get` returns that same error, stores no entry (the
three caches and the memory after the call equal those before it), and the
next `Get` for the same id calls the backing store again. -/
theorem errors_propagated_never_cached (B : UserStore) (s : UserCacheDecorator) (K : String)
    (e : StoreError) (hmiss : s.byID.Get K = none) (hB : B.Get K = .error e) :
    (s.Get B K).1 = .error e ∧
    (s.Get B K).2.caches = s.caches ∧
    (s.Get B K).2.heap = s.heap ∧
    (s.Get B K).2.byID.Get K = none ∧
    (s.Get B K).2.calls = s.calls ++ [Call.Get K] ∧
    ((s.Get B K).2.Get B K).1 = .error e ∧
    ((s.Get B K).2.Get B K).2.calls = s.calls ++ [Call.Get K, Call.Get K] := by
  rw [Get_miss_error B s K e hmiss hB]
  have h2 : (UserCacheDecorator.byID { s with calls := s.calls ++ [Call.Get K] }).Get K = none :=
    hmiss
  rw [Get_miss_error B _ K e h2 hB]
  refine ⟨rfl, rfl, rfl, hmiss, rfl, rfl, ?_⟩
  show (s.calls ++ [Call.Get K]) ++ [Call.Get K] = _
  rw [List.append_assoc]; rfl

/-- Witness of C9: the mock store has no user "999". -/
theorem errors_propagated_never_cached_witness :
    (NewLocalCacheLayer fakeHeap).byID.Get "999" = none ∧
    mockStore.Get "999" = .error "not found" ∧
    ((NewLocalCacheLayer fakeHeap).Get mockStore "999").1 = .error "not found" ∧
    ((NewLocalCacheLayer fakeHeap).Get mockStore "999").2.caches =
      (NewLocalCacheLayer fakeHeap).caches :=
  ⟨rfl, rfl,
   (errors_propagated_never_cached mockStore (NewLocalCacheLayer fakeHeap) "999"
      "not found" rfl rfl).1,
   (errors_propagated_never_cached mockStore (NewLocalCacheLayer fakeHeap) "999"
      "not found" rfl rfl).2.1⟩

end LocalCache

namespace SqlStore

/-! ## C10: explicit roles exclude the built-in team roles -/

theorem fieldsChars_isField (rest : List Char) : ∀ (cur : List Char),
    (∀ c ∈ cur, isSpace c = false) → ∀ t ∈ fieldsChars cur rest, IsField t := by
  induction rest with
  | nil =>
    intro cur hcur t ht
    cases cur with
    | nil => simp [fieldsChars] at ht
    | cons c cs =>
      simp only [fieldsChars, List.isEmpty_cons, Bool.false_eq_true, if_false,
        List.mem_singleton] at ht
      subst ht
      exact ⟨by simp, hcur⟩
  | cons c cs ih =>
    intro cur hcur t ht
    by_cases hc : isSpace c = true
    · cases cur with
      | nil =>
        simp only [fieldsChars, hc, if_true, List.isEmpty_nil] at ht
        exact ih [] (by simp) t ht
      | cons d ds =>
        simp only [fieldsChars, hc, if_true, List.isEmpty_cons, Bool.false_eq_true, if_false,
          List.mem_cons] at ht
        rcases ht with rfl | ht
        · exact ⟨by simp, hcur⟩
        · exact ih [] (by simp) t ht
    · simp only [fieldsChars, hc, Bool.false_eq_true, if_false] at ht
      refine ih (cur ++ [c]) ?_ t ht
      intro x hx
      rcases List.mem_append.1 hx with hx | hx
      · exact hcur x hx
      · simp only [List.mem_singleton] at hx
        subst hx
        simpa using hc

theorem Fields_isField (s : String) : ∀ t ∈ Fields s, IsField t :=
  fieldsChars_isField s.data [] (by simp)

theorem fieldsChars_append (t : List Char) : ∀ (cur rest : List Char),
    (∀ c ∈ t, isSpace c = false) → fieldsChars cur (t ++ rest) = fieldsChars (cur ++ t) rest := by
  induction t with
  | nil => intro cur rest _; simp
  | cons c cs ih =>
    intro cur rest h
    have hc : isSpace c = false := h c (List.mem_cons_self _ _)
    have := ih (cur ++ [c]) rest (fun x hx => h x (List.mem_cons_of_mem _ hx))
    have e : fieldsChars cur (c :: (cs ++ rest)) = fieldsChars (cur ++ [c]) (cs ++ rest) := by
      simp only [fieldsChars, hc, Bool.false_eq_true, if_false]
    rw [List.cons_append, e, this, List.append_assoc, List.singleton_append]

theorem Fields_Join (L : List String) (h : ∀ t ∈ L, IsField t) : Fields (Join L " ") = L := by
  induction L with
  | nil => rfl
  | cons a L ih =>
    have ha := h a (List.mem_cons_self _ _)
    have hne : a.data.isEmpty = false := by
      cases hd : a.data with
      | nil => exact absurd hd ha.1
      | cons _ _ => rfl
    cases L with
    | nil =>
      show fieldsChars [] a.data = [a]
      have := fieldsChars_append a.data [] [] ha.2
      rw [List.append_nil, List.nil_append] at this
      rw [this]
      simp only [fieldsChars, hne, Bool.false_eq_true, if_false]
    | cons b rest =>
      have ih2 := ih (fun t ht => h t (List.mem_cons_of_mem _ ht))
      show fieldsChars [] (a ++ " " ++ Join (b :: rest) " ").data = a :: b :: rest
      have hd : (a ++ " " ++ Join (b :: rest) " ").data =
          a.data ++ (' ' :: (Join (b :: rest) " ").data) := by
        rw [String.data_append, String.data_append]
        simp
      rw [hd, fieldsChars_append a.data [] _ ha.2, List.nil_append]
      have hsp : isSpace ' ' = true := by decide
      simp only [fieldsChars, hsp, if_true, hne, Bool.false_eq_true, if_false]
      congr 1

theorem classifyRole_fold (m : Model) (roles : List String) : ∀ (r : rolesInfo),
    (roles.foldl (classifyRole m) r).explicitRoles =
      r.explicitRoles ++ roles.filter (fun role => decide (role ≠ m.TeamGuestRoleID ∧
        role ≠ m.TeamUserRoleID ∧ role ≠ m.TeamAdminRoleID)) := by
  induction roles with
  | nil => intro r; simp
  | cons role roles ih =>
    intro r
    have step : (classifyRole m r role).explicitRoles =
        r.explicitRoles ++ [role].filter (fun role => decide (role ≠ m.TeamGuestRoleID ∧
          role ≠ m.TeamUserRoleID ∧ role ≠ m.TeamAdminRoleID)) := by
      unfold classifyRole
      split_ifs with h1 h2 h3
      · simp [h1]
      · simp [h2]
      · simp [h3]
      · simp [h1, h2, h3]
    rw [List.foldl_cons, ih, step, List.append_assoc, ← List.filter_append]
    rfl

theorem addImpliedRole_fold_explicitRoles (implied : List String) : ∀ (r : rolesInfo),
    (implied.foldl addImpliedRole r).explicitRoles = r.explicitRoles := by
  induction implied with
  | nil => intro r; rfl
  | cons i implied ih =>
    intro r
    rw [List.foldl_cons, ih]
    unfold addImpliedRole
    split <;> rfl

theorem getTeamRoles_explicitRoles (m : Model) (schemeGuest schemeUser schemeAdmin : Bool)
    (defaultTeamGuestRole defaultTeamUserRole defaultTeamAdminRole : String)
    (roles : List String) :
    (getTeamRoles m schemeGuest schemeUser schemeAdmin defaultTeamGuestRole defaultTeamUserRole
      defaultTeamAdminRole roles).explicitRoles =
      roles.filter (fun role => decide (role ≠ m.TeamGuestRoleID ∧
        role ≠ m.TeamUserRoleID ∧ role ≠ m.TeamAdminRoleID)) := by
  unfold getTeamRoles
  simp only [addImpliedRole_fold_explicitRoles, classifyRole_fold, List.nil_append]

/-- C10.  For every input to `getTeamRoles`, `explicitRoles` is exactly the
input `roles` list with every occurrence of the three built-in team role ids
removed, the remaining roles in their original order.  Hence the
whitespace-separated tokens of the `ExplicitRoles` string built by
`teamMemberWithSchemeRoles.ToModel` are exactly the tokens of `db.Roles` other
than the three ids, and none of them is one of the three ids. -/
theorem explicit_roles_exclude_builtin (m : Model) :
    (∀ (schemeGuest schemeUser schemeAdmin : Bool)
       (defaultTeamGuestRole defaultTeamUserRole defaultTeamAdminRole : String)
       (roles : List String),
      (getTeamRoles m schemeGuest schemeUser schemeAdmin defaultTeamGuestRole
        defaultTeamUserRole defaultTeamAdminRole roles).explicitRoles =
        roles.filter (fun role => decide (role ≠ m.TeamGuestRoleID ∧
          role ≠ m.TeamUserRoleID ∧ role ≠ m.TeamAdminRoleID))) ∧
    (∀ db : teamMemberWithSchemeRoles,
      Fields (db.ToModel m).ExplicitRoles =
        (Fields db.Roles).filter (fun role => decide (role ≠ m.TeamGuestRoleID ∧
          role ≠ m.TeamUserRoleID ∧ role ≠ m.TeamAdminRoleID)) ∧
      ∀ t ∈ Fields (db.ToModel m).ExplicitRoles,
        t ≠ m.TeamGuestRoleID ∧ t ≠ m.TeamUserRoleID ∧ t ≠ m.TeamAdminRoleID) := by
  refine ⟨getTeamRoles_explicitRoles m, fun db => ?_⟩
  have e : Fields (db.ToModel m).ExplicitRoles =
      (Fields db.Roles).filter (fun role => decide (role ≠ m.TeamGuestRoleID ∧
        role ≠ m.TeamUserRoleID ∧ role ≠ m.TeamAdminRoleID)) := by
    show Fields (Join (getTeamRoles m _ _ _ _ _ _ (Fields db.Roles)).explicitRoles " ") = _
    rw [getTeamRoles_explicitRoles]
    apply Fields_Join
    intro t ht
    exact Fields_isField db.Roles t (List.mem_filter.1 ht).1
  refine ⟨e, fun t ht => ?_⟩
  rw [e] at ht
  simpa using (List.mem_filter.1 ht).2

/-- Witness of C10: a member row whose `Roles` column still holds the
unmigrated `team_user` and `team_admin` next to two custom roles. -/
theorem explicit_roles_exclude_builtin_witness :
    "custom" ∈ Fields ((teamMemberWithSchemeRoles.ToModel mattermostModel
      ⟨"t", "u", "team_user custom  team_admin other", 0, ⟨true, false⟩, ⟨false, true⟩,
        ⟨true, true⟩, ⟨true, "dg"⟩, ⟨true, ""⟩, ⟨false, "zz"⟩⟩).ExplicitRoles) ∧
    ("custom" ≠ mattermostModel.TeamGuestRoleID ∧ "custom" ≠ mattermostModel.TeamUserRoleID ∧
      "custom" ≠ mattermostModel.TeamAdminRoleID) :=
  ⟨by decide,
   ((explicit_roles_exclude_builtin mattermostModel).2
      ⟨"t", "u", "team_user custom  team_admin other", 0, ⟨true, false⟩, ⟨false, true⟩,
        ⟨true, true⟩, ⟨true, "dg"⟩, ⟨true, ""⟩, ⟨false, "zz"⟩⟩).2 "custom" (by decide)⟩

/-! ## C11: scheme flags and implied roles of `getTeamRoles` -/

theorem alreadyThere_eq (roles : List String) (impliedRole : String) :
    alreadyThere roles impliedRole = decide (impliedRole ∈ roles) := by
  have h : ∀ (l : List String) (there : Bool),
      l.foldl (fun there role => if role = impliedRole then true else there) there =
        (there || decide (impliedRole ∈ l)) := by
    intro l
    induction l with
    | nil => intro there; simp
    | cons r l ih =>
      intro there
      rw [List.foldl_cons, ih]
      by_cases hr : r = impliedRole
      · subst hr; simp
      · have hr2 : ¬ impliedRole = r := fun e => hr e.symm
        simp [hr, hr2]
  unfold alreadyThere
  rw [h]; simp

theorem addImpliedRole_roles (r : rolesInfo) (role : String) :
    (addImpliedRole r role).roles = r.roles ++ (if role ∈ r.roles then [] else [role]) := by
  unfold addImpliedRole
  rw [alreadyThere_eq]
  by_cases h : role ∈ r.roles <;> simp [h]

theorem addImpliedRole_flags (r : rolesInfo) (role : String) :
    (addImpliedRole r role).schemeGuest = r.schemeGuest ∧
    (addImpliedRole r role).schemeUser = r.schemeUser ∧
    (addImpliedRole r role).schemeAdmin = r.schemeAdmin ∧
    (addImpliedRole r role).explicitRoles = r.explicitRoles := by
  unfold addImpliedRole
  split <;> exact ⟨rfl, rfl, rfl, rfl⟩

theorem addImpliedRole_fold_flags (implied : List String) : ∀ (r : rolesInfo),
    (implied.foldl addImpliedRole r).schemeGuest = r.schemeGuest ∧
    (implied.foldl addImpliedRole r).schemeUser = r.schemeUser ∧
    (implied.foldl addImpliedRole r).schemeAdmin = r.schemeAdmin := by
  induction implied with
  | nil => intro r; exact ⟨rfl, rfl, rfl⟩
  | cons i implied ih =>
    intro r
    obtain ⟨h1, h2, h3⟩ := ih (addImpliedRole r i)
    obtain ⟨g1, g2, g3, _⟩ := addImpliedRole_flags r i
    rw [List.foldl_cons]
    exact ⟨h1.trans g1, h2.trans g2, h3.trans g3⟩

theorem classifyRole_fold_roles (m : Model) (roles : List String) : ∀ (r : rolesInfo),
    r.roles = r.explicitRoles →
    (roles.foldl (classifyRole m) r).roles = (roles.foldl (classifyRole m) r).explicitRoles := by
  induction roles with
  | nil => intro r h; exact h
  | cons role roles ih =>
    intro r h
    rw [List.foldl_cons]
    apply ih
    unfold classifyRole
    split_ifs <;> simp [h]

theorem classifyRole_fold_guest (m : Model) (roles : List String) : ∀ (r : rolesInfo),
    (roles.foldl (classifyRole m) r).schemeGuest =
      (r.schemeGuest || decide (m.TeamGuestRoleID ∈ roles)) := by
  induction roles with
  | nil => intro r; simp
  | cons role roles ih =>
    intro r
    rw [List.foldl_cons, ih]
    have step : (classifyRole m r role).schemeGuest =
        (r.schemeGuest || decide (m.TeamGuestRoleID = role)) := by
      unfold classifyRole
      split_ifs with h1 h2 h3
      · simp [h1]
      · have : ¬ m.TeamGuestRoleID = role := fun e => h1 e.symm
        simp [this]
      · have : ¬ m.TeamGuestRoleID = role := fun e => h1 e.symm
        simp [this]
      · have : ¬ m.TeamGuestRoleID = role := fun e => h1 e.symm
        simp [this]
    rw [step]
    simp [Bool.or_assoc]

theorem classifyRole_fold_user (m : Model) (hd : m.TeamGuestRoleID ≠ m.TeamUserRoleID)
    (roles : List String) : ∀ (r : rolesInfo),
    (roles.foldl (classifyRole m) r).schemeUser =
      (r.schemeUser || decide (m.TeamUserRoleID ∈ roles)) := by
  induction roles with
  | nil => intro r; simp
  | cons role roles ih =>
    intro r
    rw [List.foldl_cons, ih]
    have step : (classifyRole m r role).schemeUser =
        (r.schemeUser || decide (m.TeamUserRoleID = role)) := by
      unfold classifyRole
      split_ifs with h1 h2 h3
      · have : ¬ m.TeamUserRoleID = role := fun e => hd (h1.symm.trans e.symm)
        simp [this]
      · simp [h2]
      · have : ¬ m.TeamUserRoleID = role := fun e => h2 e.symm
        simp [this]
      · have : ¬ m.TeamUserRoleID = role := fun e => h2 e.symm
        simp [this]
    rw [step]
    simp [Bool.or_assoc]

theorem classifyRole_fold_admin (m : Model) (hg : m.TeamGuestRoleID ≠ m.TeamAdminRoleID)
    (hu : m.TeamUserRoleID ≠ m.TeamAdminRoleID)
    (roles : List String) : ∀ (r : rolesInfo),
    (roles.foldl (classifyRole m) r).schemeAdmin =
      (r.schemeAdmin || decide (m.TeamAdminRoleID ∈ roles)) := by
  induction roles with
  | nil => intro r; simp
  | cons role roles ih =>
    intro r
    rw [List.foldl_cons, ih]
    have step : (classifyRole m r role).schemeAdmin =
        (r.schemeAdmin || decide (m.TeamAdminRoleID = role)) := by
      unfold classifyRole
      split_ifs with h1 h2 h3
      · have : ¬ m.TeamAdminRoleID = role := fun e => hg (h1.symm.trans e.symm)
        simp [this]
      · have : ¬ m.TeamAdminRoleID = role := fun e => hu (h2.symm.trans e.symm)
        simp [this]
      · simp [h3]
      · have : ¬ m.TeamAdminRoleID = role := fun e => h3 e.symm
        simp [this]
    rw [step]
    simp [Bool.or_assoc]

theorem addImplied_fold_roles (m : Model) (r : rolesInfo) (dg du da : String) :
    ((schemeImpliedRoles m r dg du da).foldl addImpliedRole r).roles =
      r.roles ++ impliedPart r.schemeGuest (impliedRole dg m.TeamGuestRoleID) r.roles ++
        impliedPart r.schemeUser (impliedRole du m.TeamUserRoleID)
          (r.roles ++ impliedPart r.schemeGuest (impliedRole dg m.TeamGuestRoleID) r.roles) ++
        impliedPart r.schemeAdmin (impliedRole da m.TeamAdminRoleID)
          (r.roles ++ impliedPart r.schemeGuest (impliedRole dg m.TeamGuestRoleID) r.roles ++
            impliedPart r.schemeUser (impliedRole du m.TeamUserRoleID)
              (r.roles ++ impliedPart r.schemeGuest (impliedRole dg m.TeamGuestRoleID)
                r.roles)) := by
  have hi : ∀ (d b : String), (if d ≠ "" then [d] else [b]) = [impliedRole d b] := by
    intro d b; unfold impliedRole; split <;> rfl
  have hi2 : ∀ (l : List String) (d b : String), (if d ≠ "" then l ++ [d] else l ++ [b]) =
      l ++ [impliedRole d b] := by
    intro l d b; unfold impliedRole; split <;> rfl
  have hp : ∀ (role : String) (present : List String),
      (if role ∈ present then ([] : List String) else [role]) = impliedPart true role present := by
    intro role present
    unfold impliedPart
    by_cases h : role ∈ present <;> simp [h]
  have hf : ∀ (role : String) (present : List String), impliedPart false role present = [] := by
    intro role present; simp [impliedPart]
  obtain ⟨rs, es, g, u, a⟩ := r
  cases g <;> cases u <;> cases a <;>
    simp only [schemeImpliedRoles, hi2, hi, List.nil_append, if_true, if_false,
      Bool.false_eq_true, List.foldl_append, List.foldl_cons, List.foldl_nil, addImpliedRole_roles, hp, hf, List.append_nil,
      (addImpliedRole_flags _ _).1, (addImpliedRole_flags _ _).2.1, (addImpliedRole_flags _ _).2.2.1]

/-- C11.  For every input to `getTeamRoles`: (1) with the three built-in role
ids pairwise different, a scheme flag of the result is true iff the
corresponding argument flag is true or the corresponding built-in role id
occurs in `roles`; (2) for every flag that is true in the result,
`result.roles` contains the role that flag implies (the scheme's default role
name when that name is non-empty, otherwise the built-in role id);
(3) `result.roles` is `explicitRoles` followed by the implied roles that are
not already present, in guest, user, admin order. -/
theorem scheme_flags_and_implied_roles (m : Model) (schemeGuest schemeUser schemeAdmin : Bool)
    (dg du da : String) (roles : List String) :
    (m.Distinct →
      (((getTeamRoles m schemeGuest schemeUser schemeAdmin dg du da roles).schemeGuest = true ↔
          schemeGuest = true ∨ m.TeamGuestRoleID ∈ roles) ∧
       ((getTeamRoles m schemeGuest schemeUser schemeAdmin dg du da roles).schemeUser = true ↔
          schemeUser = true ∨ m.TeamUserRoleID ∈ roles) ∧
       ((getTeamRoles m schemeGuest schemeUser schemeAdmin dg du da roles).schemeAdmin = true ↔
          schemeAdmin = true ∨ m.TeamAdminRoleID ∈ roles))) ∧
    (((getTeamRoles m schemeGuest schemeUser schemeAdmin dg du da roles).schemeGuest = true →
        impliedRole dg m.TeamGuestRoleID ∈
          (getTeamRoles m schemeGuest schemeUser schemeAdmin dg du da roles).roles) ∧
     ((getTeamRoles m schemeGuest schemeUser schemeAdmin dg du da roles).schemeUser = true →
        impliedRole du m.TeamUserRoleID ∈
          (getTeamRoles m schemeGuest schemeUser schemeAdmin dg du da roles).roles) ∧
     ((getTeamRoles m schemeGuest schemeUser schemeAdmin dg du da roles).schemeAdmin = true →
        impliedRole da m.TeamAdminRoleID ∈
          (getTeamRoles m schemeGuest schemeUser schemeAdmin dg du da roles).roles)) ∧
    (∃ gp up ap : List String,
      gp = impliedPart (getTeamRoles m schemeGuest schemeUser schemeAdmin dg du da roles).schemeGuest
        (impliedRole dg m.TeamGuestRoleID)
        (getTeamRoles m schemeGuest schemeUser schemeAdmin dg du da roles).explicitRoles ∧
      up = impliedPart (getTeamRoles m schemeGuest schemeUser schemeAdmin dg du da roles).schemeUser
        (impliedRole du m.TeamUserRoleID)
        ((getTeamRoles m schemeGuest schemeUser schemeAdmin dg du da roles).explicitRoles ++ gp) ∧
      ap = impliedPart (getTeamRoles m schemeGuest schemeUser schemeAdmin dg du da roles).schemeAdmin
        (impliedRole da m.TeamAdminRoleID)
        ((getTeamRoles m schemeGuest schemeUser schemeAdmin dg du da roles).explicitRoles ++ gp
          ++ up) ∧
      (getTeamRoles m schemeGuest schemeUser schemeAdmin dg du da roles).roles =
        (getTeamRoles m schemeGuest schemeUser schemeAdmin dg du da roles).explicitRoles ++ gp
          ++ up ++ ap) := by
  -- the state after the first loop
  obtain ⟨R0, hR0⟩ : ∃ R0 : rolesInfo, R0 = roles.foldl (classifyRole m)
      { roles := [], explicitRoles := [], schemeGuest := schemeGuest, schemeUser := schemeUser,
        schemeAdmin := schemeAdmin } := ⟨_, rfl⟩
  have hR : getTeamRoles m schemeGuest schemeUser schemeAdmin dg du da roles =
      (schemeImpliedRoles m R0 dg du da).foldl addImpliedRole R0 := by
    rw [hR0]; rfl
  obtain ⟨fg, fu, fa⟩ := addImpliedRole_fold_flags (schemeImpliedRoles m R0 dg du da) R0
  have fe := addImpliedRole_fold_explicitRoles (schemeImpliedRoles m R0 dg du da) R0
  have hre : R0.roles = R0.explicitRoles := by
    rw [hR0]; exact classifyRole_fold_roles m roles _ rfl
  have h3 := addImplied_fold_roles m R0 dg du da
  rw [← hR] at fg fu fa fe h3
  rw [hre, ← fg, ← fu, ← fa, ← fe] at h3
  refine ⟨?_, ?_, ⟨_, _, _, rfl, rfl, rfl, h3⟩⟩
  · rintro ⟨hgu, hga, hua⟩
    rw [fg, fu, fa, hR0, classifyRole_fold_guest, classifyRole_fold_user m hgu,
      classifyRole_fold_admin m hga hua]
    simp
  · have mem_part : ∀ (role : String) (present : List String),
        role ∈ present ++ impliedPart true role present := by
      intro role present
      unfold impliedPart
      by_cases h : role ∈ present <;> simp [h]
    refine ⟨fun hg => ?_, fun hu => ?_, fun ha => ?_⟩
    · rw [h3, hg]
      simp only [List.append_assoc]
      rw [← List.append_assoc]
      exact List.mem_append_left _ (mem_part _ _)
    · rw [h3, hu]
      rw [List.append_assoc _ _ (impliedPart _ _ _)]
      rw [← List.append_assoc]
      exact List.mem_append_left _ (mem_part _ _)
    · rw [h3, ha]
      exact mem_part _ _

/-- Witness of C11 with the released constants: a row whose roles still hold
the unmigrated `team_user`. -/
theorem scheme_flags_and_implied_roles_witness :
    mattermostModel.Distinct ∧
    ((getTeamRoles mattermostModel false false false "" "" ""
        ["team_user", "custom"]).schemeUser = true ↔
      false = true ∨ mattermostModel.TeamUserRoleID ∈ ["team_user", "custom"]) ∧
    impliedRole "" mattermostModel.TeamUserRoleID ∈
      (getTeamRoles mattermostModel false false false "" "" "" ["team_user", "custom"]).roles :=
  ⟨by decide,
   ((scheme_flags_and_implied_roles mattermostModel false false false "" "" ""
      ["team_user", "custom"]).1 (by decide)).2.1,
   (scheme_flags_and_implied_roles mattermostModel false false false "" "" ""
      ["team_user", "custom"]).2.1.2.1 (by decide)⟩

/-! ## C12: `GetByInviteID` -/

theorem teamsQuery_ToSql (inviteID : String) :
    (teamsQuery.Where ⟨"InviteId", .str inviteID⟩).ToSql =
      .ok (teamsQuery.Where ⟨"InviteId", .str inviteID⟩) := rfl

/-- C12.  `SQLTeamStore.GetByInviteID` returns the not-found error (and no
team) whenever `inviteID` is empty, for every database content, collation and
driver answer; it returns the not-found error whenever the lookup yields no
team (no row matches, or the driver or `SelectOne` fails); and whenever it
returns a team, `inviteID` is non-empty, the team's `InviteID` equals
`inviteID`, and the team is a row of `Teams`. -/
theorem get_by_invite_id (db : TeamsDb) (inviteID : String) :
    (inviteID = "" →
      GetByInviteID db inviteID = .error (.NotFound "Team" ("inviteId=" ++ inviteID))) ∧
    ((∀ e, db.SelectOne (teamsQuery.Where ⟨"InviteId", .str inviteID⟩) = .error e →
      GetByInviteID db inviteID = .error (.NotFound "Team" ("inviteId=" ++ inviteID))) ∧
     ((∀ t ∈ db.Teams, db.collate t.InviteID inviteID = false) →
      GetByInviteID db inviteID = .error (.NotFound "Team" ("inviteId=" ++ inviteID)))) ∧
    (∀ team, GetByInviteID db inviteID = .ok team →
      inviteID ≠ "" ∧ team.InviteID = inviteID ∧ team ∈ db.Teams) := by
  have hsel : ∀ e, db.SelectOne (teamsQuery.Where ⟨"InviteId", .str inviteID⟩) = .error e →
      GetByInviteID db inviteID = .error (.NotFound "Team" ("inviteId=" ++ inviteID)) := by
    intro e he
    simp only [GetByInviteID, teamsQuery_ToSql, he]
  refine ⟨?_, ⟨hsel, ?_⟩, ?_⟩
  · intro hempty
    simp only [GetByInviteID, teamsQuery_ToSql]
    cases db.SelectOne (teamsQuery.Where ⟨"InviteId", .str inviteID⟩) with
    | error e => rfl
    | ok team => simp [hempty]
  · intro hnone
    have hrows : db.rowsWhere (teamsQuery.Where ⟨"InviteId", .str inviteID⟩) = [] := by
      unfold TeamsDb.rowsWhere
      rw [List.filter_eq_nil_iff]
      intro t ht
      have := hnone t ht
      simp [teamsQuery, Select, SelectBuilder.FromTable, SelectBuilder.Where, SqEq.holds,
        Team.column, this]
    cases hs : db.selectErr with
    | some err => exact hsel err (by simp only [TeamsDb.SelectOne, hs])
    | none =>
      exact hsel (.Driver "sql: no rows in result set")
        (by simp only [TeamsDb.SelectOne, hs, hrows])
  · intro team hok
    simp only [GetByInviteID, teamsQuery_ToSql] at hok
    cases hs : db.SelectOne (teamsQuery.Where ⟨"InviteId", .str inviteID⟩) with
    | error e => rw [hs] at hok; simp at hok
    | ok t =>
      rw [hs] at hok
      simp only at hok
      split at hok
      · simp at hok
      · rename_i hc
        simp only [not_or, not_not] at hc
        have ht : t = team := by simpa using hok
        subst ht
        refine ⟨hc.1, hc.2, ?_⟩
        unfold TeamsDb.SelectOne at hs
        cases hse : db.selectErr with
        | some err => rw [hse] at hs; simp at hs
        | none =>
          rw [hse] at hs
          simp only at hs
          cases hr : db.rowsWhere (teamsQuery.Where ⟨"InviteId", .str inviteID⟩) with
          | nil => rw [hr] at hs; simp at hs
          | cons a rest =>
            rw [hr] at hs
            cases rest with
            | nil =>
              have : a = t := by simpa using hs
              subst this
              have hm : a ∈ db.rowsWhere (teamsQuery.Where ⟨"InviteId", .str inviteID⟩) := by
                rw [hr]; exact List.mem_cons_self _ _
              exact (List.mem_filter.1 hm).1
            | cons b rest2 => simp at hs

/-- Witness of C12: a database with one team whose invite id is `abc`. -/
theorem get_by_invite_id_witness :
    GetByInviteID ⟨[⟨"t1", 0, "abc", true⟩], binaryCollation, none⟩ "abc" =
      .ok ⟨"t1", 0, "abc", true⟩ ∧
    ("abc" ≠ "" ∧ (⟨"t1", 0, "abc", true⟩ : Team).InviteID = "abc" ∧
      (⟨"t1", 0, "abc", true⟩ : Team) ∈ [(⟨"t1", 0, "abc", true⟩ : Team)]) :=
  ⟨rfl, (get_by_invite_id ⟨[⟨"t1", 0, "abc", true⟩], binaryCollation, none⟩ "abc").2.2
    ⟨"t1", 0, "abc", true⟩ rfl⟩

/-! ## C17: `AnalyticsTeamCount` -/

theorem Team.column_DeleteAt (t : Team) : t.column "DeleteAt" = some (.int t.DeleteAt) := rfl

theorem Team.column_AllowOpenInvite (t : Team) :
    t.column "AllowOpenInvite" = some (.bool t.AllowOpenInvite) := rfl

theorem restrictToNonDeleted_iff (opts : Option TeamSearch) :
    restrictToNonDeleted opts = true ↔
      (opts = none ∨ ∃ o, opts = some o ∧ o.IncludeDeleted = some false) := by
  cases opts with
  | none => simp [restrictToNonDeleted]
  | some o =>
    cases h : o.IncludeDeleted with
    | none => simp [restrictToNonDeleted, h]
    | some b => cases b <;> simp [restrictToNonDeleted, h]

/-- C17.  `SQLTeamStore.AnalyticsTeamCount` adds the condition `DeleteAt = 0`
exactly when `opts` is nil or `opts.IncludeDeleted` is explicitly false, and
the condition `AllowOpenInvite = v` exactly when `opts` is non-nil and
`opts.AllowOpenInvite` is set to `v`; these are the only conditions.  When
the driver answers, the count returned is the number of teams that satisfy
the added conditions; so for a non-nil `opts` whose `IncludeDeleted` is unset
or true, deleted teams are counted: the count is the number of all teams with
the requested `AllowOpenInvite`, and of all teams when that is unset. -/
theorem analytics_team_count (db : TeamsDb) (opts : Option TeamSearch) :
    ((⟨"DeleteAt", .int 0⟩ ∈ (analyticsTeamCountQuery opts).WhereParts ↔
        (opts = none ∨ ∃ o, opts = some o ∧ o.IncludeDeleted = some false)) ∧
     (∀ allow : Bool,
        ⟨"AllowOpenInvite", .bool allow⟩ ∈ (analyticsTeamCountQuery opts).WhereParts ↔
          ∃ o, opts = some o ∧ o.AllowOpenInvite = some allow) ∧
     (∀ p ∈ (analyticsTeamCountQuery opts).WhereParts,
        p = ⟨"DeleteAt", .int 0⟩ ∨ ∃ allow : Bool, p = ⟨"AllowOpenInvite", .bool allow⟩)) ∧
    (db.selectErr = none →
      AnalyticsTeamCount db opts = .ok ((db.Teams.filter (fun (t : Team) =>
        (!restrictToNonDeleted opts || t.DeleteAt == (0 : Int)) &&
        (match opts.bind TeamSearch.AllowOpenInvite with
         | none => true
         | some allow => t.AllowOpenInvite == allow))).length : Nat)) ∧
    (∀ o, opts = some o → o.IncludeDeleted ≠ some false → db.selectErr = none →
      AnalyticsTeamCount db opts = .ok ((db.Teams.filter (fun (t : Team) =>
        match o.AllowOpenInvite with
        | none => true
        | some allow => t.AllowOpenInvite == allow)).length : Nat) ∧
      (o.AllowOpenInvite = none → AnalyticsTeamCount db opts = .ok (db.Teams.length : Nat))) := by
  have hcount : db.selectErr = none →
      AnalyticsTeamCount db opts = .ok ((db.Teams.filter (fun (t : Team) =>
        (!restrictToNonDeleted opts || t.DeleteAt == (0 : Int)) &&
        (match opts.bind TeamSearch.AllowOpenInvite with
         | none => true
         | some allow => t.AllowOpenInvite == allow))).length : Nat) := by
    intro hs
    have hq : (analyticsTeamCountQuery opts).ToSql = .ok (analyticsTeamCountQuery opts) := by
      cases opts with
      | none => rfl
      | some o =>
        obtain ⟨i, a⟩ := o
        cases i with
        | none => cases a <;> rfl
        | some b => cases b <;> cases a <;> rfl
    have hf : db.Teams.filter (fun t =>
          (analyticsTeamCountQuery opts).WhereParts.all (SqEq.holds db.collate t.column)) =
        db.Teams.filter (fun (t : Team) =>
          (!restrictToNonDeleted opts || t.DeleteAt == (0 : Int)) &&
          (match opts.bind TeamSearch.AllowOpenInvite with
           | none => true
           | some allow => t.AllowOpenInvite == allow)) := by
      apply List.filter_congr
      intro t _
      cases opts with
      | none =>
        simp [analyticsTeamCountQuery, restrictToNonDeleted, Select, SelectBuilder.Where,
          SqEq.holds, Team.column_DeleteAt]
      | some o =>
        obtain ⟨i, a⟩ := o
        cases i with
        | none =>
          cases a <;>
            simp [analyticsTeamCountQuery, restrictToNonDeleted, Select, SelectBuilder.Where,
              SqEq.holds, Team.column_DeleteAt, Team.column_AllowOpenInvite]
        | some b =>
          cases b <;> cases a <;>
            simp [analyticsTeamCountQuery, restrictToNonDeleted, Select, SelectBuilder.Where,
              SqEq.holds, Team.column_DeleteAt, Team.column_AllowOpenInvite]
    simp only [AnalyticsTeamCount, hq, TeamsDb.SelectInt, hs, TeamsDb.rowsWhere, hf]
  refine ⟨⟨?_, ?_, ?_⟩, hcount, ?_⟩
  · rw [← restrictToNonDeleted_iff]
    cases opts with
    | none => simp [analyticsTeamCountQuery, restrictToNonDeleted, Select, SelectBuilder.Where]
    | some o =>
      obtain ⟨i, a⟩ := o
      cases i with
      | none =>
        cases a <;> simp [analyticsTeamCountQuery, restrictToNonDeleted, Select,
          SelectBuilder.Where]
      | some b =>
        cases b <;> cases a <;> simp [analyticsTeamCountQuery, restrictToNonDeleted, Select,
          SelectBuilder.Where]
  · intro allow
    cases opts with
    | none => simp [analyticsTeamCountQuery, restrictToNonDeleted, Select, SelectBuilder.Where]
    | some o =>
      obtain ⟨i, a⟩ := o
      cases i with
      | none =>
        cases a <;> simp [analyticsTeamCountQuery, restrictToNonDeleted, Select,
          SelectBuilder.Where, eq_comm]
      | some b =>
        cases b <;> cases a <;> simp [analyticsTeamCountQuery, restrictToNonDeleted, Select,
          SelectBuilder.Where, eq_comm]
  · intro p hp
    have fin : ∀ (q : SqEq) (v : Bool), (q = ⟨"DeleteAt", .int 0⟩ ∨
        q = ⟨"AllowOpenInvite", .bool v⟩) →
        (q = ⟨"DeleteAt", .int 0⟩ ∨ ∃ allow : Bool, q = ⟨"AllowOpenInvite", .bool allow⟩) := by
      intro q v h
      rcases h with h | h
      · exact Or.inl h
      · exact Or.inr ⟨v, h⟩
    cases opts with
    | none =>
      simp [analyticsTeamCountQuery, restrictToNonDeleted, Select, SelectBuilder.Where] at hp
      exact Or.inl hp
    | some o =>
      obtain ⟨i, a⟩ := o
      cases i with
      | none =>
        cases a with
        | none =>
          simp [analyticsTeamCountQuery, restrictToNonDeleted, Select, SelectBuilder.Where] at hp
        | some v =>
          simp [analyticsTeamCountQuery, restrictToNonDeleted, Select, SelectBuilder.Where] at hp
          exact Or.inr ⟨v, hp⟩
      | some b =>
        cases b with
        | false =>
          cases a with
          | none =>
            simp [analyticsTeamCountQuery, restrictToNonDeleted, Select,
              SelectBuilder.Where] at hp
            exact Or.inl hp
          | some v =>
            simp [analyticsTeamCountQuery, restrictToNonDeleted, Select,
              SelectBuilder.Where] at hp
            exact fin p v hp
        | true =>
          cases a with
          | none =>
            simp [analyticsTeamCountQuery, restrictToNonDeleted, Select,
              SelectBuilder.Where] at hp
          | some v =>
            simp [analyticsTeamCountQuery, restrictToNonDeleted, Select,
              SelectBuilder.Where] at hp
            exact Or.inr ⟨v, hp⟩
  · intro o ho hinc hs
    subst ho
    have hr : restrictToNonDeleted (some o) = false := by
      cases hi : o.IncludeDeleted with
      | none => simp [restrictToNonDeleted, hi]
      | some b =>
        cases b
        · exact absurd hi hinc
        · simp [restrictToNonDeleted, hi]
    have h1 := hcount hs
    rw [hr] at h1
    have h2 : AnalyticsTeamCount db (some o) = .ok ((db.Teams.filter (fun (t : Team) =>
        match o.AllowOpenInvite with
        | none => true
        | some allow => t.AllowOpenInvite == allow)).length : Nat) := by
      rw [h1]; simp
    refine ⟨h2, fun ha => ?_⟩
    rw [h2, ha]
    simp

/-! ## C18: `GetTeamsForUserWithPagination` -/

theorem toUint64_of_nonneg (bits : Nat) (hb : bits = 32 ∨ bits = 64) (x : Int) (h0 : 0 ≤ x)
    (hr : InIntRange bits x) : toUint64 x = x.toNat := by
  unfold toUint64
  have hx : x < (2 : Int) ^ 64 := by
    rcases hb with rfl | rfl
    · have := hr.2; norm_num at this; omega
    · have := hr.2; norm_num at this; omega
  rw [Int.emod_eq_of_lt h0 hx]

theorem wrapInt_of_inRange (bits : Nat) (hb : bits = 32 ∨ bits = 64) (x : Int)
    (hr : InIntRange bits x) : wrapInt bits x = x := by
  unfold wrapInt
  rcases hb with rfl | rfl
  · have h1 := hr.1; have h2 := hr.2
    norm_num at h1 h2 ⊢
    rw [Int.emod_eq_of_lt (by omega) (by omega)]; omega
  · have h1 := hr.1; have h2 := hr.2
    norm_num at h1 h2 ⊢
    rw [Int.emod_eq_of_lt (by omega) (by omega)]; omega

theorem ToModel_list_eq_map (m : Model) (db : List teamMemberWithSchemeRoles) :
    teamMemberWithSchemeRolesList.ToModel m db = db.map (fun tm => tm.ToModel m) := by
  have h : ∀ (l : List teamMemberWithSchemeRoles) (acc : List TeamMember),
      l.foldl (fun tms tm => tms ++ [tm.ToModel m]) acc = acc ++ l.map (fun tm => tm.ToModel m) := by
    intro l
    induction l with
    | nil => intro acc; simp
    | cons a l ih => intro acc; simp [List.foldl_cons, ih]
  unfold teamMemberWithSchemeRolesList.ToModel
  rw [h]; simp

/-- C18.  For Go `int`s of 32 or 64 bits and every non-negative `page` and
`perPage` whose product does not overflow `int`, the query built by
`SQLTeamStore.GetTeamsForUserWithPagination` has `LIMIT = perPage` and
`OFFSET = page × perPage`; when the driver answers, the result is the models
of the user's rows after skipping `page × perPage` of them, at most `perPage`
rows. -/
theorem pagination_limit_offset (m : Model) (bits : Nat) (hb : bits = 32 ∨ bits = 64)
    (db : TeamMembersView) (userID : String) (page perPage : Int)
    (hperPage : InIntRange bits perPage)
    (h0 : 0 ≤ page) (h1 : 0 ≤ perPage) (hprod : InIntRange bits (page * perPage)) :
    (∃ limit offset : Nat,
      (getTeamsForUserWithPaginationQuery bits userID page perPage).Limit = some limit ∧
      (limit : Int) = perPage ∧
      (getTeamsForUserWithPaginationQuery bits userID page perPage).Offset = some offset ∧
      (offset : Int) = page * perPage ∧
      (db.selectErr = none →
        GetTeamsForUserWithPagination m bits db userID page perPage =
          .ok ((((db.rows.filter (fun r => db.collate r.UserID userID)).drop offset).take
            limit).map (fun tm => tm.ToModel m)) ∧
        ∀ tms, GetTeamsForUserWithPagination m bits db userID page perPage = .ok tms →
          (tms.length : Int) ≤ perPage)) := by
  have hmul : 0 ≤ page * perPage := Int.mul_nonneg h0 h1
  have e1 : toUint64 perPage = perPage.toNat := toUint64_of_nonneg bits hb perPage h1 hperPage
  have e2 : toUint64 (wrapInt bits (page * perPage)) = (page * perPage).toNat := by
    rw [wrapInt_of_inRange bits hb _ hprod]
    exact toUint64_of_nonneg bits hb _ hmul hprod
  refine ⟨perPage.toNat, (page * perPage).toNat, ?_, Int.toNat_of_nonneg h1, ?_,
    Int.toNat_of_nonneg hmul, ?_⟩
  · simp [getTeamsForUserWithPaginationQuery, SelectBuilder.SetLimit, SelectBuilder.SetOffset, e1]
  · simp [getTeamsForUserWithPaginationQuery, SelectBuilder.SetOffset, e2]
  · intro hs
    have hres : GetTeamsForUserWithPagination m bits db userID page perPage =
        .ok ((((db.rows.filter (fun r => db.collate r.UserID userID)).drop
          (page * perPage).toNat).take perPage.toNat).map (fun tm => tm.ToModel m)) := by
      have hf : db.rows.filter (fun r =>
          (getTeamsForUserWithPaginationQuery bits userID page perPage).WhereParts.all
            (SqEq.holds db.collate r.column)) =
          db.rows.filter (fun r => db.collate r.UserID userID) := by
        apply List.filter_congr
        intro r _
        simp [getTeamsForUserWithPaginationQuery, getTeamMembersWithSchemeSelectQuery, Select,
          SelectBuilder.FromTable, SelectBuilder.LeftJoin, SelectBuilder.Where,
          SelectBuilder.SetLimit, SelectBuilder.SetOffset, SqEq.holds,
          teamMemberWithSchemeRoles.column]
      have hq : (getTeamsForUserWithPaginationQuery bits userID page perPage).ToSql =
          .ok (getTeamsForUserWithPaginationQuery bits userID page perPage) := rfl
      have hl : (getTeamsForUserWithPaginationQuery bits userID page perPage).Limit =
          some perPage.toNat := by
        simp [getTeamsForUserWithPaginationQuery, SelectBuilder.SetLimit,
          SelectBuilder.SetOffset, e1]
      have ho : (getTeamsForUserWithPaginationQuery bits userID page perPage).Offset =
          some (page * perPage).toNat := by
        simp [getTeamsForUserWithPaginationQuery, SelectBuilder.SetOffset, e2]
      simp only [GetTeamsForUserWithPagination, hq, TeamMembersView.Select, hs, hf, hl, ho,
        Option.getD_some, ToModel_list_eq_map]
    refine ⟨hres, fun tms htms => ?_⟩
    rw [hres] at htms
    have : tms = _ := (Except.ok.inj htms).symm
    rw [this, List.length_map, List.length_take]
    have := Int.toNat_of_nonneg h1
    omega

/-! ## C13: `MigrateTeamMembers` -/

theorem selectAfter_mem (less : String → String → Bool) (rows : List teamMember)
    (teamID userID : String) (limit : Nat) (r : teamMember)
    (h : r ∈ selectAfter less rows teamID userID limit) :
    r ∈ rows ∧ rowAfter less teamID userID r = true := by
  unfold selectAfter at h
  have h1 := List.mem_of_mem_take h
  rw [(List.perm_insertionSort _ _).mem_iff] at h1
  exact List.mem_filter.1 h1

theorem selectAfter_length (less : String → String → Bool) (rows : List teamMember)
    (teamID userID : String) (limit : Nat) :
    (selectAfter less rows teamID userID limit).length ≤ limit := by
  unfold selectAfter
  rw [List.length_take]
  exact Nat.min_le_left _ _

theorem selectAfter_eq_nil_iff (less : String → String → Bool) (rows : List teamMember)
    (teamID userID : String) (limit : Nat) (hl : 0 < limit) :
    selectAfter less rows teamID userID limit = [] ↔
      ∀ r ∈ rows, rowAfter less teamID userID r = false := by
  unfold selectAfter
  have hp := List.perm_insertionSort (fun a b => keyLe less a b = true)
    (rows.filter (rowAfter less teamID userID))
  constructor
  · intro h r hr
    have hlen : (List.insertionSort (fun a b => keyLe less a b = true)
        (rows.filter (rowAfter less teamID userID))).length = 0 := by
      have := congrArg List.length h
      rw [List.length_take] at this
      simp only [List.length_nil] at this
      omega
    rw [hp.length_eq] at hlen
    have hnil : rows.filter (rowAfter less teamID userID) = [] := List.length_eq_zero.1 hlen
    rw [List.filter_eq_nil_iff] at hnil
    simpa using hnil r hr
  · intro h
    have hnil : rows.filter (rowAfter less teamID userID) = [] := by
      rw [List.filter_eq_nil_iff]
      intro r hr
      simp [h r hr]
    rw [hnil]
    simp

/-- C13.  `SQLTeamStore.MigrateTeamMembers`, when the transaction begins and
the select succeeds, returns `(nil, nil)` and leaves the table as it is
exactly when no `TeamMembers` row follows the cursor `(fromTeamID,
fromUserID)`; under any driver answers a returned `(nil, nil)` means that no
row follows the cursor.  Whenever it returns a map (as it does when the driver does not fail and some row follows
the cursor), the batch (the rows after
the cursor, ordered by `(TeamId, UserId)`, at most 100 of them) is not empty
and the map's `TeamId` and `UserId` entries are the `TeamID` and `UserID` of
the last member of the batch; that member is a row of the table that follows
the cursor, so the returned cursor strictly advances.  The batch is sorted
when the string order is total and transitive on keys. -/
theorem migrate_team_members (m : Model) (db : TeamMembersDb) (fromTeamID fromUserID : String) :
    (db.beginErr = none → db.selectErr = none →
      ((∀ r ∈ db.rows, rowAfter db.less fromTeamID fromUserID r = false) →
        MigrateTeamMembers m db fromTeamID fromUserID = (.ok none, db.rows))) ∧
    ((MigrateTeamMembers m db fromTeamID fromUserID).1 = .ok none →
      ∀ r ∈ db.rows, rowAfter db.less fromTeamID fromUserID r = false) ∧
    (db.beginErr = none → db.selectErr = none → db.execErr = none → db.commitErr = none →
      (∃ r ∈ db.rows, rowAfter db.less fromTeamID fromUserID r = true) →
      ∃ data, (MigrateTeamMembers m db fromTeamID fromUserID).1 = .ok (some data)) ∧
    (∀ data, (MigrateTeamMembers m db fromTeamID fromUserID).1 = .ok (some data) →
      ∃ last, (selectAfter db.less db.rows fromTeamID fromUserID 100).getLast? = some last ∧
        data.lookup "TeamId" = some last.TeamID ∧ data.lookup "UserId" = some last.UserID ∧
        last ∈ db.rows ∧ rowAfter db.less fromTeamID fromUserID last = true) ∧
    ((selectAfter db.less db.rows fromTeamID fromUserID 100).length ≤ 100 ∧
     (∀ r ∈ selectAfter db.less db.rows fromTeamID fromUserID 100,
        r ∈ db.rows ∧ rowAfter db.less fromTeamID fromUserID r = true) ∧
     (IsTotal teamMember (fun a b => keyLe db.less a b = true) →
      IsTrans teamMember (fun a b => keyLe db.less a b = true) →
        (selectAfter db.less db.rows fromTeamID fromUserID 100).Sorted
          (fun a b => keyLe db.less a b = true))) := by
  refine ⟨?_, ?_, ?_, ?_, selectAfter_length _ _ _ _ _, selectAfter_mem _ _ _ _ _, ?_⟩
  · intro hb hs hnone
    have hnil := (selectAfter_eq_nil_iff db.less db.rows fromTeamID fromUserID 100
      (by decide)).2 hnone
    simp [MigrateTeamMembers, hb, hs, hnil]
  · intro hres
    apply (selectAfter_eq_nil_iff db.less db.rows fromTeamID fromUserID 100 (by decide)).1
    unfold MigrateTeamMembers at hres
    cases hb : db.beginErr with
    | some err => rw [hb] at hres; simp at hres
    | none =>
      rw [hb] at hres
      cases hs : db.selectErr with
      | some err => rw [hs] at hres; simp at hres
      | none =>
        rw [hs] at hres
        simp only at hres
        by_cases hlen : (selectAfter db.less db.rows fromTeamID fromUserID 100).length = 0
        · exact List.length_eq_zero.1 hlen
        · rw [if_neg hlen] at hres
          cases he : db.execErr with
          | some err => rw [he] at hres; simp at hres
          | none =>
            rw [he] at hres
            cases hc : db.commitErr with
            | some err => rw [hc] at hres; simp at hres
            | none => rw [hc] at hres; simp at hres
  · intro hb hs he hc hex
    have hne : (selectAfter db.less db.rows fromTeamID fromUserID 100).length ≠ 0 := by
      intro h0
      obtain ⟨r, hr, hra⟩ := hex
      have := (selectAfter_eq_nil_iff db.less db.rows fromTeamID fromUserID 100
        (by decide)).1 (List.length_eq_zero.1 h0) r hr
      rw [this] at hra
      exact Bool.noConfusion hra
    refine ⟨[("TeamId", ((selectAfter db.less db.rows fromTeamID fromUserID 100).getD
        ((selectAfter db.less db.rows fromTeamID fromUserID 100).length - 1) default).TeamID),
      ("UserId", ((selectAfter db.less db.rows fromTeamID fromUserID 100).getD
        ((selectAfter db.less db.rows fromTeamID fromUserID 100).length - 1) default).UserID)],
      ?_⟩
    simp only [MigrateTeamMembers, hb, hs, he, hc, if_neg hne]
    rfl
  · intro data hres
    unfold MigrateTeamMembers at hres
    cases hb : db.beginErr with
    | some err => rw [hb] at hres; simp at hres
    | none =>
      rw [hb] at hres
      cases hs : db.selectErr with
      | some err => rw [hs] at hres; simp at hres
      | none =>
        rw [hs] at hres
        simp only at hres
        by_cases hlen : (selectAfter db.less db.rows fromTeamID fromUserID 100).length = 0
        · rw [if_pos hlen] at hres; simp at hres
        · rw [if_neg hlen] at hres
          cases he : db.execErr with
          | some err => rw [he] at hres; simp at hres
          | none =>
            rw [he] at hres
            cases hc : db.commitErr with
            | some err => rw [hc] at hres; simp at hres
            | none =>
              rw [hc] at hres
              simp only [List.nil_append, List.cons_append, Except.ok.injEq,
                Option.some.injEq] at hres
              have hne : selectAfter db.less db.rows fromTeamID fromUserID 100 ≠ [] :=
                fun h => hlen (by rw [h]; rfl)
              have hlast : (selectAfter db.less db.rows fromTeamID fromUserID 100).getLast? =
                  some ((selectAfter db.less db.rows fromTeamID fromUserID 100).getD
                    ((selectAfter db.less db.rows fromTeamID fromUserID 100).length - 1)
                    default) := by
                rw [List.getLast?_eq_getElem?, List.getD_eq_getElem?_getD]
                have hlt : (selectAfter db.less db.rows fromTeamID fromUserID 100).length - 1 <
                    (selectAfter db.less db.rows fromTeamID fromUserID 100).length := by omega
                rw [List.getElem?_eq_getElem hlt]
                rfl
              have hmem := selectAfter_mem db.less db.rows fromTeamID fromUserID 100 _
                (List.mem_of_getLast?_eq_some hlast)
              refine ⟨_, hlast, ?_, ?_, hmem.1, hmem.2⟩
              · rw [← hres]; simp [List.lookup]
              · rw [← hres]; simp [List.lookup]
  · intro ht htr
    unfold selectAfter
    exact (List.sorted_insertionSort _ _).sublist (List.take_sublist _ _)

/-- Witness of C13: two members of team `a`; from the start cursor the batch
holds both and the returned cursor is the second, which follows the start
cursor. -/
theorem migrate_team_members_witness :
    (MigrateTeamMembers mattermostModel
      (exampleMembersDb [⟨"a", "u2", "team_user x", 0, default, default, default⟩,
        ⟨"a", "u1", "team_admin", 0, default, default, default⟩]) "" "").1 =
      .ok (some [("TeamId", "a"), ("UserId", "u2")]) ∧
    ∃ last : teamMember, last.TeamID = "a" ∧ last.UserID = "u2" ∧
      rowAfter (fun a b => codePointLess a.data b.data) "" "" last = true := by
  have h : (MigrateTeamMembers mattermostModel
      (exampleMembersDb [⟨"a", "u2", "team_user x", 0, default, default, default⟩,
        ⟨"a", "u1", "team_admin", 0, default, default, default⟩]) "" "").1 =
      .ok (some [("TeamId", "a"), ("UserId", "u2")]) := by rfl
  obtain ⟨last, _, h1, h2, _, h4⟩ := (migrate_team_members mattermostModel
      (exampleMembersDb [⟨"a", "u2", "team_user x", 0, default, default, default⟩,
        ⟨"a", "u1", "team_admin", 0, default, default, default⟩]) "" "").2.2.2.1 _ h
  refine ⟨h, last, ?_, ?_, h4⟩
  · have : some "a" = some last.TeamID := h1
    exact (Option.some.inj this).symm
  · have : some "u2" = some last.UserID := h2
    exact (Option.some.inj this).symm

/-! ## C15: `UpdateMembersRole` -/

/-- C15 as stated fails on a guest member.  The table holds one non-deleted
member of team `team1`, user `guest1`, who is a guest and not an admin.
`UpdateMembersRole("team1", ["guest1"])` succeeds and leaves the table as it
is: the member's user id is in `userIDs`, yet the member is not a scheme admin
afterwards, and the table differs from the one the claim describes. -/
theorem update_members_role_counterexample :
    (⟨"team1", "guest1", "", 0, ⟨true, false⟩, ⟨true, false⟩, ⟨true, true⟩⟩ : teamMember).TeamID
      = "team1" ∧
    (⟨"team1", "guest1", "", 0, ⟨true, false⟩, ⟨true, false⟩, ⟨true, true⟩⟩ : teamMember).DeleteAt
      = 0 ∧
    (⟨"team1", "guest1", "", 0, ⟨true, false⟩, ⟨true, false⟩, ⟨true, true⟩⟩ : teamMember).UserID
      ∈ ["guest1"] ∧
    UpdateMembersRole
      (exampleMembersDb [⟨"team1", "guest1", "", 0, ⟨true, false⟩, ⟨true, false⟩, ⟨true, true⟩⟩])
      "team1" ["guest1"] =
      (.ok (), [⟨"team1", "guest1", "", 0, ⟨true, false⟩, ⟨true, false⟩, ⟨true, true⟩⟩]) ∧
    (⟨"team1", "guest1", "", 0, ⟨true, false⟩, ⟨true, false⟩, ⟨true, true⟩⟩ :
      teamMember).SchemeAdmin.Bool = false ∧
    (UpdateMembersRole
      (exampleMembersDb [⟨"team1", "guest1", "", 0, ⟨true, false⟩, ⟨true, false⟩, ⟨true, true⟩⟩])
      "team1" ["guest1"]).2 ≠
      updateMembersRoleAsClaimed
        [⟨"team1", "guest1", "", 0, ⟨true, false⟩, ⟨true, false⟩, ⟨true, true⟩⟩]
        "team1" ["guest1"] := by
  refine ⟨rfl, rfl, by decide, rfl, rfl, by decide⟩

/-- C15, amended.  When the driver does not fail, `UpdateMembersRole(teamID,
userIDs)` succeeds and changes the table row by row: a non-deleted member of
`teamID` that is not a guest (`SchemeGuest` false or NULL) becomes a scheme
admin when its user id is in `userIDs` and a non-admin otherwise, only its
`SchemeAdmin` column being written; guest members, deleted members and
members of other teams are unchanged. -/
theorem update_members_role (db : TeamMembersDb) (teamID : String) (userIDs : List String)
    (he : db.execErr = none) :
    (UpdateMembersRole db teamID userIDs).1 = .ok () ∧
    ∃ f : teamMember → teamMember,
      (UpdateMembersRole db teamID userIDs).2 = db.rows.map f ∧
      ∀ r : teamMember,
        (r.TeamID = teamID → r.DeleteAt = 0 →
          (r.SchemeGuest.Valid = false ∨ r.SchemeGuest.Bool = false) →
          ((r.UserID ∈ userIDs →
              f r = { r with SchemeAdmin := { Valid := true, Bool := true } }) ∧
           (r.UserID ∉ userIDs →
              f r = { r with SchemeAdmin := { Valid := true, Bool := false } }))) ∧
        ((r.TeamID ≠ teamID ∨ r.DeleteAt ≠ 0 ∨
            (r.SchemeGuest.Valid = true ∧ r.SchemeGuest.Bool = true)) → f r = r) := by
  refine ⟨by simp only [UpdateMembersRole, he],
    fun r => if updateMembersRoleWhere teamID r then updateMembersRoleSet userIDs r else r,
    by simp only [UpdateMembersRole, he], ?_⟩
  intro r
  constructor
  · intro ht hd hg
    have hw : updateMembersRoleWhere teamID r = true := by
      unfold updateMembersRoleWhere
      rcases hg with hg | hg <;> simp [ht, hd, hg]
    simp only [hw, if_true, updateMembersRoleSet]
    exact ⟨fun hin => by simp [hin], fun hnin => by simp [hnin]⟩
  · intro h
    have hw : updateMembersRoleWhere teamID r = false := by
      unfold updateMembersRoleWhere
      rcases h with h | h | ⟨h1, h2⟩
      · simp [h]
      · simp [h]
      · simp [h1, h2]
    simp only [hw, Bool.false_eq_true, if_false]

/-- Witness of the amended C15: a regular member of the team becomes an
admin. -/
theorem update_members_role_witness :
    (exampleMembersDb [⟨"team1", "user1", "", 0, ⟨true, true⟩, ⟨true, false⟩, ⟨false, false⟩⟩,
      ⟨"team1", "guest1", "", 0, ⟨true, false⟩, ⟨true, false⟩, ⟨true, true⟩⟩]).execErr = none ∧
    (UpdateMembersRole
      (exampleMembersDb [⟨"team1", "user1", "", 0, ⟨true, true⟩, ⟨true, false⟩, ⟨false, false⟩⟩,
        ⟨"team1", "guest1", "", 0, ⟨true, false⟩, ⟨true, false⟩, ⟨true, true⟩⟩])
      "team1" ["user1", "guest1"]).1 = .ok () :=
  ⟨rfl, (update_members_role _ "team1" ["user1", "guest1"] rfl).1⟩

/-! ## C16: `UpdateExpiredDNDStatuses` -/

theorem fixReturnedStatus_eq (m : StatusModel) (r : Status) :
    fixReturnedStatus m r = setExpired m r := rfl

theorem expiredDND_iff (m : StatusModel) (now : Int) (r : Status) :
    expiredDND m now r = true ↔
      r.Status = m.StatusDnd ∧ 0 < r.DNDEndTime ∧ r.DNDEndTime ≤ now := by
  simp [expiredDND, and_assoc]

/-- C16.  The rows selected and updated by `UpdateExpiredDNDStatuses` are
exactly those with `Status = dnd`, `DNDEndTime > 0` and `DNDEndTime <=` the
current Unix time.  On the MySQL path, when the driver does not fail, the
method updates exactly those rows in the table and returns them as updated:
every returned status is its row with `Status` set to the `PrevStatus` the row
had before the update, `PrevStatus` set to `model.StatusDnd`, `DNDEndTime` 0
and `Manual` false, and it is a row of the table after the update.  The other
path, on the same table at the same time, returns the same statuses and
leaves the same table. -/
theorem update_expired_dnd_statuses (m : StatusModel) (db : StatusDb) :
    (∀ r, expiredDND m db.now r = true ↔
      r.Status = m.StatusDnd ∧ 0 < r.DNDEndTime ∧ r.DNDEndTime ≤ db.now) ∧
    (db.DriverName = m.DatabaseDriverMysql → db.beginErr = none → db.selectErr = none →
      db.execErr = none → db.commitErr = none →
      ∃ returned,
        UpdateExpiredDNDStatuses m db =
          (.ok returned,
           db.rows.map (fun r => if expiredDND m db.now r then
             { r with Status := r.PrevStatus, PrevStatus := m.StatusDnd, DNDEndTime := 0,
                      Manual := false } else r)) ∧
        returned = (db.rows.filter (expiredDND m db.now)).map (fun r =>
          { r with Status := r.PrevStatus, PrevStatus := m.StatusDnd, DNDEndTime := 0,
                   Manual := false }) ∧
        (∀ s ∈ returned, s.PrevStatus = m.StatusDnd ∧ s.DNDEndTime = 0 ∧ s.Manual = false) ∧
        (∀ s ∈ returned, s ∈ (UpdateExpiredDNDStatuses m db).2) ∧
        (∀ other : StatusDb, other.rows = db.rows → other.now = db.now →
          other.DriverName ≠ m.DatabaseDriverMysql → other.queryErr = none →
          other.rowsErr = none →
          UpdateExpiredDNDStatuses m other = UpdateExpiredDNDStatuses m db)) := by
  refine ⟨expiredDND_iff m db.now, ?_⟩
  intro hd hb hs he hc
  have hres : UpdateExpiredDNDStatuses m db =
      (.ok ((db.rows.filter (expiredDND m db.now)).map (setExpired m)),
       updateExpired m db.now db.rows) := by
    have hf : (fixReturnedStatus m) = setExpired m := funext (fixReturnedStatus_eq m)
    simp only [UpdateExpiredDNDStatuses, hd, if_true, hb, updateExpiredStatuses, hs, he, hc, hf]
  refine ⟨_, hres, rfl, ?_, ?_, ?_⟩
  · intro s hs
    obtain ⟨r, _, rfl⟩ := List.mem_map.1 hs
    exact ⟨rfl, rfl, rfl⟩
  · intro s hs
    rw [hres]
    obtain ⟨r, hr, rfl⟩ := List.mem_map.1 hs
    obtain ⟨hr1, hr2⟩ := List.mem_filter.1 hr
    show setExpired m r ∈ updateExpired m db.now db.rows
    unfold updateExpired
    exact List.mem_map.2 ⟨r, hr1, by simp [hr2]⟩
  · intro other hrows hnow hdrv hq hr
    rw [hres]
    simp only [UpdateExpiredDNDStatuses, hdrv, if_false, hq, hr, hrows, hnow]

/-- Witness of C16 with the released constants, at Unix time 100: one expired
`dnd` status, one `dnd` status that has not expired and one status that is not
`dnd`. -/
theorem update_expired_dnd_statuses_witness :
    UpdateExpiredDNDStatuses mattermostStatusModel
      ⟨[⟨"u1", "dnd", true, 5, 50, "online"⟩, ⟨"u2", "dnd", true, 5, 200, "away"⟩,
        ⟨"u3", "online", false, 5, 0, ""⟩], "mysql", 100, none, none, none, none, none, none⟩ =
      (.ok [⟨"u1", "online", false, 5, 0, "dnd"⟩],
       [⟨"u1", "online", false, 5, 0, "dnd"⟩, ⟨"u2", "dnd", true, 5, 200, "away"⟩,
        ⟨"u3", "online", false, 5, 0, ""⟩]) ∧
    ∃ returned : List Status, returned = [⟨"u1", "online", false, 5, 0, "dnd"⟩] ∧
      ∀ s ∈ returned, s.PrevStatus = "dnd" ∧ s.DNDEndTime = 0 ∧ s.Manual = false := by
  have h : UpdateExpiredDNDStatuses mattermostStatusModel
      ⟨[⟨"u1", "dnd", true, 5, 50, "online"⟩, ⟨"u2", "dnd", true, 5, 200, "away"⟩,
        ⟨"u3", "online", false, 5, 0, ""⟩], "mysql", 100, none, none, none, none, none, none⟩ =
      (.ok [⟨"u1", "online", false, 5, 0, "dnd"⟩],
       [⟨"u1", "online", false, 5, 0, "dnd"⟩, ⟨"u2", "dnd", true, 5, 200, "away"⟩,
        ⟨"u3", "online", false, 5, 0, ""⟩]) := by rfl
  obtain ⟨returned, h1, _, h3, _⟩ := (update_expired_dnd_statuses mattermostStatusModel
      ⟨[⟨"u1", "dnd", true, 5, 50, "online"⟩, ⟨"u2", "dnd", true, 5, 200, "away"⟩,
        ⟨"u3", "online", false, 5, 0, ""⟩], "mysql", 100, none, none, none, none, none,
        none⟩).2 rfl rfl rfl rfl rfl
  rw [h] at h1
  have hr : returned = [⟨"u1", "online", false, 5, 0, "dnd"⟩] := by
    have := congrArg Prod.fst h1
    exact (Except.ok.inj this).symm
  exact ⟨h, returned, hr, h3⟩

/-! ## C14: `ClearAllCustomRoleAssignments` -/

theorem appendIfBuiltIn_eq (builtInRoles : List String) (role : String) (newRoles : List String) :
    appendIfBuiltIn builtInRoles role newRoles =
      newRoles ++ (if role ∈ builtInRoles then [role] else []) := by
  induction builtInRoles with
  | nil => simp [appendIfBuiltIn]
  | cons name names ih =>
    unfold appendIfBuiltIn
    by_cases h : name = role
    · simp [h]
    · have h2 : ¬ role = name := fun e => h e.symm
      simp only [h, if_false, ih, List.mem_cons, h2, false_or]

theorem newRoles_fold_eq (builtInRoles : List String) (tokens : List String) :
    ∀ acc : List String,
      tokens.foldl (fun newRoles role => appendIfBuiltIn builtInRoles role newRoles) acc =
        acc ++ tokens.filter (fun role => decide (role ∈ builtInRoles)) := by
  induction tokens with
  | nil => intro acc; simp
  | cons t tokens ih =>
    intro acc
    rw [List.foldl_cons, ih, appendIfBuiltIn_eq]
    by_cases h : t ∈ builtInRoles <;> simp [h]

theorem newRolesString_eq (builtInRoles : List String) (member : teamMember) :
    newRolesString builtInRoles member = builtInRolesOnly builtInRoles member.Roles := by
  unfold newRolesString builtInRolesOnly
  rw [newRoles_fold_eq]
  simp

theorem Fields_builtInRolesOnly (builtInRoles : List String) (roles : String) :
    Fields (builtInRolesOnly builtInRoles roles) =
      (Fields roles).filter (fun role => decide (role ∈ builtInRoles)) := by
  unfold builtInRolesOnly
  apply Fields_Join
  intro t ht
  exact Fields_isField roles t (List.mem_filter.1 ht).1

theorem Consistent_visit_same (builtInRoles : List String) (st : ClearState)
    (member : teamMember) (h : st.Consistent builtInRoles)
    (he : ¬ newRolesString builtInRoles member ≠ member.Roles) :
    (st.visit member).Consistent builtInRoles := by
  obtain ⟨h1, h2⟩ := h
  constructor
  · intro u hu
    obtain ⟨mb, hmb, e⟩ := h1 u hu
    exact ⟨mb, List.mem_append_left _ hmb, e⟩
  · intro mb hmb hd
    rcases List.mem_append.1 hmb with hmb | hmb
    · exact h2 mb hmb hd
    · simp only [List.mem_singleton] at hmb
      subst hmb
      exact absurd hd he

theorem Consistent_visit_issue (builtInRoles : List String) (st : ClearState)
    (member : teamMember) (h : st.Consistent builtInRoles)
    (hne : newRolesString builtInRoles member ≠ member.Roles) :
    ((st.visit member).issue (rolesUpdateFor builtInRoles member)).Consistent builtInRoles := by
  obtain ⟨h1, h2⟩ := h
  constructor
  · intro u hu
    rcases List.mem_append.1 hu with hu | hu
    · obtain ⟨mb, hmb, e⟩ := h1 u hu
      exact ⟨mb, List.mem_append_left _ hmb, e⟩
    · simp only [List.mem_singleton] at hu
      exact ⟨member, List.mem_append_right _ (List.mem_singleton_self _), hu, hne⟩
  · intro mb hmb hd
    rcases List.mem_append.1 hmb with hmb | hmb
    · exact List.mem_append_left _ (h2 mb hmb hd)
    · simp only [List.mem_singleton] at hmb
      subst hmb
      exact List.mem_append_right _ (List.mem_singleton_self _)

theorem clearMembers_consistent (builtInRoles : List String) (execErr : Option StoreErr)
    (members : List teamMember) : ∀ st : ClearState, st.Consistent builtInRoles →
    (clearMembers builtInRoles execErr members st).2.Consistent builtInRoles := by
  induction members with
  | nil => intro st h; exact h
  | cons member members ih =>
    intro st h
    unfold clearMembers
    by_cases hne : newRolesString builtInRoles member ≠ member.Roles
    · rw [if_pos hne]
      have hc := Consistent_visit_issue builtInRoles st member h hne
      cases execErr with
      | some err => exact hc
      | none => exact ih _ ⟨hc.1, hc.2⟩
    · rw [if_neg hne]
      exact ih _ (Consistent_visit_same builtInRoles st member h hne)

theorem clearLoop_consistent (builtInRoles : List String) (db : TeamMembersDb) (fuel : Nat) :
    ∀ st : ClearState, st.Consistent builtInRoles →
    (clearLoop builtInRoles db fuel st).2.Consistent builtInRoles := by
  induction fuel with
  | zero => intro st h; exact h
  | succ fuel ih =>
    intro st h
    unfold clearLoop
    cases db.beginErr with
    | some err => exact h
    | none =>
      cases db.selectErr with
      | some err => exact h
      | none =>
        simp only
        by_cases hlen : (selectAfter db.less st.rows st.lastTeamID st.lastUserID 1000).length = 0
        · rw [if_pos hlen]; exact h
        · rw [if_neg hlen]
          have hm := clearMembers_consistent builtInRoles db.execErr
            (selectAfter db.less st.rows st.lastTeamID st.lastUserID 1000) st h
          cases hcm : clearMembers builtInRoles db.execErr
              (selectAfter db.less st.rows st.lastTeamID st.lastUserID 1000) st with
          | mk err st2 =>
            rw [hcm] at hm
            cases err with
            | some e => exact hm
            | none =>
              simp only
              cases db.commitErr with
              | some e => exact hm
              | none => exact ih st2 hm

theorem builtInRolesOnly_idem (builtInRoles : List String) (roles : String) :
    builtInRolesOnly builtInRoles (builtInRolesOnly builtInRoles roles) =
      builtInRolesOnly builtInRoles roles := by
  have h := Fields_builtInRolesOnly builtInRoles roles
  unfold builtInRolesOnly at h ⊢
  rw [h, List.filter_filter]
  simp

theorem RolesUpdate.apply_key (u : RolesUpdate) (rows : List teamMember) :
    (u.apply rows).map memberKey = rows.map memberKey := by
  unfold RolesUpdate.apply
  rw [List.map_map]
  apply List.map_congr_left
  intro r _
  simp only [Function.comp]
  split <;> rfl

theorem RolesUpdate.apply_withoutRoles (u : RolesUpdate) (rows : List teamMember) :
    (u.apply rows).map withoutRoles = rows.map withoutRoles := by
  unfold RolesUpdate.apply
  rw [List.map_map]
  apply List.map_congr_left
  intro r _
  simp only [Function.comp]
  split <;> rfl

theorem RolesUpdate.mem_apply (u : RolesUpdate) (rows : List teamMember) (r2 : teamMember)
    (h : r2 ∈ u.apply rows) :
    ∃ r ∈ rows, memberKey r2 = memberKey r ∧
      ((memberKey r = (u.TeamId, u.UserId) ∧ r2.Roles = u.Roles) ∨
       (memberKey r ≠ (u.TeamId, u.UserId) ∧ r2 = r)) := by
  unfold RolesUpdate.apply at h
  obtain ⟨r, hr, e⟩ := List.mem_map.1 h
  refine ⟨r, hr, ?_⟩
  by_cases hk : r.UserID = u.UserId ∧ r.TeamID = u.TeamId
  · rw [if_pos hk] at e
    subst e
    exact ⟨rfl, Or.inl ⟨by simp [memberKey, hk.1, hk.2], rfl⟩⟩
  · rw [if_neg hk] at e
    subst e
    refine ⟨rfl, Or.inr ⟨?_, rfl⟩⟩
    intro hke
    simp only [memberKey, Prod.mk.injEq] at hke
    exact hk ⟨hke.2, hke.1⟩

theorem clearMembers_cleared (builtInRoles : List String) (execErr : Option StoreErr)
    (members : List teamMember) : ∀ st : ClearState,
    (members.map memberKey).Nodup →
    (∀ m ∈ members, ∀ r ∈ st.rows, memberKey r = memberKey m → r.Roles = m.Roles) →
    st.Cleared builtInRoles →
    (clearMembers builtInRoles execErr members st).1 = none →
    (clearMembers builtInRoles execErr members st).2.Cleared builtInRoles ∧
    (clearMembers builtInRoles execErr members st).2.rows.map memberKey =
      st.rows.map memberKey ∧
    (clearMembers builtInRoles execErr members st).2.rows.map withoutRoles =
      st.rows.map withoutRoles := by
  induction members with
  | nil => intro st _ _ hc _; exact ⟨hc, rfl, rfl⟩
  | cons h members ih =>
    intro st hnd hmatch hc hres
    rw [List.map_cons, List.nodup_cons] at hnd
    obtain ⟨hnotin, hnd2⟩ := hnd
    have hrest_ne : ∀ m ∈ members, memberKey m ≠ memberKey h := by
      intro m hm e
      exact hnotin (e ▸ List.mem_map_of_mem memberKey hm)
    unfold clearMembers at hres ⊢
    by_cases hne : newRolesString builtInRoles h ≠ h.Roles
    · rw [if_pos hne] at hres ⊢
      cases execErr with
      | some err => simp at hres
      | none =>
        simp only at hres ⊢
        have hrows : (((st.visit h).issue (rolesUpdateFor builtInRoles h)).exec
            (rolesUpdateFor builtInRoles h)).rows =
            (rolesUpdateFor builtInRoles h).apply st.rows := rfl
        have hvis : (((st.visit h).issue (rolesUpdateFor builtInRoles h)).exec
            (rolesUpdateFor builtInRoles h)).visited = st.visited ++ [h] := rfl
        have hmatch2 : ∀ m ∈ members, ∀ r ∈ (((st.visit h).issue
            (rolesUpdateFor builtInRoles h)).exec (rolesUpdateFor builtInRoles h)).rows,
            memberKey r = memberKey m → r.Roles = m.Roles := by
          intro m hm r2 hr2 hk
          rw [hrows] at hr2
          obtain ⟨r, hr, hk2, hcase⟩ := RolesUpdate.mem_apply _ _ _ hr2
          rcases hcase with ⟨hkh, _⟩ | ⟨_, e⟩
          · exfalso
            apply hrest_ne m hm
            rw [← hk, hk2, hkh]; rfl
          · subst e
            exact hmatch m (List.mem_cons_of_mem _ hm) r2 hr hk
        have hc2 : ClearState.Cleared builtInRoles (((st.visit h).issue
            (rolesUpdateFor builtInRoles h)).exec (rolesUpdateFor builtInRoles h)) := by
          intro mb hmb r2 hr2 hk
          rw [hrows] at hr2
          rw [hvis] at hmb
          obtain ⟨r, hr, hk2, hcase⟩ := RolesUpdate.mem_apply _ _ _ hr2
          rcases hcase with ⟨hkh, hroles⟩ | ⟨hkh, e⟩
          · have hrk : memberKey r = memberKey h := hkh
            have hnew : r2.Roles = builtInRolesOnly builtInRoles h.Roles := by
              rw [hroles]; exact newRolesString_eq builtInRoles h
            rcases List.mem_append.1 hmb with hmb | hmb
            · have e1 := hc mb hmb r hr (by rw [← hk2, hk])
              have e2 := hmatch h (List.mem_cons_self _ _) r hr hrk
              rw [hnew, ← e2, e1, builtInRolesOnly_idem]
            · simp only [List.mem_singleton] at hmb
              subst hmb
              exact hnew
          · subst e
            rcases List.mem_append.1 hmb with hmb | hmb
            · exact hc mb hmb r2 hr hk
            · simp only [List.mem_singleton] at hmb
              subst hmb
              exact absurd hk hkh
        obtain ⟨i1, i2, i3⟩ := ih _ hnd2 hmatch2 hc2 hres
        refine ⟨i1, ?_, ?_⟩
        · rw [i2, hrows, RolesUpdate.apply_key]
        · rw [i3, hrows, RolesUpdate.apply_withoutRoles]
    · rw [if_neg hne] at hres ⊢
      have heq : newRolesString builtInRoles h = h.Roles := not_not.1 hne
      have hc2 : ClearState.Cleared builtInRoles (st.visit h) := by
        intro mb hmb r hr hk
        have hmb2 : mb ∈ st.visited ++ [h] := hmb
        have hr2 : r ∈ st.rows := hr
        rcases List.mem_append.1 hmb2 with hmb2 | hmb2
        · exact hc mb hmb2 r hr2 hk
        · simp only [List.mem_singleton] at hmb2
          subst hmb2
          rw [hmatch mb (List.mem_cons_self _ _) r hr2 hk, ← newRolesString_eq, heq]
      have hmatch2 : ∀ m ∈ members, ∀ r ∈ (st.visit h).rows,
          memberKey r = memberKey m → r.Roles = m.Roles :=
        fun m hm r hr hk => hmatch m (List.mem_cons_of_mem _ hm) r hr hk
      exact ih _ hnd2 hmatch2 hc2 hres

theorem selectAfter_nodup (less : String → String → Bool) (rows : List teamMember)
    (teamID userID : String) (limit : Nat) (h : (rows.map memberKey).Nodup) :
    ((selectAfter less rows teamID userID limit).map memberKey).Nodup := by
  unfold selectAfter
  have h1 : ((rows.filter (rowAfter less teamID userID)).map memberKey).Nodup :=
    List.Nodup.sublist ((List.filter_sublist rows).map memberKey) h
  have h2 : ((List.insertionSort (fun a b => keyLe less a b = true)
      (rows.filter (rowAfter less teamID userID))).map memberKey).Nodup :=
    (((List.perm_insertionSort _ _).map memberKey).nodup_iff).2 h1
  exact List.Nodup.sublist ((List.take_sublist _ _).map memberKey) h2

theorem clearLoop_begin_error (builtInRoles : List String) (db : TeamMembersDb) (fuel : Nat)
    (st : ClearState) (err : StoreErr) (h : db.beginErr = some err) :
    clearLoop builtInRoles db (fuel + 1) st =
      (some (.error (.Wrap err "begin_transaction")), st) := by
  simp only [clearLoop, h]

theorem clearLoop_select_error (builtInRoles : List String) (db : TeamMembersDb) (fuel : Nat)
    (st : ClearState) (err : StoreErr) (hb : db.beginErr = none) (h : db.selectErr = some err) :
    clearLoop builtInRoles db (fuel + 1) st =
      (some (.error (.Wrap err "failed to find TeamMembers")), st) := by
  simp only [clearLoop, hb, h]

theorem clearLoop_done (builtInRoles : List String) (db : TeamMembersDb) (fuel : Nat)
    (st : ClearState) (hb : db.beginErr = none) (hs : db.selectErr = none)
    (hlen : (selectAfter db.less st.rows st.lastTeamID st.lastUserID 1000).length = 0) :
    clearLoop builtInRoles db (fuel + 1) st = (some (.ok ()), st) := by
  simp only [clearLoop, hb, hs, hlen, if_true]

theorem clearLoop_exec_error (builtInRoles : List String) (db : TeamMembersDb) (fuel : Nat)
    (st st2 : ClearState) (err : StoreErr) (hb : db.beginErr = none) (hs : db.selectErr = none)
    (hlen : (selectAfter db.less st.rows st.lastTeamID st.lastUserID 1000).length ≠ 0)
    (hcm : clearMembers builtInRoles db.execErr
      (selectAfter db.less st.rows st.lastTeamID st.lastUserID 1000) st = (some err, st2)) :
    clearLoop builtInRoles db (fuel + 1) st =
      (some (.error err), { st2 with rows := st.rows }) := by
  simp only [clearLoop, hb, hs, if_neg hlen, hcm]

theorem clearLoop_commit_error (builtInRoles : List String) (db : TeamMembersDb) (fuel : Nat)
    (st st2 : ClearState) (err : StoreErr) (hb : db.beginErr = none) (hs : db.selectErr = none)
    (hlen : (selectAfter db.less st.rows st.lastTeamID st.lastUserID 1000).length ≠ 0)
    (hcm : clearMembers builtInRoles db.execErr
      (selectAfter db.less st.rows st.lastTeamID st.lastUserID 1000) st = (none, st2))
    (hc : db.commitErr = some err) :
    clearLoop builtInRoles db (fuel + 1) st =
      (some (.error (.Wrap err "commit_transaction")), { st2 with rows := st.rows }) := by
  simp only [clearLoop, hb, hs, if_neg hlen, hcm, hc]

theorem clearLoop_next (builtInRoles : List String) (db : TeamMembersDb) (fuel : Nat)
    (st st2 : ClearState) (hb : db.beginErr = none) (hs : db.selectErr = none)
    (hlen : (selectAfter db.less st.rows st.lastTeamID st.lastUserID 1000).length ≠ 0)
    (hcm : clearMembers builtInRoles db.execErr
      (selectAfter db.less st.rows st.lastTeamID st.lastUserID 1000) st = (none, st2))
    (hc : db.commitErr = none) :
    clearLoop builtInRoles db (fuel + 1) st = clearLoop builtInRoles db fuel st2 := by
  simp only [clearLoop, hb, hs, if_neg hlen, hcm, hc]

theorem clearLoop_cleared (builtInRoles : List String) (db : TeamMembersDb) (fuel : Nat) :
    ∀ st : ClearState, (st.rows.map memberKey).Nodup → st.Cleared builtInRoles →
    (clearLoop builtInRoles db fuel st).1 = some (.ok ()) →
    (clearLoop builtInRoles db fuel st).2.Cleared builtInRoles ∧
    (clearLoop builtInRoles db fuel st).2.rows.map withoutRoles = st.rows.map withoutRoles := by
  induction fuel with
  | zero => intro st _ _ hres; simp [clearLoop] at hres
  | succ fuel ih =>
    intro st hnd hc hres
    cases hb : db.beginErr with
    | some err =>
      rw [clearLoop_begin_error builtInRoles db fuel st err hb] at hres
      simp at hres
    | none =>
      cases hs : db.selectErr with
      | some err =>
        rw [clearLoop_select_error builtInRoles db fuel st err hb hs] at hres
        simp at hres
      | none =>
        by_cases hlen : (selectAfter db.less st.rows st.lastTeamID st.lastUserID 1000).length = 0
        · rw [clearLoop_done builtInRoles db fuel st hb hs hlen]
          exact ⟨hc, rfl⟩
        · have hbn := selectAfter_nodup db.less st.rows st.lastTeamID st.lastUserID 1000 hnd
          have hmatch : ∀ m ∈ selectAfter db.less st.rows st.lastTeamID st.lastUserID 1000,
              ∀ r ∈ st.rows, memberKey r = memberKey m → r.Roles = m.Roles := by
            intro m hm r hr hk
            have hmr := (selectAfter_mem db.less st.rows _ _ 1000 m hm).1
            rw [List.inj_on_of_nodup_map hnd hr hmr hk]
          have hcm := clearMembers_cleared builtInRoles db.execErr
            (selectAfter db.less st.rows st.lastTeamID st.lastUserID 1000) st hbn hmatch hc
          cases hcase : clearMembers builtInRoles db.execErr
              (selectAfter db.less st.rows st.lastTeamID st.lastUserID 1000) st with
          | mk err st2 =>
            rw [hcase] at hcm
            cases err with
            | some e =>
              rw [clearLoop_exec_error builtInRoles db fuel st st2 e hb hs hlen hcase] at hres
              simp at hres
            | none =>
              obtain ⟨c1, c2, c3⟩ := hcm rfl
              cases hcmt : db.commitErr with
              | some e =>
                rw [clearLoop_commit_error builtInRoles db fuel st st2 e hb hs hlen hcase
                  hcmt] at hres
                simp at hres
              | none =>
                rw [clearLoop_next builtInRoles db fuel st st2 hb hs hlen hcase hcmt] at hres ⊢
                have hnd2 : (st2.rows.map memberKey).Nodup := by rw [c2]; exact hnd
                obtain ⟨i1, i2⟩ := ih st2 hnd2 c1 hres
                exact ⟨i1, i2.trans c3⟩

/-- Witness of C17: one live and one deleted team; with a non-nil `opts` whose
fields are unset both are counted. -/
theorem analytics_team_count_witness :
    (⟨[⟨"t1", 0, "i1", true⟩, ⟨"t2", 5, "i2", false⟩], binaryCollation, none⟩ :
      TeamsDb).selectErr = none ∧
    AnalyticsTeamCount ⟨[⟨"t1", 0, "i1", true⟩, ⟨"t2", 5, "i2", false⟩], binaryCollation, none⟩
      (some ⟨none, none⟩) = .ok 2 ∧
    AnalyticsTeamCount ⟨[⟨"t1", 0, "i1", true⟩, ⟨"t2", 5, "i2", false⟩], binaryCollation, none⟩
      none = .ok 1 :=
  ⟨rfl,
   ((analytics_team_count
      ⟨[⟨"t1", 0, "i1", true⟩, ⟨"t2", 5, "i2", false⟩], binaryCollation, none⟩
      (some ⟨none, none⟩)).2.2 ⟨none, none⟩ rfl (by decide) rfl).2 rfl,
   rfl⟩

/-- Witness of C18: page 2 of 3 rows per page on a 64-bit platform. -/
theorem pagination_limit_offset_witness :
    InIntRange 64 3 ∧ (0 : Int) ≤ 2 ∧ (0 : Int) ≤ 3 ∧ InIntRange 64 (2 * 3) ∧
    (getTeamsForUserWithPaginationQuery 64 "user1" 2 3).Limit = some 3 ∧
    (getTeamsForUserWithPaginationQuery 64 "user1" 2 3).Offset = some 6 := by
  have r1 : InIntRange 64 3 := by unfold InIntRange; norm_num
  have r2 : InIntRange 64 (2 * 3) := by unfold InIntRange; norm_num
  obtain ⟨limit, offset, hl, hle, ho, hoe, _⟩ :=
    pagination_limit_offset mattermostModel 64 (Or.inr rfl) ⟨[], binaryCollation, none⟩ "user1"
      2 3 r1 (by decide) (by decide) r2
  have e1 : limit = 3 := by omega
  have e2 : offset = 6 := by omega
  subst e1 e2
  exact ⟨r1, by decide, by decide, r2, hl, ho⟩

/-! ### Enough fuel: the loop of `ClearAllCustomRoleAssignments` ends -/

theorem rowAfter_trans (less : String → String → Bool) (ho : StrictOrder less)
    (t u : String) (a b : teamMember) (h1 : rowAfter less t u a = true)
    (h2 : rowAfter less a.TeamID a.UserID b = true) : rowAfter less t u b = true := by
  obtain ⟨_, htr⟩ := ho
  simp only [rowAfter, Bool.or_eq_true, Bool.and_eq_true, beq_iff_eq] at h1 h2 ⊢
  rcases h1 with h1 | ⟨e1, h1⟩
  · rcases h2 with h2 | ⟨e2, _⟩
    · exact Or.inl (htr _ _ _ h1 h2)
    · exact Or.inl (e2 ▸ h1)
  · rcases h2 with h2 | ⟨e2, h2⟩
    · exact Or.inl (e1 ▸ h2)
    · exact Or.inr ⟨e1.trans e2, htr _ _ _ h1 h2⟩

theorem rowAfter_irrefl (less : String → String → Bool) (ho : StrictOrder less)
    (a : teamMember) : rowAfter less a.TeamID a.UserID a = false := by
  simp [rowAfter, ho.1]

theorem rowAfter_key (less : String → String → Bool) (t u : String) (a b : teamMember)
    (h : memberKey a = memberKey b) : rowAfter less t u a = rowAfter less t u b := by
  simp only [memberKey, Prod.mk.injEq] at h
  simp only [rowAfter, h.1, h.2]

theorem rowsAfter_key (less : String → String → Bool) (t u : String) (l1 : List teamMember) :
    ∀ l2 : List teamMember, l1.map memberKey = l2.map memberKey →
      rowsAfter less t u l1 = rowsAfter less t u l2 := by
  induction l1 with
  | nil =>
    intro l2 h
    cases l2 with
    | nil => rfl
    | cons b l2 => simp at h
  | cons a l1 ih =>
    intro l2 h
    cases l2 with
    | nil => simp at h
    | cons b l2 =>
      simp only [List.map_cons, List.cons.injEq] at h
      have e := rowAfter_key less t u a b h.1
      have i := ih l2 h.2
      unfold rowsAfter at i ⊢
      simp only [List.filter_cons, e]
      split <;> simp [i]

theorem filter_length_lt {α : Type} (p q : α → Bool) (l : List α)
    (hpq : ∀ x ∈ l, p x = true → q x = true) (x : α) (hx : x ∈ l) (hq : q x = true)
    (hp : p x = false) : (l.filter p).length < (l.filter q).length := by
  induction l with
  | nil => simp at hx
  | cons a l ih =>
    have hle : (l.filter p).length ≤ (l.filter q).length := by
      rw [← List.countP_eq_length_filter, ← List.countP_eq_length_filter]
      exact List.countP_mono_left (fun y hy => hpq y (List.mem_cons_of_mem _ hy))
    rcases List.mem_cons.1 hx with rfl | hx
    · simp only [List.filter_cons, hq, hp, if_true, Bool.false_eq_true, if_false,
        List.length_cons]
      omega
    · have i := ih (fun y hy => hpq y (List.mem_cons_of_mem _ hy)) hx
      cases hpa : p a with
      | true =>
        have hqa := hpq a (List.mem_cons_self _ _) hpa
        simp only [List.filter_cons, hpa, hqa, if_true, List.length_cons]
        omega
      | false =>
        cases hqa : q a with
        | true =>
          simp only [List.filter_cons, hpa, hqa, if_true, Bool.false_eq_true, if_false,
            List.length_cons]
          omega
        | false =>
          simp only [List.filter_cons, hpa, hqa, Bool.false_eq_true, if_false]
          exact i

theorem clearMembers_no_failure (builtInRoles : List String) (members : List teamMember) :
    ∀ st : ClearState,
    (clearMembers builtInRoles none members st).1 = none ∧
    (clearMembers builtInRoles none members st).2.rows.map memberKey = st.rows.map memberKey ∧
    (∀ last, members.getLast? = some last →
      (clearMembers builtInRoles none members st).2.lastTeamID = last.TeamID ∧
      (clearMembers builtInRoles none members st).2.lastUserID = last.UserID) ∧
    (members = [] → clearMembers builtInRoles none members st = (none, st)) := by
  induction members with
  | nil => intro st; exact ⟨rfl, rfl, fun last h => by simp at h, fun _ => rfl⟩
  | cons h members ih =>
    intro st
    have key : ∀ st2 : ClearState, st2.lastTeamID = h.TeamID → st2.lastUserID = h.UserID →
        st2.rows.map memberKey = st.rows.map memberKey →
        (clearMembers builtInRoles none members st2).1 = none ∧
        (clearMembers builtInRoles none members st2).2.rows.map memberKey =
          st.rows.map memberKey ∧
        (∀ last, (h :: members).getLast? = some last →
          (clearMembers builtInRoles none members st2).2.lastTeamID = last.TeamID ∧
          (clearMembers builtInRoles none members st2).2.lastUserID = last.UserID) := by
      intro st2 ht hu hk
      obtain ⟨i1, i2, i3, i4⟩ := ih st2
      refine ⟨i1, i2.trans hk, ?_⟩
      intro last hl
      cases members with
      | nil =>
        simp only [List.getLast?_singleton, Option.some.injEq] at hl
        subst hl
        rw [i4 rfl]
        exact ⟨ht, hu⟩
      | cons m ms =>
        rw [List.getLast?_cons_cons] at hl
        exact i3 last hl
    unfold clearMembers
    by_cases hne : newRolesString builtInRoles h ≠ h.Roles
    · rw [if_pos hne]
      obtain ⟨k1, k2, k3⟩ := key (((st.visit h).issue (rolesUpdateFor builtInRoles h)).exec
        (rolesUpdateFor builtInRoles h)) rfl rfl (RolesUpdate.apply_key _ _)
      exact ⟨k1, k2, k3, fun e => by simp at e⟩
    · rw [if_neg hne]
      obtain ⟨k1, k2, k3⟩ := key (st.visit h) rfl rfl rfl
      exact ⟨k1, k2, k3, fun e => by simp at e⟩

theorem clearLoop_terminates (builtInRoles : List String) (db : TeamMembersDb)
    (ho : StrictOrder db.less) (hb : db.beginErr = none) (hs : db.selectErr = none)
    (he : db.execErr = none) (hc : db.commitErr = none) (fuel : Nat) :
    ∀ st : ClearState, rowsAfter db.less st.lastTeamID st.lastUserID st.rows < fuel →
      (clearLoop builtInRoles db fuel st).1 = some (.ok ()) := by
  induction fuel with
  | zero => intro st h; exact absurd h (Nat.not_lt_zero _)
  | succ fuel ih =>
    intro st hlt
    by_cases hlen : (selectAfter db.less st.rows st.lastTeamID st.lastUserID 1000).length = 0
    · rw [clearLoop_done builtInRoles db fuel st hb hs hlen]
    · obtain ⟨c1, c2, c3, _⟩ := clearMembers_no_failure builtInRoles
        (selectAfter db.less st.rows st.lastTeamID st.lastUserID 1000) st
      have hcm : clearMembers builtInRoles db.execErr
          (selectAfter db.less st.rows st.lastTeamID st.lastUserID 1000) st =
          (none, (clearMembers builtInRoles none
            (selectAfter db.less st.rows st.lastTeamID st.lastUserID 1000) st).2) := by
        rw [he]
        exact Prod.ext c1 rfl
      rw [clearLoop_next builtInRoles db fuel st _ hb hs hlen hcm hc]
      apply ih
      -- the last member of the batch is the new cursor
      have hne : selectAfter db.less st.rows st.lastTeamID st.lastUserID 1000 ≠ [] :=
        fun e => hlen (by rw [e]; rfl)
      obtain ⟨last, hlast⟩ : ∃ last,
          (selectAfter db.less st.rows st.lastTeamID st.lastUserID 1000).getLast? = some last := by
        cases hg : (selectAfter db.less st.rows st.lastTeamID st.lastUserID 1000).getLast? with
        | none => exact absurd (List.getLast?_eq_none_iff.1 hg) hne
        | some last => exact ⟨last, rfl⟩
      obtain ⟨ct, cu⟩ := c3 last hlast
      obtain ⟨hmem, hafter⟩ := selectAfter_mem db.less st.rows _ _ 1000 last
        (List.mem_of_getLast?_eq_some hlast)
      rw [ct, cu, rowsAfter_key db.less last.TeamID last.UserID _ st.rows c2]
      have hdec : rowsAfter db.less last.TeamID last.UserID st.rows <
          rowsAfter db.less st.lastTeamID st.lastUserID st.rows := by
        unfold rowsAfter
        exact filter_length_lt _ _ st.rows
          (fun r _ hr => rowAfter_trans db.less ho _ _ last r hafter hr)
          last hmem hafter (rowAfter_irrefl db.less ho last)
      omega

/-! ### Every row that follows the initial cursor is processed -/

theorem rowAfter_asymm (less : String → String → Bool) (ho : StrictOrder less)
    (a b : teamMember) (h1 : rowAfter less a.TeamID a.UserID b = true) :
    rowAfter less b.TeamID b.UserID a = false := by
  cases h2 : rowAfter less b.TeamID b.UserID a with
  | false => rfl
  | true =>
    have h3 := rowAfter_trans less ho a.TeamID a.UserID b a h1 h2
    rw [rowAfter_irrefl less ho a] at h3
    cases h3

/-- Two rows neither of which follows the other have the same key. -/
theorem rowAfter_total (less : String → String → Bool) (ht : TotalOrder less)
    (a b : teamMember) (h1 : rowAfter less a.TeamID a.UserID b = false)
    (h2 : rowAfter less b.TeamID b.UserID a = false) : memberKey a = memberKey b := by
  simp only [rowAfter, Bool.or_eq_false_iff, Bool.and_eq_false_iff, beq_eq_false_iff_ne,
    ne_eq] at h1 h2
  obtain ⟨h1a, h1b⟩ := h1
  obtain ⟨h2a, h2b⟩ := h2
  have eT : a.TeamID = b.TeamID := by
    rcases ht a.TeamID b.TeamID with h | h | h
    · rw [h] at h1a; cases h1a
    · exact h
    · rw [h] at h2a; cases h2a
  have eU : a.UserID = b.UserID := by
    rcases ht a.UserID b.UserID with h | h | h
    · rcases h1b with h1b | h1b
      · exact absurd eT h1b
      · rw [h] at h1b; cases h1b
    · exact h
    · rcases h2b with h2b | h2b
      · exact absurd eT.symm h2b
      · rw [h] at h2b; cases h2b
  simp only [memberKey, eT, eU]

theorem keyLe_total (less : String → String → Bool) (ho : StrictOrder less)
    (a b : teamMember) : keyLe less a b = true ∨ keyLe less b a = true := by
  cases h : rowAfter less b.TeamID b.UserID a with
  | false => left; simp [keyLe, h]
  | true => right; simp [keyLe, rowAfter_asymm less ho b a h]

theorem keyLe_trans (less : String → String → Bool) (ho : StrictOrder less)
    (ht : TotalOrder less) (a b c : teamMember) (h1 : keyLe less a b = true)
    (h2 : keyLe less b c = true) : keyLe less a c = true := by
  simp only [keyLe, Bool.not_eq_true'] at h1 h2 ⊢
  cases h3 : rowAfter less c.TeamID c.UserID a with
  | false => rfl
  | true =>
    exfalso
    cases h4 : rowAfter less a.TeamID a.UserID b with
    | true =>
      have := rowAfter_trans less ho c.TeamID c.UserID a b h3 h4
      rw [h2] at this
      cases this
    | false =>
      have hk := rowAfter_total less ht a b h4 h1
      rw [rowAfter_key less c.TeamID c.UserID a b hk, h2] at h3
      cases h3

theorem selectAfter_sorted (less : String → String → Bool) (ho : StrictOrder less)
    (ht : TotalOrder less) (l : List teamMember) :
    List.Pairwise (fun a b => keyLe less a b = true)
      (List.insertionSort (fun a b => keyLe less a b = true) l) := by
  haveI : IsTotal teamMember (fun a b => keyLe less a b = true) :=
    ⟨fun a b => keyLe_total less ho a b⟩
  haveI : IsTrans teamMember (fun a b => keyLe less a b = true) :=
    ⟨fun a b c => keyLe_trans less ho ht a b c⟩
  exact List.sorted_insertionSort (fun a b => keyLe less a b = true) l

/-- The rows of a batch: those that follow the cursor and do not follow the
last member of the batch. -/
theorem selectAfter_mem_iff (less : String → String → Bool) (ho : StrictOrder less)
    (ht : TotalOrder less) (rows : List teamMember) (hnd : (rows.map memberKey).Nodup)
    (t u : String) (limit : Nat) (last : teamMember)
    (hlast : (selectAfter less rows t u limit).getLast? = some last) :
    ∀ r ∈ rows, (memberKey r ∈ (selectAfter less rows t u limit).map memberKey ↔
      (rowAfter less t u r = true ∧ rowAfter less last.TeamID last.UserID r = false)) := by
  have hsort := selectAfter_sorted less ho ht (rows.filter (rowAfter less t u))
  have hperm := List.perm_insertionSort (fun a b => keyLe less a b = true)
    (rows.filter (rowAfter less t u))
  have hSnd : ((List.insertionSort (fun a b => keyLe less a b = true)
      (rows.filter (rowAfter less t u))).map memberKey).Nodup :=
    ((hperm.map memberKey).nodup_iff).2
      (List.Nodup.sublist ((List.filter_sublist rows).map memberKey) hnd)
  have hsplit := List.take_append_drop limit (List.insertionSort
    (fun a b => keyLe less a b = true) (rows.filter (rowAfter less t u)))
  rw [← hsplit] at hsort hSnd
  rw [List.pairwise_append] at hsort
  rw [List.map_append, List.nodup_append] at hSnd
  obtain ⟨hs1, _, hs3⟩ := hsort
  obtain ⟨_, _, hdisj⟩ := hSnd
  obtain ⟨ys, hys⟩ := List.getLast?_eq_some_iff.1 hlast
  have hlastmem : last ∈ selectAfter less rows t u limit := by
    rw [hys]; simp
  have hin : ∀ m ∈ selectAfter less rows t u limit,
      rowAfter less last.TeamID last.UserID m = false := by
    intro m hm
    rw [hys] at hm
    rcases List.mem_append.1 hm with hm | hm
    · have hp : List.Pairwise (fun a b => keyLe less a b = true) (ys ++ [last]) := by
        rw [← hys]; exact hs1
      rw [List.pairwise_append] at hp
      have := hp.2.2 m hm last (List.mem_singleton_self _)
      simpa [keyLe] using this
    · rw [List.mem_singleton] at hm
      subst hm
      exact rowAfter_irrefl less ho m
  intro r hr
  constructor
  · intro hk
    obtain ⟨m, hm, hkm⟩ := List.mem_map.1 hk
    have h1 := (selectAfter_mem less rows t u limit m hm).2
    rw [rowAfter_key less t u r m hkm.symm, rowAfter_key less _ _ r m hkm.symm]
    exact ⟨h1, hin m hm⟩
  · rintro ⟨h1, h2⟩
    have hS : r ∈ List.insertionSort (fun a b => keyLe less a b = true)
        (rows.filter (rowAfter less t u)) :=
      hperm.mem_iff.2 (List.mem_filter.2 ⟨hr, h1⟩)
    rw [← hsplit] at hS
    rcases List.mem_append.1 hS with hS | hS
    · exact List.mem_map_of_mem memberKey hS
    · exfalso
      have h3 := hs3 last hlastmem r hS
      have h4 : rowAfter less r.TeamID r.UserID last = false := by
        simpa [keyLe] using h3
      have hk := rowAfter_total less ht last r h2 h4
      exact hdisj (List.mem_map_of_mem memberKey hlastmem) (hk ▸ List.mem_map_of_mem memberKey hS)

theorem clearRow_key (builtInRoles : List String) (r : teamMember) :
    memberKey (clearRow builtInRoles r) = memberKey r := rfl

/-- Effect of one batch without driver failure: the rows with the key of a
member of the batch are left as the documentation says, the others are as
they were, and the members are visited in order. -/
theorem clearMembers_rows (builtInRoles : List String) (members : List teamMember) :
    ∀ st : ClearState, (members.map memberKey).Nodup →
    (∀ m ∈ members, ∀ r ∈ st.rows, memberKey r = memberKey m → r.Roles = m.Roles) →
    (clearMembers builtInRoles none members st).2.rows =
      st.rows.map (fun r => if memberKey r ∈ members.map memberKey then
        clearRow builtInRoles r else r) ∧
    (clearMembers builtInRoles none members st).2.visited = st.visited ++ members := by
  induction members with
  | nil =>
    intro st _ _
    simp [clearMembers]
  | cons h members ih =>
    intro st hnd hmatch
    rw [List.map_cons, List.nodup_cons] at hnd
    obtain ⟨hnotin, hnd2⟩ := hnd
    unfold clearMembers
    by_cases hne : newRolesString builtInRoles h ≠ h.Roles
    · rw [if_pos hne]
      simp only
      have hrows : (((st.visit h).issue (rolesUpdateFor builtInRoles h)).exec
          (rolesUpdateFor builtInRoles h)).rows =
          st.rows.map (fun r => if memberKey r = memberKey h then
            clearRow builtInRoles r else r) := by
        show (rolesUpdateFor builtInRoles h).apply st.rows = _
        unfold RolesUpdate.apply
        apply List.map_congr_left
        intro r hr
        by_cases hk : memberKey r = memberKey h
        · have hk2 : r.UserID = (rolesUpdateFor builtInRoles h).UserId ∧
              r.TeamID = (rolesUpdateFor builtInRoles h).TeamId := by
            simp only [memberKey, Prod.mk.injEq] at hk
            exact ⟨hk.2, hk.1⟩
          rw [if_pos hk2, if_pos hk]
          have e := hmatch h (List.mem_cons_self _ _) r hr hk
          show { r with Roles := newRolesString builtInRoles h } = clearRow builtInRoles r
          rw [newRolesString_eq, ← e]
          rfl
        · have hk2 : ¬ (r.UserID = (rolesUpdateFor builtInRoles h).UserId ∧
              r.TeamID = (rolesUpdateFor builtInRoles h).TeamId) := by
            intro hh
            apply hk
            simp only [memberKey, Prod.mk.injEq]
            exact ⟨hh.2, hh.1⟩
          rw [if_neg hk2, if_neg hk]
      have hmatch2 : ∀ m ∈ members, ∀ r ∈ (((st.visit h).issue
          (rolesUpdateFor builtInRoles h)).exec (rolesUpdateFor builtInRoles h)).rows,
          memberKey r = memberKey m → r.Roles = m.Roles := by
        intro m hm r2 hr2 hk
        rw [hrows] at hr2
        obtain ⟨r, hr, e⟩ := List.mem_map.1 hr2
        by_cases hkh : memberKey r = memberKey h
        · rw [if_pos hkh] at e
          exfalso
          apply hnotin
          rw [← hkh, ← clearRow_key builtInRoles r, e, hk]
          exact List.mem_map_of_mem memberKey hm
        · rw [if_neg hkh] at e
          subst e
          exact hmatch m (List.mem_cons_of_mem _ hm) r hr hk
      obtain ⟨i1, i2⟩ := ih _ hnd2 hmatch2
      refine ⟨?_, ?_⟩
      · rw [i1, hrows, List.map_map]
        apply List.map_congr_left
        intro r hr
        simp only [Function.comp, List.map_cons, List.mem_cons]
        by_cases hkh : memberKey r = memberKey h
        · rw [if_pos hkh, if_pos (Or.inl hkh), clearRow_key, if_neg]
          rw [hkh]; exact hnotin
        · rw [if_neg hkh]
          by_cases hin : memberKey r ∈ members.map memberKey
          · rw [if_pos hin, if_pos (Or.inr hin)]
          · rw [if_neg hin, if_neg]
            rintro (h1 | h1)
            · exact hkh h1
            · exact hin h1
      · rw [i2]
        show (st.visited ++ [h]) ++ members = st.visited ++ h :: members
        simp
    · rw [if_neg hne]
      have heq : newRolesString builtInRoles h = h.Roles := not_not.1 hne
      have hmatch2 : ∀ m ∈ members, ∀ r ∈ (st.visit h).rows,
          memberKey r = memberKey m → r.Roles = m.Roles :=
        fun m hm r hr hk => hmatch m (List.mem_cons_of_mem _ hm) r hr hk
      obtain ⟨i1, i2⟩ := ih _ hnd2 hmatch2
      refine ⟨?_, ?_⟩
      · rw [i1]
        show st.rows.map _ = st.rows.map _
        apply List.map_congr_left
        intro r hr
        simp only [List.map_cons, List.mem_cons]
        by_cases hkh : memberKey r = memberKey h
        · have hno : memberKey r ∉ members.map memberKey := by rw [hkh]; exact hnotin
          rw [if_neg hno, if_pos (Or.inl hkh)]
          have e := hmatch h (List.mem_cons_self _ _) r hr hkh
          show r = { r with Roles := builtInRolesOnly builtInRoles r.Roles }
          rw [e, ← newRolesString_eq, heq, ← e]
        · by_cases hin : memberKey r ∈ members.map memberKey
          · rw [if_pos hin, if_pos (Or.inr hin)]
          · rw [if_neg hin, if_neg]
            rintro (h1 | h1)
            · exact hkh h1
            · exact hin h1
      · rw [i2]
        show (st.visited ++ [h]) ++ members = st.visited ++ h :: members
        simp

theorem clearLoop_step_row (builtInRoles : List String) (P A A2 : Bool) (inM : Prop)
    [Decidable inM] (r : teamMember) (hchar : inM ↔ (A = true ∧ A2 = false))
    (hAP : A = true → P = true) (hmono : A2 = true → A = true) :
    (if inM then clearRow builtInRoles (if (P && !A) = true then clearRow builtInRoles r else r)
      else (if (P && !A) = true then clearRow builtInRoles r else r)) =
      if (P && !A2) = true then clearRow builtInRoles r else r := by
  cases A with
  | true =>
    have hP := hAP rfl
    subst hP
    cases A2 with
    | true =>
      have hno : ¬ inM := fun h => by have := (hchar.1 h).2; cases this
      simp [hno]
    | false =>
      have hyes : inM := hchar.2 ⟨rfl, rfl⟩
      simp [hyes]
  | false =>
    have hA2 : A2 = false := by
      cases A2 with
      | false => rfl
      | true => exact absurd (hmono rfl) (by simp)
    subst hA2
    have hno : ¬ inM := fun h => by have := (hchar.1 h).1; cases this
    simp [hno]

/-- The loop of `ClearAllCustomRoleAssignments` from a state in which exactly
the rows between the initial cursor and the cursor are processed: with enough
fuel it returns nil, and then exactly the rows that follow the initial cursor
are processed and visited. -/
theorem clearLoop_all (builtInRoles : List String) (db : TeamMembersDb) (R : List teamMember)
    (ho : StrictOrder db.less) (ht : TotalOrder db.less) (hR : (R.map memberKey).Nodup)
    (hb : db.beginErr = none) (hs : db.selectErr = none)
    (he : db.execErr = none) (hc : db.commitErr = none) (fuel : Nat) :
    ∀ st : ClearState,
      st.rows = R.map (fun r => if (afterInitialCursor db.less r &&
        !rowAfter db.less st.lastTeamID st.lastUserID r) = true then
          clearRow builtInRoles r else r) →
      (∀ r : teamMember, rowAfter db.less st.lastTeamID st.lastUserID r = true →
        afterInitialCursor db.less r = true) →
      (∀ m, m ∈ st.visited ↔ (m ∈ R ∧ afterInitialCursor db.less m = true ∧
        rowAfter db.less st.lastTeamID st.lastUserID m = false)) →
      rowsAfter db.less st.lastTeamID st.lastUserID st.rows < fuel →
      (clearLoop builtInRoles db fuel st).1 = some (.ok ()) ∧
      (clearLoop builtInRoles db fuel st).2.rows =
        R.map (fun r => if afterInitialCursor db.less r = true then
          clearRow builtInRoles r else r) ∧
      (∀ m, m ∈ (clearLoop builtInRoles db fuel st).2.visited ↔
        (m ∈ R ∧ afterInitialCursor db.less m = true)) := by
  induction fuel with
  | zero => intro st _ _ _ h; exact absurd h (Nat.not_lt_zero _)
  | succ fuel ih =>
    intro st h1 h2 h3 hlt
    have hfkey : ∀ r : teamMember, memberKey (if (afterInitialCursor db.less r &&
        !rowAfter db.less st.lastTeamID st.lastUserID r) = true then
          clearRow builtInRoles r else r) = memberKey r := by
      intro r; split <;> rfl
    have hkeys : st.rows.map memberKey = R.map memberKey := by
      rw [h1, List.map_map]
      apply List.map_congr_left
      intro r _
      exact hfkey r
    have hnd : (st.rows.map memberKey).Nodup := by rw [hkeys]; exact hR
    have hfmem : ∀ r ∈ R, (if (afterInitialCursor db.less r &&
        !rowAfter db.less st.lastTeamID st.lastUserID r) = true then
          clearRow builtInRoles r else r) ∈ st.rows := by
      intro r hr
      rw [h1]
      exact List.mem_map_of_mem _ hr
    by_cases hlen : (selectAfter db.less st.rows st.lastTeamID st.lastUserID 1000).length = 0
    · rw [clearLoop_done builtInRoles db fuel st hb hs hlen]
      have hnone : ∀ r ∈ R, rowAfter db.less st.lastTeamID st.lastUserID r = false := by
        intro r hr
        have hsel : selectAfter db.less st.rows st.lastTeamID st.lastUserID 1000 = [] :=
          List.length_eq_zero.1 hlen
        unfold selectAfter at hsel
        rcases List.take_eq_nil_iff.1 hsel with h0 | h0
        · exact absurd h0 (by norm_num)
        · have hF : st.rows.filter (rowAfter db.less st.lastTeamID st.lastUserID) = [] := by
            have hl := (List.perm_insertionSort (fun a b => keyLe db.less a b = true)
              (st.rows.filter (rowAfter db.less st.lastTeamID st.lastUserID))).length_eq
            rw [h0] at hl
            exact List.length_eq_zero.1 hl.symm
          have hx := List.filter_eq_nil_iff.1 hF _ (hfmem r hr)
          rw [rowAfter_key db.less _ _ _ r (hfkey r)] at hx
          simpa using hx
      refine ⟨rfl, ?_, ?_⟩
      · show st.rows = _
        rw [h1]
        apply List.map_congr_left
        intro r hr
        rw [hnone r hr]
        simp
      · intro m
        show m ∈ st.visited ↔ _
        rw [h3]
        constructor
        · rintro ⟨a, b, _⟩; exact ⟨a, b⟩
        · rintro ⟨a, b⟩; exact ⟨a, b, hnone m a⟩
    · obtain ⟨c1, c2, c3, _⟩ := clearMembers_no_failure builtInRoles
        (selectAfter db.less st.rows st.lastTeamID st.lastUserID 1000) st
      have hcm : clearMembers builtInRoles db.execErr
          (selectAfter db.less st.rows st.lastTeamID st.lastUserID 1000) st =
          (none, (clearMembers builtInRoles none
            (selectAfter db.less st.rows st.lastTeamID st.lastUserID 1000) st).2) := by
        rw [he]
        exact Prod.ext c1 rfl
      rw [clearLoop_next builtInRoles db fuel st _ hb hs hlen hcm hc]
      have hbn := selectAfter_nodup db.less st.rows st.lastTeamID st.lastUserID 1000 hnd
      have hmatch : ∀ m ∈ selectAfter db.less st.rows st.lastTeamID st.lastUserID 1000,
          ∀ r ∈ st.rows, memberKey r = memberKey m → r.Roles = m.Roles := by
        intro m hm r hr hk
        have hmr := (selectAfter_mem db.less st.rows _ _ 1000 m hm).1
        rw [List.inj_on_of_nodup_map hnd hr hmr hk]
      obtain ⟨r1, r2⟩ := clearMembers_rows builtInRoles
        (selectAfter db.less st.rows st.lastTeamID st.lastUserID 1000) st hbn hmatch
      have hne : selectAfter db.less st.rows st.lastTeamID st.lastUserID 1000 ≠ [] :=
        fun e => hlen (by rw [e]; rfl)
      obtain ⟨last, hlast⟩ : ∃ last,
          (selectAfter db.less st.rows st.lastTeamID st.lastUserID 1000).getLast? = some last := by
        cases hg : (selectAfter db.less st.rows st.lastTeamID st.lastUserID 1000).getLast? with
        | none => exact absurd (List.getLast?_eq_none_iff.1 hg) hne
        | some last => exact ⟨last, rfl⟩
      obtain ⟨ct, cu⟩ := c3 last hlast
      obtain ⟨hmem, hafter⟩ := selectAfter_mem db.less st.rows _ _ 1000 last
        (List.mem_of_getLast?_eq_some hlast)
      have hchar := selectAfter_mem_iff db.less ho ht st.rows hnd st.lastTeamID st.lastUserID
        1000 last hlast
      have hmono : ∀ r : teamMember, rowAfter db.less last.TeamID last.UserID r = true →
          rowAfter db.less st.lastTeamID st.lastUserID r = true :=
        fun r hr => rowAfter_trans db.less ho _ _ last r hafter hr
      have hcharR : ∀ r ∈ R, (memberKey r ∈
          (selectAfter db.less st.rows st.lastTeamID st.lastUserID 1000).map memberKey ↔
          (rowAfter db.less st.lastTeamID st.lastUserID r = true ∧
            rowAfter db.less last.TeamID last.UserID r = false)) := by
        intro r hr
        have := hchar _ (hfmem r hr)
        rw [hfkey r, rowAfter_key db.less _ _ _ r (hfkey r),
          rowAfter_key db.less last.TeamID last.UserID _ r (hfkey r)] at this
        exact this
      apply ih
      · rw [r1, ct, cu]
        refine (congrArg (List.map _) h1).trans ?_
        rw [List.map_map]
        apply List.map_congr_left
        intro r hr
        simp only [Function.comp]
        rw [hfkey r]
        exact clearLoop_step_row builtInRoles _ _ _ _ r (hcharR r hr) (h2 r) (hmono r)
      · intro r hr
        rw [ct, cu] at hr
        exact h2 r (hmono r hr)
      · intro m
        rw [r2, List.mem_append, h3, ct, cu]
        constructor
        · rintro (⟨a, b, c⟩ | hm)
          · refine ⟨a, b, ?_⟩
            cases hx : rowAfter db.less last.TeamID last.UserID m with
            | false => rfl
            | true => rw [hmono m hx] at c; cases c
          · obtain ⟨hmr, hmA⟩ := selectAfter_mem db.less st.rows _ _ 1000 m hm
            have hmR : m ∈ R := by
              rw [h1] at hmr
              obtain ⟨r, hr, e⟩ := List.mem_map.1 hmr
              have hk : memberKey m = memberKey r := by rw [← e]; exact hfkey r
              have hAr : rowAfter db.less st.lastTeamID st.lastUserID r = true := by
                rw [← rowAfter_key db.less _ _ m r hk]; exact hmA
              rw [hAr] at e
              simp at e
              rw [← e]; exact hr
            refine ⟨hmR, h2 m hmA, ?_⟩
            exact ((hcharR m hmR).1 (List.mem_map_of_mem memberKey hm)).2
        · rintro ⟨a, b, c⟩
          cases hA : rowAfter db.less st.lastTeamID st.lastUserID m with
          | false => exact Or.inl ⟨a, b, rfl⟩
          | true =>
            right
            have hin := (hcharR m a).2 ⟨hA, c⟩
            obtain ⟨m2, hm2, hk⟩ := List.mem_map.1 hin
            have hm2r := (selectAfter_mem db.less st.rows _ _ 1000 m2 hm2).1
            have hmr : m ∈ st.rows := by
              have := hfmem m a
              rw [hA] at this
              simpa using this
            rw [← List.inj_on_of_nodup_map hnd hm2r hmr hk]
            exact hm2
      · rw [ct, cu, rowsAfter_key db.less last.TeamID last.UserID _ st.rows c2]
        have hdec : rowsAfter db.less last.TeamID last.UserID st.rows <
            rowsAfter db.less st.lastTeamID st.lastUserID st.rows := by
          unfold rowsAfter
          exact filter_length_lt _ _ st.rows
            (fun r _ hr => rowAfter_trans db.less ho _ _ last r hafter hr)
            last hmem hafter (rowAfter_irrefl db.less ho last)
        omega

/-! ### The code-point order of the examples is a strict total order -/

theorem codePointLess_irrefl : ∀ a : List Char, codePointLess a a = false
  | [] => rfl
  | c :: cs => by simp [codePointLess, codePointLess_irrefl cs]

theorem codePointLess_trans : ∀ a b c : List Char, codePointLess a b = true →
    codePointLess b c = true → codePointLess a c = true
  | _, _, [], _, h2 => by simp [codePointLess] at h2
  | _, [], _ :: _, h1, _ => by simp [codePointLess] at h1
  | [], _ :: _, _ :: _, _, _ => rfl
  | a :: as, b :: bs, c :: cs, h1, h2 => by
    simp only [codePointLess, Bool.or_eq_true, Bool.and_eq_true, decide_eq_true_eq,
      beq_iff_eq] at h1 h2 ⊢
    rcases h1 with h1 | ⟨e1, h1⟩
    · rcases h2 with h2 | ⟨e2, _⟩
      · exact Or.inl (by omega)
      · exact Or.inl (by omega)
    · rcases h2 with h2 | ⟨e2, h2⟩
      · exact Or.inl (by omega)
      · exact Or.inr ⟨by omega, codePointLess_trans as bs cs h1 h2⟩

theorem codePointLess_total : ∀ a b : List Char,
    codePointLess a b = true ∨ a = b ∨ codePointLess b a = true
  | [], [] => Or.inr (Or.inl rfl)
  | [], _ :: _ => Or.inl rfl
  | _ :: _, [] => Or.inr (Or.inr rfl)
  | a :: as, b :: bs => by
    simp only [codePointLess, Bool.or_eq_true, Bool.and_eq_true, decide_eq_true_eq,
      beq_iff_eq, List.cons.injEq]
    rcases Nat.lt_trichotomy a.toNat b.toNat with h | h | h
    · exact Or.inl (Or.inl h)
    · have hab : a = b := by rw [← Char.ofNat_toNat a, ← Char.ofNat_toNat b, h]
      rcases codePointLess_total as bs with i | i | i
      · exact Or.inl (Or.inr ⟨h, i⟩)
      · exact Or.inr (Or.inl ⟨hab, i⟩)
      · exact Or.inr (Or.inr (Or.inr ⟨h.symm, i⟩))
    · exact Or.inr (Or.inr (Or.inl h))

theorem exampleMembersDb_order (rows : List teamMember) :
    StrictOrder (exampleMembersDb rows).less ∧ TotalOrder (exampleMembersDb rows).less := by
  refine ⟨⟨fun a => codePointLess_irrefl a.data,
    fun a b c h1 h2 => codePointLess_trans a.data b.data c.data h1 h2⟩, ?_⟩
  intro a b
  rcases codePointLess_total a.data b.data with h | h | h
  · exact Or.inl h
  · exact Or.inr (Or.inl (String.ext h))
  · exact Or.inr (Or.inr h)

/-- C14.  (1) The string `ClearAllCustomRoleAssignments` computes for a member
is the single-space join of exactly those whitespace-separated tokens of the
member's `Roles` that are names of built-in roles, in their original order;
its own tokens are those tokens.  (2) In every run, whatever the driver
answers and however far the run gets, every update statement issued is for a
visited member, with the member's key and that string, and the string differs
from the member's `Roles`; and for every visited member whose string differs
the update statement is issued.  (3) When `(TeamId, UserId)` is a key of the
table and the run returns nil, every visited member's row is left with that
string as its `Roles`, and no other column of any row is changed.  (4) When
the driver does not fail and the string order is a strict order, a run with
more fuel than the table has rows returns nil.  (5) All rows are processed:
when moreover the string order is total and `(TeamId, UserId)` is a key of
the table, that run visits exactly the rows of the table whose key follows
the cursor the method starts with, `(strings.Repeat("0", 26),
strings.Repeat("0", 26))`, each as it is in the table, and the table it
leaves is the table with the `Roles` of each of these rows replaced by the
join of its built-in tokens, whatever the number of batches; a row whose key
does not follow that cursor is never selected and is left as it is.  So when
the key of every row follows that cursor, every row of the table is left with
the join of its built-in tokens and every token of every `Roles` that is left
is the name of a built-in role: no custom role assignment remains. -/
theorem clear_all_custom_role_assignments (builtInRoles : List String) (db : TeamMembersDb)
    (fuel : Nat) :
    (∀ member : teamMember,
      newRolesString builtInRoles member =
        Join ((Fields member.Roles).filter (fun role => decide (role ∈ builtInRoles))) " " ∧
      Fields (newRolesString builtInRoles member) =
        (Fields member.Roles).filter (fun role => decide (role ∈ builtInRoles))) ∧
    ((∀ u ∈ (ClearAllCustomRoleAssignments builtInRoles db fuel).2.updates,
        ∃ member ∈ (ClearAllCustomRoleAssignments builtInRoles db fuel).2.visited,
          u.TeamId = member.TeamID ∧ u.UserId = member.UserID ∧
          u.Roles = newRolesString builtInRoles member ∧
          newRolesString builtInRoles member ≠ member.Roles) ∧
     (∀ member ∈ (ClearAllCustomRoleAssignments builtInRoles db fuel).2.visited,
        newRolesString builtInRoles member ≠ member.Roles →
        ({ Roles := newRolesString builtInRoles member, TeamId := member.TeamID,
           UserId := member.UserID } : RolesUpdate) ∈
          (ClearAllCustomRoleAssignments builtInRoles db fuel).2.updates)) ∧
    ((db.rows.map memberKey).Nodup →
      (ClearAllCustomRoleAssignments builtInRoles db fuel).1 = some (.ok ()) →
      (∀ member ∈ (ClearAllCustomRoleAssignments builtInRoles db fuel).2.visited,
        ∀ r ∈ (ClearAllCustomRoleAssignments builtInRoles db fuel).2.rows,
          r.TeamID = member.TeamID → r.UserID = member.UserID →
          r.Roles = newRolesString builtInRoles member) ∧
      (ClearAllCustomRoleAssignments builtInRoles db fuel).2.rows.map withoutRoles =
        db.rows.map withoutRoles) ∧
    (StrictOrder db.less → db.beginErr = none → db.selectErr = none → db.execErr = none →
      db.commitErr = none → db.rows.length < fuel →
      (ClearAllCustomRoleAssignments builtInRoles db fuel).1 = some (.ok ())) ∧
    (StrictOrder db.less → TotalOrder db.less → (db.rows.map memberKey).Nodup →
      db.beginErr = none → db.selectErr = none → db.execErr = none →
      db.commitErr = none → db.rows.length < fuel →
      (ClearAllCustomRoleAssignments builtInRoles db fuel).1 = some (.ok ()) ∧
      (∀ m, m ∈ (ClearAllCustomRoleAssignments builtInRoles db fuel).2.visited ↔
        (m ∈ db.rows ∧ afterInitialCursor db.less m = true)) ∧
      (ClearAllCustomRoleAssignments builtInRoles db fuel).2.rows =
        db.rows.map (fun r => if afterInitialCursor db.less r = true then
          { r with Roles := newRolesString builtInRoles r } else r) ∧
      ((∀ r ∈ db.rows, afterInitialCursor db.less r = true) →
        (ClearAllCustomRoleAssignments builtInRoles db fuel).2.rows =
          db.rows.map (fun r => { r with Roles := newRolesString builtInRoles r }) ∧
        (∀ r ∈ (ClearAllCustomRoleAssignments builtInRoles db fuel).2.rows,
          ∀ role ∈ Fields r.Roles, role ∈ builtInRoles))) := by
  refine ⟨fun member => ?_, ?_, ?_, ?_, ?_⟩
  · have h := newRolesString_eq builtInRoles member
    refine ⟨h, ?_⟩
    rw [h]; exact Fields_builtInRolesOnly builtInRoles member.Roles
  · have hc := clearLoop_consistent builtInRoles db fuel
      { rows := db.rows, lastUserID := Repeat '0' 26, lastTeamID := Repeat '0' 26,
        visited := [], updates := [] }
      ⟨fun u hu => by simp at hu, fun mb hmb => by simp at hmb⟩
    obtain ⟨h1, h2⟩ := hc
    refine ⟨fun u hu => ?_, fun mb hmb hd => h2 mb hmb hd⟩
    obtain ⟨mb, hmb, e, hd⟩ := h1 u hu
    exact ⟨mb, hmb, by rw [e]; rfl, by rw [e]; rfl, by rw [e]; rfl, hd⟩
  · intro hnd hres
    obtain ⟨h1, h2⟩ := clearLoop_cleared builtInRoles db fuel
      { rows := db.rows, lastUserID := Repeat '0' 26, lastTeamID := Repeat '0' 26,
        visited := [], updates := [] } hnd (fun mb hmb => by simp at hmb) hres
    refine ⟨fun mb hmb r hr ht hu => ?_, h2⟩
    rw [newRolesString_eq]
    exact h1 mb hmb r hr (by simp [memberKey, ht, hu])
  · intro ho hb hs he hc hlt
    apply clearLoop_terminates builtInRoles db ho hb hs he hc fuel
    exact lt_of_le_of_lt (List.length_filter_le _ _) hlt
  · intro ho ht hnd hb hs he hc hlt
    have hrow : ∀ r : teamMember, { r with Roles := newRolesString builtInRoles r } =
        clearRow builtInRoles r := by
      intro r
      rw [newRolesString_eq]
      rfl
    obtain ⟨k1, k2, k3⟩ := clearLoop_all builtInRoles db db.rows ho ht hnd hb hs he hc fuel
      { rows := db.rows, lastUserID := Repeat '0' 26, lastTeamID := Repeat '0' 26,
        visited := [], updates := [] }
      (by
        show db.rows = db.rows.map _
        conv_lhs => rw [← List.map_id db.rows]
        apply List.map_congr_left
        intro r _
        show r = if (afterInitialCursor db.less r &&
          !rowAfter db.less (Repeat '0' 26) (Repeat '0' 26) r) = true then _ else r
        have : (afterInitialCursor db.less r &&
            !rowAfter db.less (Repeat '0' 26) (Repeat '0' 26) r) = false := by
          unfold afterInitialCursor
          cases rowAfter db.less (Repeat '0' 26) (Repeat '0' 26) r <;> rfl
        rw [this]
        rfl)
      (fun r hr => hr)
      (by
        intro m
        show m ∈ ([] : List teamMember) ↔ _
        constructor
        · intro h; cases h
        · rintro ⟨_, h1, h2⟩
          have h3 : rowAfter db.less (Repeat '0' 26) (Repeat '0' 26) m = false := h2
          unfold afterInitialCursor at h1
          rw [h3] at h1
          cases h1)
      (lt_of_le_of_lt (List.length_filter_le _ _) hlt)
    have hrows : (ClearAllCustomRoleAssignments builtInRoles db fuel).2.rows =
        db.rows.map (fun r => if afterInitialCursor db.less r = true then
          { r with Roles := newRolesString builtInRoles r } else r) := by
      refine k2.trans ?_
      apply List.map_congr_left
      intro r _
      rw [hrow r]
    refine ⟨k1, k3, hrows, ?_⟩
    intro hall
    have hrows2 : (ClearAllCustomRoleAssignments builtInRoles db fuel).2.rows =
        db.rows.map (fun r => { r with Roles := newRolesString builtInRoles r }) := by
      rw [hrows]
      apply List.map_congr_left
      intro r hr
      rw [if_pos (hall r hr)]
    refine ⟨hrows2, ?_⟩
    intro r hr role hrole
    rw [hrows2] at hr
    obtain ⟨r0, _, e⟩ := List.mem_map.1 hr
    rw [← e] at hrole
    have hf : Fields (newRolesString builtInRoles r0) =
        (Fields r0.Roles).filter (fun role => decide (role ∈ builtInRoles)) := by
      rw [newRolesString_eq]; exact Fields_builtInRolesOnly builtInRoles r0.Roles
    have hrole2 : role ∈ Fields (newRolesString builtInRoles r0) := hrole
    rw [hf] at hrole2
    simpa using (List.mem_filter.1 hrole2).2

/-- Witness of C14: one member with a custom role and a doubled space, one
member with built-in roles only; `team_user` and `team_admin` are built in.
The keys are different and follow the initial cursor; the run returns nil,
issues the one update and leaves no custom role. -/
theorem clear_all_custom_role_assignments_witness :
    ((exampleMembersDb exampleMembers).rows.map memberKey).Nodup ∧
    StrictOrder (exampleMembersDb exampleMembers).less ∧
    TotalOrder (exampleMembersDb exampleMembers).less ∧
    (∀ r ∈ (exampleMembersDb exampleMembers).rows,
      afterInitialCursor (exampleMembersDb exampleMembers).less r = true) ∧
    (ClearAllCustomRoleAssignments ["team_user", "team_admin"]
      (exampleMembersDb exampleMembers) 3).1 = some (.ok ()) ∧
    (ClearAllCustomRoleAssignments ["team_user", "team_admin"]
      (exampleMembersDb exampleMembers) 3).2.rows =
      [⟨"team1", "user1", "team_user", 0, default, default, default⟩,
       ⟨"team1", "user2", "team_admin", 0, default, default, default⟩] ∧
    (ClearAllCustomRoleAssignments ["team_user", "team_admin"]
      (exampleMembersDb exampleMembers) 3).2.rows.map withoutRoles =
      (exampleMembersDb exampleMembers).rows.map withoutRoles ∧
    (∀ m, m ∈ (ClearAllCustomRoleAssignments ["team_user", "team_admin"]
      (exampleMembersDb exampleMembers) 3).2.visited ↔ m ∈ exampleMembers) ∧
    (∀ r ∈ (ClearAllCustomRoleAssignments ["team_user", "team_admin"]
      (exampleMembersDb exampleMembers) 3).2.rows,
      ∀ role ∈ Fields r.Roles, role ∈ ["team_user", "team_admin"]) ∧
    (ClearAllCustomRoleAssignments ["team_user", "team_admin"]
      (exampleMembersDb exampleMembers) 3).2.updates =
      [⟨"team_user", "team1", "user1"⟩] := by
  have h1 : ((exampleMembersDb exampleMembers).rows.map memberKey).Nodup := by decide
  obtain ⟨ho, ht⟩ := exampleMembersDb_order exampleMembers
  have hall : ∀ r ∈ (exampleMembersDb exampleMembers).rows,
      afterInitialCursor (exampleMembersDb exampleMembers).less r = true := by decide
  obtain ⟨_, _, c3, c4, c5⟩ := clear_all_custom_role_assignments ["team_user", "team_admin"]
    (exampleMembersDb exampleMembers) 3
  have h2 := c4 ho rfl rfl rfl rfl (by decide)
  obtain ⟨_, k2, _, k4⟩ := c5 ho ht h1 rfl rfl rfl rfl (by decide)
  obtain ⟨k5, k6⟩ := k4 hall
  refine ⟨h1, ho, ht, hall, h2, k5.trans (by decide), (c3 h1 h2).2, ?_, k6, by decide⟩
  intro m
  rw [k2]
  constructor
  · rintro ⟨a, _⟩; exact a
  · intro a; exact ⟨a, hall m a⟩

end SqlStore
